import Mathlib

/-! # Verification of the PostgreSQL data-access layer

Shallow embedding of `golang/postgresql/db_handler/db_handler.go` (connection
pool, placeholder translation) and `golang/postgresql/db_object/db_object.go`
(active-record handle), followed by theorems about them.

Modelling conventions.
* A Go `string` is a `List Char`.  The only byte-level operations of the source
  are the test `string(key[0]) == "!"`, the slice `key[1:]` taken after that
  test succeeded, and the search for the one-byte text `"?"`; on text that is
  valid UTF-8 these agree with the same operations on characters, since an
  ASCII byte never occurs inside a multi-byte sequence.
* Loop counters (`int`, `uint`) are `Nat`: they are bounded by the length of a
  string or of a map.  The use-count `uint16` is a `Nat` reduced `% 65536`.
* A Go map is a nil-able association list; the order in which `range` visits
  it is an explicit argument of every function that ranges over a map.
* Calls that leave the repository (`database/sql`, the error sink) appear as
  events of a trace, and their outcomes are explicit arguments.
-/

namespace DbHandler

/-! ## Library functions used by `PreparePlaceholders` -/

/-- Go `strings.Index(s, substr)`: position of the first occurrence, `none`
for Go's `-1`. -/
def stringsIndex : List Char → List Char → Option Nat
  | [], substr => if substr = [] then some 0 else none
  | c :: cs, substr =>
    if substr.isPrefixOf (c :: cs) then some 0
    else (stringsIndex cs substr).map (· + 1)

/-- Go `strings.Contains(s, substr)`. -/
def stringsContains (s substr : List Char) : Bool :=
  (stringsIndex s substr).isSome

/-- Go `strings.Replace(s, old, new, 1)`: the first occurrence of `old`
replaced by `new`; `s` itself when there is none. -/
def stringsReplace1 (s old new : List Char) : List Char :=
  match stringsIndex s old with
  | none => s
  | some i => s.take i ++ new ++ s.drop (i + old.length)

/-- Go `fmt.Sprintf("$%d", i)` for a non-negative `i`. -/
def sprintfDollar (i : Nat) : List Char := '$' :: Nat.toDigits 10 i

/-! ## `PreparePlaceholders` -/

/-- The `for i := 1; ; i++` loop of `PreparePlaceholders`, started at counter
`i` with the current `query`.  The loop has no bound in the source; `fuel`
bounds the number of iterations and `none` means the fuel ran out.  The result
is `newQuery` at the `break` together with the value of `i` there, which is
the number of iterations made when the loop is started at `i = 1`. -/
def placeholdersLoop : Nat → Nat → List Char → Option (List Char × Nat)
  | 0, _, _ => none
  | fuel + 1, i, query =>
    let newQuery := stringsReplace1 query ['?'] (sprintfDollar i)
    if newQuery = query then some (newQuery, i)
    else placeholdersLoop fuel (i + 1) newQuery

/-- Go `PreparePlaceholders(query)`, run with at most `fuel` loop iterations. -/
def PreparePlaceholders (fuel : Nat) (query : List Char) : Option (List Char) :=
  if stringsContains query ['?'] = false then some query
  else (placeholdersLoop fuel 1 query).map Prod.fst

/-- Number of `?` markers in a text. -/
def countMarkers (q : List Char) : Nat := q.count '?'

/-- The translation as the specification words it: one scan from left to
right in which the marker met when `k - 1` markers have been passed becomes
`$k`, and every other character is copied. -/
def numberMarkers : Nat → List Char → List Char
  | _, [] => []
  | k, c :: cs =>
    if c = '?' then ('$' :: Nat.toDigits 10 k) ++ numberMarkers (k + 1) cs
    else c :: numberMarkers k cs

end DbHandler


/-! ## Go values, maps, faults and events -/

/-- A value of Go type `interface{}`: the nil interface, a byte slice (given by
the text its bytes encode), a string, an integer of a signed type (`int`,
`int8` .. `int64`), an integer of an unsigned type (`uint`, `uint8` ..
`uint64`, `uintptr`), a boolean, or a value of any other type, given by the two
texts that `%v` and `%#v` print for it. -/
inductive Value where
  | null
  | bytes (b : List Char)
  | str (s : List Char)
  | int (n : Int)
  | uint (n : Nat)
  | bool (b : Bool)
  | other (v : List Char) (sharp : List Char)
  deriving DecidableEq, Repr

/-- A Go `error` value, given by its message. -/
abbrev GoError := List Char

/-- A Go map with string keys.  `nil` is the nil map; `mk` holds the entries,
one per key. -/
inductive GoMap (α : Type) where
  | nil
  | mk (entries : List (List Char × α))
  deriving DecidableEq, Repr

namespace GoMap

/-- Go `make(map[string]T)`. -/
def make {α : Type} : GoMap α := mk []

/-- The entries of a map; a nil map has none. -/
def entries {α : Type} : GoMap α → List (List Char × α)
  | nil => []
  | mk es => es

/-- Go `len(m)`. -/
def len {α : Type} (m : GoMap α) : Nat := m.entries.length

/-- The keys of a map. -/
def keys {α : Type} (m : GoMap α) : List (List Char) := m.entries.map Prod.fst

/-- Go `v, ok := m[k]`, with `none` for `ok == false`. -/
def lookup {α : Type} (m : GoMap α) (k : List Char) : Option α :=
  (m.entries.find? (fun e => e.1 = k)).map Prod.snd

/-- The `ok` of Go `_, ok := m[k]`. -/
def contains {α : Type} (m : GoMap α) (k : List Char) : Bool :=
  (m.lookup k).isSome

/-- Go `m[k] = v`; `none` is the run-time panic of an assignment to an entry
of a nil map. -/
def store {α : Type} : GoMap α → List Char → α → Option (GoMap α)
  | nil, _, _ => none
  | mk es, k, v => some (mk ((k, v) :: es.filter (fun e => e.1 ≠ k)))

/-- Go `delete(m, k)`; a no-op on a nil map. -/
def delete {α : Type} : GoMap α → List Char → GoMap α
  | nil, _ => nil
  | mk es, k => mk (es.filter (fun e => e.1 ≠ k))

/-- A map is well formed when no key occurs twice. -/
def WF {α : Type} (m : GoMap α) : Prop := m.keys.Nodup

/-- The sequence `order` is one of the orders in which `range m` may visit
the entries of `m`. -/
def IsRange {α : Type} (order : List (List Char × α)) (m : GoMap α) : Prop :=
  order.Perm m.entries

instance decidableWF {α : Type} (m : GoMap α) : Decidable m.WF :=
  inferInstanceAs (Decidable m.keys.Nodup)

instance decidableIsRange {α : Type} [DecidableEq α] (order : List (List Char × α))
    (m : GoMap α) : Decidable (IsRange order m) :=
  inferInstanceAs (Decidable (order.Perm m.entries))

end GoMap

/-- A run-time panic of the Go program. -/
inductive Fault where
  | indexOutOfRange
  | nilMapWrite
  deriving DecidableEq, Repr

/-- The three notifications of the error-reporting sink
(`error_handler.Debug`, `error_handler.Warning`, `error_handler.Error`). -/
inductive Severity where
  | debug
  | warning
  | error
  deriving DecidableEq, Repr

/-- A connection object `*sql.DB`, named by a number. -/
abbrev Conn := Nat

/-- The calls that leave the modelled code, in the order they are made. -/
inductive Event where
  | report (sev : Severity)
  | queryRow (sql : List Char) (args : List Value)
  | exec (sql : List Char) (args : List Value)
  | sqlOpen (dbURL : List Char)
  | ping (c : Conn)
  | close (c : Conn)
  | sqlQuery (c : Conn) (sql : List Char) (args : List Value)
  | sqlExec (c : Conn) (sql : List Char) (args : List Value)
  deriving DecidableEq, Repr

/-- Go `fmt.Sprintf("%d", i)` for a non-negative `i`. -/
def decimal (i : Nat) : List Char := Nat.toDigits 10 i

/-- Go `fmt.Sprintf("%v", v)`. -/
def sprintfV : Value → List Char
  | .null => "<nil>".toList
  | .bytes b =>
    "[".toList ++
      " ".toList.intercalate
        ((b.flatMap String.utf8EncodeChar).map (fun u => decimal u.toNat)) ++
      "]".toList
  | .str s => s
  | .int n => if n < 0 then '-' :: decimal n.natAbs else decimal n.toNat
  | .uint n => decimal n
  | .bool true => "true".toList
  | .bool false => "false".toList
  | .other v _ => v

/-! ## `db_object.go` -/

/-- The state of a `DbObject`.  The two collaborators `envHandler` and
`dbHandler` are pointers to objects outside the handle: calls to them are
events, and what `dbHandler` answers is an argument of each operation. -/
structure DbObject where
  fields : GoMap (List Char)
  tableName : List Char
  loaded : Bool
  IdField : List Char
  changed : GoMap Value
  functions : GoMap (List Char)
  where_ : GoMap Value
  LoadAfterInsert : Bool
  deriving DecidableEq, Repr

namespace DbObject

/-- Go `New(envHandler, dbHandler, tableName)`. -/
def New (tableName : List Char) : DbObject :=
  { fields := GoMap.make
    tableName := tableName
    loaded := false
    IdField := "id".toList
    changed := GoMap.make
    functions := GoMap.make
    where_ := GoMap.make
    LoadAfterInsert := true }

/-- What an operation leaves behind when it returns: the handle, the returned
value and the calls it made. -/
structure Outcome (α : Type) where
  self : DbObject
  ret : α
  trace : List Event
  deriving DecidableEq, Repr

/-- The variables of a clause-building loop: the text built so far, the
placeholder counter `i` and the bind list. -/
structure Acc where
  text : List Char
  i : Nat
  bind : List Value
  deriving DecidableEq, Repr

/-- The body of the loop `for key, value := range ...` that builds a WHERE
clause (the same body stands in `Load`, `update` and `Delete`).  The
expression `key[0]` panics on the empty key. -/
def whereStep (acc : Acc) (key : List Char) (value : Value) : Except Fault Acc :=
  let w := if acc.text ≠ [] then acc.text ++ " AND ".toList else acc.text
  match key with
  | [] => .error .indexOutOfRange
  | c :: rest =>
    if c = '!' then
      .ok ⟨w ++ "\"".toList ++ rest ++ "\" <> $".toList ++ decimal acc.i,
        acc.i + 1, acc.bind ++ [value]⟩
    else
      .ok ⟨w ++ "\"".toList ++ key ++ "\" = $".toList ++ decimal acc.i,
        acc.i + 1, acc.bind ++ [value]⟩

/-- The WHERE-clause loop over the entries in the order `range` yields them. -/
def whereLoop : Acc → List (List Char × Value) → Except Fault Acc
  | acc, [] => .ok acc
  | acc, (key, value) :: rest =>
    match whereStep acc key value with
    | .error f => .error f
    | .ok acc' => whereLoop acc' rest

/-- What `dbHandler.QueryRow` gives back: `(nil, err)` or a row mapping that
is not nil (`db_handler.go`, `QueryRow`). -/
abbrev RowReply := Except GoError (List (List Char × List Char))

/-- Go `DbObject.Load(whereParams)`; `order` is the order in which `range
whereParams` yields the entries and `reply` what `QueryRow` answers if it is
called. -/
def Load (h : DbObject) (whereParams : GoMap Value)
    (order : List (List Char × Value)) (reply : RowReply) :
    Except Fault (Outcome (Bool × Option GoError)) :=
  if whereParams.len = 0 then
    .ok ⟨h, (false, some "No \"WHERE\" parameters passed.".toList), [.report .error]⟩
  else
    match whereLoop ⟨[], 1, []⟩ order with
    | .error f => .error f
    | .ok acc =>
      let query := "SELECT * FROM \"".toList ++ h.tableName ++ "\" WHERE ".toList ++ acc.text
      match reply with
      | .error err =>
        .ok ⟨{ h with fields := GoMap.nil }, (false, some err),
          [.queryRow query acc.bind, .report .error]⟩
      | .ok row =>
        let loaded := decide (0 < row.length)
        .ok ⟨{ h with
                fields := GoMap.mk row
                changed := GoMap.make
                functions := GoMap.make
                loaded := loaded
                where_ := whereParams },
          (loaded, none), [.queryRow query acc.bind]⟩

/-- Go `DbObject.Loaded()`. -/
def Loaded (h : DbObject) : Bool := h.loaded

/-- Go `DbObject.Get(fieldName)`: the zero value `""` for a missing key. -/
def Get (h : DbObject) (fieldName : List Char) : List Char :=
  (h.fields.lookup fieldName).getD []

/-- The text `Set` stores in `fields`: `string(b)` when the value is a byte
slice `b`, and `fmt.Sprintf("%v", fieldValue)` otherwise. -/
def setText : Value → List Char
  | .bytes b => b
  | v => sprintfV v

/-- Go `DbObject.Set(fieldName, fieldValue)`. -/
def Set (h : DbObject) (fieldName : List Char) (fieldValue : Value) :
    Except Fault DbObject :=
  match h.fields.store fieldName (setText fieldValue) with
  | none => .error .nilMapWrite
  | some fields =>
    match h.changed.store fieldName fieldValue with
    | none => .error .nilMapWrite
    | some changed =>
      .ok { h with
            fields := fields
            changed := changed
            functions := h.functions.delete fieldName }

/-- Go `DbObject.SetFunction(fieldName, fieldFunction)`. -/
def SetFunction (h : DbObject) (fieldName fieldFunction : List Char) :
    Except Fault DbObject :=
  match h.functions.store fieldName fieldFunction with
  | none => .error .nilMapWrite
  | some functions =>
    .ok { h with
          functions := functions
          fields := h.fields.delete fieldName
          changed := h.changed.delete fieldName }

/-- The caller's assignment `whereParams[key] = value` to the map it has
passed to a `Load` that returned without an error.  `Load` keeps the map
itself (`h.where = whereParams`, db_object.go:81), not a copy, so the entry
is written to `h.where`. -/
def storeInCondition (h : DbObject) (key : List Char) (value : Value) :
    Except Fault DbObject :=
  match h.where_.store key value with
  | none => .error .nilMapWrite
  | some where_ => .ok { h with where_ := where_ }

/-- The orders in which the three `range` loops of `update` and `insert`
visit `changed`, `functions` and `where`. -/
structure Orders where
  changed : List (List Char × Value)
  functions : List (List Char × List Char)
  where_ : List (List Char × Value)
  deriving DecidableEq, Repr

/-- What the database handler answers to the calls `Save` may make: to
`Exec`, to the `QueryRow` of `INSERT ... RETURNING`, and to the `QueryRow` of
the `Load` that follows it. -/
structure Replies where
  exec : Option GoError
  queryRow : RowReply
  reload : RowReply

/-- The body of the first loop of `update`, over `changed`. -/
def updateChangedStep (acc : Acc) (e : List Char × Value) : Acc :=
  let set := if acc.text ≠ [] then acc.text ++ ", ".toList else acc.text
  ⟨set ++ "\"".toList ++ e.1 ++ "\" = $".toList ++ decimal acc.i,
    acc.i + 1, acc.bind ++ [e.2]⟩

/-- The body of the second loop of `update`, over `functions`. -/
def updateFunctionsStep (acc : Acc) (e : List Char × List Char) : Acc :=
  let set := if acc.text ≠ [] then acc.text ++ ", ".toList else acc.text
  ⟨set ++ "\"".toList ++ e.1 ++ "\" = ".toList ++ e.2, acc.i, acc.bind⟩

/-- Go `DbObject.update()`. -/
def update (h : DbObject) (o : Orders) (execReply : Option GoError) :
    Except Fault (Outcome (Option GoError)) :=
  let acc1 := o.changed.foldl updateChangedStep ⟨[], 1, []⟩
  let acc2 := o.functions.foldl updateFunctionsStep acc1
  match whereLoop ⟨[], acc2.i, acc2.bind⟩ o.where_ with
  | .error f => .error f
  | .ok acc3 =>
    let query := "UPDATE \"".toList ++ h.tableName ++ "\" SET ".toList ++ acc2.text ++
      " WHERE ".toList ++ acc3.text
    match execReply with
    | some err => .ok ⟨h, some err, [.exec query acc3.bind, .report .error]⟩
    | none => .ok ⟨h, none, [.exec query acc3.bind]⟩

/-- The variables of the loops of `insert`. -/
structure InsertAcc where
  fields : List Char
  values : List Char
  i : Nat
  bind : List Value
  deriving DecidableEq, Repr

/-- The two separator statements at the head of every column of `insert`. -/
def insertSeparate (acc : InsertAcc) : InsertAcc :=
  { acc with
    fields := if acc.fields ≠ [] then acc.fields ++ ", ".toList else acc.fields
    values := if acc.values ≠ [] then acc.values ++ ", ".toList else acc.values }

/-- A column of `insert` whose value is bound to a numbered placeholder. -/
def insertBound (acc : InsertAcc) (key : List Char) (value : Value) : InsertAcc :=
  let s := insertSeparate acc
  { fields := s.fields ++ "\"".toList ++ key ++ "\"".toList
    values := s.values ++ "$".toList ++ decimal s.i
    i := s.i + 1
    bind := s.bind ++ [value] }

/-- The body of the first loop of `insert`, over `where`. -/
def insertWhereStep (h : DbObject) (acc : InsertAcc) (key : List Char) (value : Value) :
    Except Fault InsertAcc :=
  match key with
  | [] => .error .indexOutOfRange
  | c :: _ =>
    if c = '!' then .ok acc
    else
      let functionsKey := h.functions.contains key
      let changedKey := h.changed.contains key
      if functionsKey = false ∧ changedKey = false then .ok (insertBound acc key value)
      else .ok acc

/-- The first loop of `insert`. -/
def insertWhereLoop (h : DbObject) : InsertAcc → List (List Char × Value) → Except Fault InsertAcc
  | acc, [] => .ok acc
  | acc, (key, value) :: rest =>
    match insertWhereStep h acc key value with
    | .error f => .error f
    | .ok acc' => insertWhereLoop h acc' rest

/-- The body of the second loop of `insert`, over `functions`. -/
def insertFunctionsStep (acc : InsertAcc) (e : List Char × List Char) : InsertAcc :=
  let s := insertSeparate acc
  { s with
    fields := s.fields ++ "\"".toList ++ e.1 ++ "\"".toList
    values := s.values ++ e.2 }

/-- The body of the third loop of `insert`, over `changed`. -/
def insertChangedStep (acc : InsertAcc) (e : List Char × Value) : InsertAcc :=
  insertBound acc e.1 e.2

/-- The statement text and bind list that `insert` has built when its three
loops are over (before `RETURNING` is appended). -/
def insertStatement (h : DbObject) (o : Orders) : Except Fault (List Char × List Value) :=
  match insertWhereLoop h ⟨[], [], 1, []⟩ o.where_ with
  | .error f => .error f
  | .ok acc1 =>
    let acc2 := o.functions.foldl insertFunctionsStep acc1
    let acc3 := o.changed.foldl insertChangedStep acc2
    let fields := " (".toList ++ acc3.fields ++ ")".toList
    let values := " VALUES (".toList ++ acc3.values ++ ")".toList
    .ok ("INSERT INTO \"".toList ++ h.tableName ++ "\"".toList ++ fields ++ values, acc3.bind)

/-- Go `DbObject.insert()`. -/
def insert (h : DbObject) (o : Orders) (r : Replies) :
    Except Fault (Outcome (Option GoError)) :=
  match insertStatement h o with
  | .error f => .error f
  | .ok (query0, bind) =>
    if h.LoadAfterInsert then
      let query := query0 ++ " RETURNING \"".toList ++ h.IdField ++ "\"".toList
      match r.queryRow with
      | .error err => .ok ⟨h, some err, [.queryRow query bind, .report .error]⟩
      | .ok data =>
        let id := ((GoMap.mk data).lookup h.IdField).getD []
        match Load h (GoMap.mk [(h.IdField, Value.str id)]) [(h.IdField, Value.str id)]
            r.reload with
        | .error f => .error f
        | .ok out =>
          match out.ret.2 with
          | some err =>
            .ok ⟨out.self, some err, Event.queryRow query bind :: out.trace ++ [.report .error]⟩
          | none => .ok ⟨out.self, none, Event.queryRow query bind :: out.trace⟩
    else
      match r.exec with
      | some err => .ok ⟨h, some err, [.exec query0 bind, .report .error]⟩
      | none => .ok ⟨h, none, [.exec query0 bind]⟩

/-- Go `DbObject.Save()`. -/
def Save (h : DbObject) (o : Orders) (r : Replies) :
    Except Fault (Outcome (Option GoError)) :=
  if h.loaded then update h o r.exec else insert h o r

/-- Go `DbObject.Delete()`; `order` is the order in which `range h.where`
yields the entries. -/
def Delete (h : DbObject) (order : List (List Char × Value)) (execReply : Option GoError) :
    Except Fault (Outcome (Option GoError)) :=
  if h.loaded = false then .ok ⟨h, none, []⟩
  else
    match whereLoop ⟨[], 1, []⟩ order with
    | .error f => .error f
    | .ok acc =>
      let query := "DELETE FROM \"".toList ++ h.tableName ++ "\" WHERE ".toList ++ acc.text
      match execReply with
      | some err => .ok ⟨h, some err, [.exec query acc.bind, .report .error]⟩
      | none => .ok ⟨h, none, [.exec query acc.bind]⟩

/-- Go `DbObject.Fields()`. -/
def Fields (h : DbObject) : GoMap (List Char) := h.fields

end DbObject

/-! ## The statements as the specification words them -/

namespace Spec

/-- An identifier wrapped in double quotes. -/
def quoted (name : List Char) : List Char := "\"".toList ++ name ++ "\"".toList

/-- The placeholder numbered `j`. -/
def placeholder (j : Nat) : List Char := '$' :: (Nat.repr j).toList

/-- The predicate for one key of a condition: `"<key without !>" <> $j` for a
key that begins with `!`, and `"<key>" = $j` for any other key. -/
def predicate (key : List Char) (j : Nat) : List Char :=
  if key.head? = some '!' then quoted key.tail ++ " <> ".toList ++ placeholder j
  else quoted key ++ " = ".toList ++ placeholder j

/-- One predicate per entry, numbered upwards from `j`. -/
def predicates : Nat → List (List Char × Value) → List (List Char)
  | _, [] => []
  | j, e :: es => predicate e.1 j :: predicates (j + 1) es

/-- The WHERE clause: the predicates joined by ` AND `. -/
def whereClause (j : Nat) (es : List (List Char × Value)) : List Char :=
  " AND ".toList.intercalate (predicates j es)

/-- The parameterized SET terms `"<key>" = $j`, numbered upwards from `j`. -/
def setTerms : Nat → List (List Char × Value) → List (List Char)
  | _, [] => []
  | j, e :: es => (quoted e.1 ++ " = ".toList ++ placeholder j) :: setTerms (j + 1) es

/-- The SET terms `"<key>" = <expression>` of the function assignments. -/
def functionTerms (fs : List (List Char × List Char)) : List (List Char) :=
  fs.map (fun e => quoted e.1 ++ " = ".toList ++ e.2)

/-- The placeholders `$j`, `$(j+1)`, ... for `n` values. -/
def placeholders : Nat → Nat → List (List Char)
  | _, 0 => []
  | j, n + 1 => placeholder j :: placeholders (j + 1) n

/-- The statement of `Load`. -/
def selectStatement (tableName : List Char) (es : List (List Char × Value)) : List Char :=
  "SELECT * FROM ".toList ++ quoted tableName ++ " WHERE ".toList ++ whereClause 1 es

/-- The statement of `update`: the SET clause lists the changed columns and
then the function columns; the WHERE clause goes on numbering after them. -/
def updateStatement (tableName : List Char) (changed : List (List Char × Value))
    (functions : List (List Char × List Char)) (cond : List (List Char × Value)) :
    List Char :=
  "UPDATE ".toList ++ quoted tableName ++ " SET ".toList ++
    ", ".toList.intercalate (setTerms 1 changed ++ functionTerms functions) ++
    " WHERE ".toList ++ whereClause (changed.length + 1) cond

/-- The statement of `Delete`. -/
def deleteStatement (tableName : List Char) (es : List (List Char × Value)) : List Char :=
  "DELETE FROM ".toList ++ quoted tableName ++ " WHERE ".toList ++ whereClause 1 es

/-- The entries of the stored condition that seed an INSERT: the key does not
begin with `!` and is pending neither in `changed` nor in `functions`. -/
def seeded (h : DbObject) (cond : List (List Char × Value)) : List (List Char × Value) :=
  cond.filter (fun e => decide (e.1.head? ≠ some '!') && !h.changed.contains e.1
    && !h.functions.contains e.1)

/-- The column names of an INSERT, in the order of the specification. -/
def insertColumns (seed : List (List Char × Value)) (functions : List (List Char × List Char))
    (changed : List (List Char × Value)) : List (List Char) :=
  seed.map Prod.fst ++ functions.map Prod.fst ++ changed.map Prod.fst

/-- The values of an INSERT, one per column. -/
def insertValues (seed : List (List Char × Value)) (functions : List (List Char × List Char))
    (changed : List (List Char × Value)) : List (List Char) :=
  placeholders 1 seed.length ++ functions.map Prod.snd ++
    placeholders (seed.length + 1) changed.length

/-- The statement of `insert`, without the `RETURNING` part. -/
def insertStatement (tableName : List Char) (seed : List (List Char × Value))
    (functions : List (List Char × List Char)) (changed : List (List Char × Value)) :
    List Char :=
  "INSERT INTO ".toList ++ quoted tableName ++ " (".toList ++
    ", ".toList.intercalate ((insertColumns seed functions changed).map quoted) ++
    ") VALUES (".toList ++
    ", ".toList.intercalate (insertValues seed functions changed) ++ ")".toList

end Spec

/-! ## The handle states that calls can produce -/

namespace DbObject

/-- The states of a handle that its exported interface produces: `New`, then
any calls of `Set`, `SetFunction`, `Load`, `Save` and `Delete` that return, and
assignments to the two exported fields.  Every `range` visits the entries of
its map in some order, and a condition map is a map.  The relation takes the
caller not to write to a condition map after it was passed to `Load` (the
handle keeps the map itself, not a copy). -/
inductive Reachable : DbObject → Prop
  | new (tableName : List Char) : Reachable (New tableName)
  | assignIdField {h : DbObject} (name : List Char) :
      Reachable h → Reachable { h with IdField := name }
  | assignLoadAfterInsert {h : DbObject} (b : Bool) :
      Reachable h → Reachable { h with LoadAfterInsert := b }
  | set {h h' : DbObject} (fieldName : List Char) (fieldValue : Value) :
      Reachable h → Set h fieldName fieldValue = .ok h' → Reachable h'
  | setFunction {h h' : DbObject} (fieldName fieldFunction : List Char) :
      Reachable h → SetFunction h fieldName fieldFunction = .ok h' → Reachable h'
  | load {h : DbObject} {out : Outcome (Bool × Option GoError)}
      (whereParams : GoMap Value) (order : List (List Char × Value)) (reply : RowReply) :
      Reachable h → whereParams.WF → GoMap.IsRange order whereParams →
      Load h whereParams order reply = .ok out → Reachable out.self
  | save {h : DbObject} {out : Outcome (Option GoError)} (o : Orders) (r : Replies) :
      Reachable h → GoMap.IsRange o.changed h.changed →
      GoMap.IsRange o.functions h.functions → GoMap.IsRange o.where_ h.where_ →
      Save h o r = .ok out → Reachable out.self
  | delete {h : DbObject} {out : Outcome (Option GoError)}
      (order : List (List Char × Value)) (execReply : Option GoError) :
      Reachable h → GoMap.IsRange order h.where_ →
      Delete h order execReply = .ok out → Reachable out.self

/-- The text a clause-building loop of the source reaches from `text`: before
each item the separator is added when the text so far is not empty. -/
def joinOnto (sep : List Char) (text : List Char) (items : List (List Char)) : List Char :=
  items.foldl (fun t x => (if t ≠ [] then t ++ sep else t) ++ x) text

/-- The two facts that hold of every reachable handle: no column is pending
both as a value and as an expression, and the stored condition has no empty
key. -/
def Inv (h : DbObject) : Prop :=
  (∀ k, k ∈ h.changed.keys → k ∉ h.functions.keys) ∧ (∀ k ∈ h.where_.keys, k ≠ [])

end DbObject

/-! ## Concrete handles used as examples -/

namespace Example

/-- A handle on table `t` after `Load({"id": 3})` found the row `id = 3` and
`Set("name", "Ada")` was called. -/
def loadedHandle : DbObject :=
  { DbObject.New "t".toList with
    fields := GoMap.mk [("name".toList, "Ada".toList), ("id".toList, "3".toList)]
    loaded := true
    changed := GoMap.mk [("name".toList, .str "Ada".toList)]
    where_ := GoMap.mk [("id".toList, .int 3)] }

/-- A handle on table `t` after `Load({"tenant_id": 7})` found no row. -/
def seededHandle : DbObject :=
  { DbObject.New "t".toList with
    fields := GoMap.mk []
    where_ := GoMap.mk [("tenant_id".toList, .int 7)] }

/-- A handle on table `t` after `SetFunction("x", "")` and `Set("y", 1)`. -/
def emptyExpressionHandle : DbObject :=
  { DbObject.New "t".toList with
    fields := GoMap.mk [("y".toList, "1".toList)]
    changed := GoMap.mk [("y".toList, .int 1)]
    functions := GoMap.mk [("x".toList, [])] }

/-- The condition map
`{"tenant": 7, "id": 3, "name": "x", "!state": "gone", "region": "eu"}`. -/
def pendingCondition : GoMap Value :=
  GoMap.mk [("tenant".toList, .int 7), ("id".toList, .int 3),
    ("name".toList, .str "x".toList), ("!state".toList, .str "gone".toList),
    ("region".toList, .str "eu".toList)]

/-- A handle on table `t` after `Load(pendingCondition)` found no row, and
then `Set("name", "Bob")` and `SetFunction("id", "DEFAULT")` were called: of
the five keys of `where`, `id` is pending in `functions`, `name` is pending in
`changed` and `!state` is a negated key. -/
def pendingHandle : DbObject :=
  { DbObject.New "t".toList with
    fields := GoMap.mk [("name".toList, "Bob".toList)]
    changed := GoMap.mk [("name".toList, .str "Bob".toList)]
    functions := GoMap.mk [("id".toList, "DEFAULT".toList)]
    where_ := pendingCondition }

/-- An order in which the loops of `insert` may visit the maps of
`pendingHandle`. -/
def pendingOrders : DbObject.Orders :=
  ⟨[("name".toList, .str "Bob".toList)], [("id".toList, "DEFAULT".toList)],
    [("name".toList, .str "x".toList), ("region".toList, .str "eu".toList),
      ("!state".toList, .str "gone".toList), ("id".toList, .int 3),
      ("tenant".toList, .int 7)]⟩

/-- A handle on table `t` after `Load(m)` with `m = {"id": 3}` found the row
`id = 3` and the caller then assigned `m[""] = 1`. -/
def aliasedHandle : DbObject :=
  { DbObject.New "t".toList with
    fields := GoMap.mk [("id".toList, "3".toList)]
    loaded := true
    where_ := GoMap.mk [([], .int 1), ("id".toList, .int 3)] }

/-- Replies of a database handler that accepts everything and returns the
identity 1. -/
def acceptAll : DbObject.Replies :=
  { exec := none
    queryRow := .ok [("id".toList, "1".toList)]
    reload := .ok [("id".toList, "1".toList)] }

end Example

/-! ## `db_handler.go`: the connection pool -/

/-- The state of a `DbHandler`.  The collaborator `envHandler` is a pointer to
an object outside the handle; calls to it are events. -/
structure DbHandler where
  dbh : Option Conn
  Debug : Bool
  DeleteNullValues : Bool
  dbURLHash : List Char
  deriving DecidableEq, Repr

/-- The package variables `dbh` and `activeConnections`.  `init` makes both
maps and nothing assigns them again, so neither is ever nil: the state is their
entries.  A registry value is a pointer and may be nil; a use-count is a
`uint16`. -/
structure Pool where
  dbh : List (List Char × Option Conn)
  activeConnections : List (List Char × Nat)
  deriving DecidableEq, Repr

namespace Pool

/-- The package state after `init`. -/
def init : Pool := ⟨[], []⟩

/-- Go `dbh[key]`: nil for a missing key. -/
def conn (p : Pool) (key : List Char) : Option Conn :=
  ((GoMap.mk p.dbh).lookup key).getD none

/-- Go `activeConnections[key]`: 0 for a missing key. -/
def count (p : Pool) (key : List Char) : Nat :=
  ((GoMap.mk p.activeConnections).lookup key).getD 0

/-- Go `m[key] = v` on the entries of a map that is not nil. -/
def put {α : Type} (es : List (List Char × α)) (key : List Char) (v : α) :
    List (List Char × α) :=
  (GoMap.mk ((key, v) :: es.filter (fun e => e.1 ≠ key))).entries

/-- Go `delete(m, key)` on the entries of a map that is not nil. -/
def remove {α : Type} (es : List (List Char × α)) (key : List Char) :
    List (List Char × α) :=
  ((GoMap.mk es).delete key).entries

end Pool

namespace DbHandler

/-- Go `New(envHandler)`. -/
def New : DbHandler :=
  { dbh := none, Debug := false, DeleteNullValues := false, dbURLHash := [] }

/-- What a pool operation leaves behind when it returns: the package state,
the handle, the returned error and the calls it made. -/
structure Outcome where
  pool : Pool
  self : DbHandler
  err : Option GoError
  trace : List Event
  deriving DecidableEq, Repr

/-- The part of `Connect` from `h.dbURLHash = dbURLHash` on, where
`dbh[dbURLHash]` is the connection `c`; `trace` holds the calls made before. -/
def connectPing (p : Pool) (h : DbHandler) (dbURLHash : List Char) (c : Conn)
    (pingReply : Option GoError) (trace : List Event) : Outcome :=
  let h1 := { h with dbURLHash := dbURLHash, dbh := some c }
  match pingReply with
  | some err => ⟨p, h1, some err, trace ++ [.ping c, .report .error]⟩
  | none =>
    ⟨{ p with
        activeConnections :=
          Pool.put p.activeConnections dbURLHash ((p.count dbURLHash + 1) % 65536) },
      h1, none, trace ++ [.ping c]⟩

/-- Go `DbHandler.Connect(dbURL)`.  `md5hex` is `fmt.Sprintf("%x",
md5.Sum(...))`; `openReply` and `pingReply` are what `sql.Open` and `Ping`
answer if they are called. -/
def Connect (md5hex : List Char → List Char) (p : Pool) (h : DbHandler) (dbURL : List Char)
    (openReply : Except GoError Conn) (pingReply : Option GoError) : Outcome :=
  let dbURLHash := md5hex dbURL
  match p.conn dbURLHash with
  | none =>
    match openReply with
    | .error err =>
      ⟨{ p with dbh := Pool.put p.dbh dbURLHash none }, h, some err, [.sqlOpen dbURL]⟩
    | .ok c =>
      connectPing { p with dbh := Pool.put p.dbh dbURLHash (some c) } h dbURLHash c pingReply
        [.sqlOpen dbURL]
  | some c => connectPing p h dbURLHash c pingReply []

/-- Go `DbHandler.checkConn()`. -/
def checkConn (p : Pool) (h : DbHandler) : Option GoError × List Event :=
  if h.dbh = none ∨ p.conn h.dbURLHash = none then
    (some "connection closed".toList, [.report .error])
  else (none, [])

/-- Go `DbHandler.Disconnect()`; `closeReply` is what `Close` answers if it is
called.  The deferred function sets `h.dbh` to nil on every path.  `Close` is
called on `h.dbh`, which is not nil there: `checkConn` has returned an error
otherwise, so the branch `h.dbh = none` after the check is never taken. -/
def Disconnect (p : Pool) (h : DbHandler) (closeReply : Option GoError) : Outcome :=
  let h1 := { h with dbh := none }
  match checkConn p h with
  | (some err, trace) => ⟨p, h1, some err, trace ++ [.report .error]⟩
  | (none, trace) =>
    let p1 : Pool :=
      if 0 < p.count h.dbURLHash then
        { p with
          activeConnections :=
            Pool.put p.activeConnections h.dbURLHash (p.count h.dbURLHash - 1) }
      else p
    if 0 < p1.count h.dbURLHash then ⟨p1, h1, none, trace⟩
    else
      let p2 : Pool :=
        { dbh := Pool.remove p1.dbh h.dbURLHash
          activeConnections := Pool.remove p1.activeConnections h.dbURLHash }
      match h.dbh with
      | none => ⟨p2, h1, none, trace⟩
      | some c =>
        match closeReply with
        | some err => ⟨p2, h1, some err, trace ++ [.close c, .report .warning]⟩
        | none => ⟨p2, h1, none, trace ++ [.close c]⟩

/-- A series of `Connect(dbURL)` calls, one per handle, each with the replies
given for it; the final package state and the outcome of every call, in
order. -/
def connectEach (md5hex : List Char → List Char) (dbURL : List Char) :
    Pool → List (DbHandler × Except GoError Conn × Option GoError) → Pool × List Outcome
  | p, [] => (p, [])
  | p, (h, openReply, pingReply) :: rest =>
    let out := Connect md5hex p h dbURL openReply pingReply
    let r := connectEach md5hex dbURL out.pool rest
    (r.1, out :: r.2)

/-- A series of `Disconnect()` calls, one per handle, each with the reply
given for its `Close`; the final package state and the outcome of every call,
in order. -/
def disconnectEach : Pool → List (DbHandler × Option GoError) → Pool × List Outcome
  | p, [] => (p, [])
  | p, (h, closeReply) :: rest =>
    let out := Disconnect p h closeReply
    let r := disconnectEach out.pool rest
    (r.1, out :: r.2)

/-- The `Close` calls among the events of a trace. -/
def closes (trace : List Event) : List Event :=
  trace.filter (fun e => e matches .close _)

end DbHandler

namespace Example

/-- As many as 65536 calls of `Connect`, each by a new handle, each answered with
success (`sql.Open` returning the connection 7). -/
def manyCalls : List (DbHandler × Except GoError Conn × Option GoError) :=
  List.replicate 65536 (DbHandler.New, .ok 7, none)

/-- Two calls of `Connect` by two new handles, answered with success. -/
def twoCalls : List (DbHandler × Except GoError Conn × Option GoError) :=
  [(DbHandler.New, .ok 7, none), ({ DbHandler.New with Debug := true }, .ok 8, none)]

end Example

namespace DbObject

/-- The three maps a handle ranges over are well formed. -/
def WFInv (h : DbObject) : Prop := h.changed.WF ∧ h.functions.WF ∧ h.where_.WF

end DbObject

/-! ## `db_handler.go`: queries -/

/-- The lower-case hexadecimal numeral of `n`, padded with zeros to `width`
digits. -/
def hexPad (width n : Nat) : List Char :=
  List.replicate (width - (Nat.toDigits 16 n).length) '0' ++ Nat.toDigits 16 n

/-- Go `strconv.IsPrint(r)`: up to U+00FF the rule written out in `strconv`,
above it the table of `strconv`, which is the argument `isPrintTable`. -/
def goIsPrint (isPrintTable : Char → Bool) (r : Char) : Bool :=
  if r.toNat ≤ 0xFF then
    (decide (0x20 ≤ r.toNat) && decide (r.toNat ≤ 0x7E)) ||
      (decide (0xA1 ≤ r.toNat) && decide (r.toNat ≠ 0xAD))
  else isPrintTable r

/-- What `strconv.Quote` writes for one rune of the text. -/
def quoteRune (isPrintTable : Char → Bool) (r : Char) : List Char :=
  if r = Char.ofNat 34 ∨ r = Char.ofNat 92 then [Char.ofNat 92, r]
  else if goIsPrint isPrintTable r then [r]
  else if r.toNat = 7 then [Char.ofNat 92, 'a']
  else if r.toNat = 8 then [Char.ofNat 92, 'b']
  else if r.toNat = 12 then [Char.ofNat 92, 'f']
  else if r.toNat = 10 then [Char.ofNat 92, 'n']
  else if r.toNat = 13 then [Char.ofNat 92, 'r']
  else if r.toNat = 9 then [Char.ofNat 92, 't']
  else if r.toNat = 11 then [Char.ofNat 92, 'v']
  else if r.toNat < 0x20 ∨ r.toNat = 0x7F then Char.ofNat 92 :: 'x' :: hexPad 2 r.toNat
  else if r.toNat < 0x10000 then Char.ofNat 92 :: 'u' :: hexPad 4 r.toNat
  else Char.ofNat 92 :: 'U' :: hexPad 8 r.toNat

/-- Go `strconv.Quote(s)`. -/
def strconvQuote (isPrintTable : Char → Bool) (s : List Char) : List Char :=
  Char.ofNat 34 :: s.flatMap (quoteRune isPrintTable) ++ [Char.ofNat 34]

/-- Go `fmt.Sprintf("%#v", v)`.  An integer of a signed type is printed in
decimal; an integer of an unsigned type is printed in hexadecimal after `0x`
(`fmtInteger` in `fmt/print.go`: with `%#v` an unsigned value goes through
`fmt0x64`). -/
def sprintfSharpV (isPrintTable : Char → Bool) : Value → List Char
  | .null => "<nil>".toList
  | .bytes b =>
    "[]byte".toList ++ [Char.ofNat 123] ++
      ", ".toList.intercalate
        ((b.flatMap String.utf8EncodeChar).map
          (fun u => "0x".toList ++ Nat.toDigits 16 u.toNat)) ++
      [Char.ofNat 125]
  | .str s => strconvQuote isPrintTable s
  | .int n => if n < 0 then '-' :: decimal n.natAbs else decimal n.toNat
  | .uint n => "0x".toList ++ Nat.toDigits 16 n
  | .bool true => "true".toList
  | .bool false => "false".toList
  | .other _ sharp => sharp

/-- What `database/sql` answers to a query that was accepted: the outcome of
`rows.Columns()`, for every row that `rows.Next()` announces the outcome of
`rows.Scan` (on success one value per column), and `rows.Err()`. -/
structure RowsReply where
  columns : Except GoError (List (List Char))
  scans : List (Except GoError (List Value))
  err : Option GoError

/-- What `database/sql` answers to `Query`. -/
abbrev QueryReply := Except GoError RowsReply

namespace DbHandler

/-- The body of the loop `for i := range values` of `Query` for the column
`col`, on the row mapping built so far. -/
def decodeStep (isPrintTable : Char → Bool) (deleteNullValues : Bool)
    (row : List (List Char × List Char)) (col : List Char) (value : Value) :
    List (List Char × List Char) :=
  match value with
  | .bytes b => Pool.put row col b
  | .null => if deleteNullValues = false then Pool.put row col [] else row
  | v => Pool.put row col (sprintfSharpV isPrintTable v)

/-- The row mapping `Query` builds from the values of one scanned row. -/
def decodeRow (isPrintTable : Char → Bool) (deleteNullValues : Bool)
    (columnsNames : List (List Char)) (values : List Value) : List (List Char × List Char) :=
  (columnsNames.zip values).foldl
    (fun row cv => decodeStep isPrintTable deleteNullValues row cv.1 cv.2) []

/-- The loop `for rows.Next()` of `Query`: `data` grows by one mapping per
row; the error is that of a failing `Scan`. -/
def scanLoop (isPrintTable : Char → Bool) (deleteNullValues : Bool)
    (columnsNames : List (List Char)) :
    List (List (List Char × List Char)) → List (Except GoError (List Value)) →
      Except GoError (List (List (List Char × List Char)))
  | data, [] => .ok data
  | _, .error err :: _ => .error err
  | data, .ok values :: rest =>
    scanLoop isPrintTable deleteNullValues columnsNames
      (data ++ [decodeRow isPrintTable deleteNullValues columnsNames values]) rest

/-- What `Query` returns: the slice of row mappings (nil and empty are both
the empty list), the error, and the calls made. -/
structure QueryOutcome where
  data : List (List (List Char × List Char))
  err : Option GoError
  trace : List Event

/-- Go `DbHandler.Query(query, args...)`; `reply` is what `database/sql`
answers if the query is sent.  The query is sent on `h.dbh`, which is not nil
there: `checkConn` has returned an error otherwise, so the branch
`h.dbh = none` after the check is never taken. -/
def Query (isPrintTable : Char → Bool) (p : Pool) (h : DbHandler) (query : List Char)
    (args : List Value) (reply : QueryReply) : QueryOutcome :=
  match checkConn p h with
  | (some err, trace) => ⟨[], some err, trace ++ [.report .error]⟩
  | (none, trace) =>
    let trace1 := if h.Debug = true then trace ++ [.report .debug] else trace
    match h.dbh with
    | none => ⟨[], none, trace1⟩
    | some c =>
      let trace2 := trace1 ++ [.sqlQuery c query args]
      match reply with
      | .error err => ⟨[], some err, trace2 ++ [.report .error]⟩
      | .ok rows =>
        match rows.columns with
        | .error err => ⟨[], some err, trace2 ++ [.report .error]⟩
        | .ok columns =>
          match scanLoop isPrintTable h.DeleteNullValues columns [] rows.scans with
          | .error err => ⟨[], some err, trace2 ++ [.report .error]⟩
          | .ok data =>
            match rows.err with
            | some err => ⟨[], some err, trace2 ++ [.report .error]⟩
            | none => ⟨data, none, trace2⟩

/-- What `QueryRow` returns: the row mapping (nil on an error), the error,
and the calls made. -/
structure QueryRowOutcome where
  data : GoMap (List Char)
  err : Option GoError
  trace : List Event

/-- Go `DbHandler.QueryRow(query, args...)`. -/
def QueryRow (isPrintTable : Char → Bool) (p : Pool) (h : DbHandler) (query : List Char)
    (args : List Value) (reply : QueryReply) : QueryRowOutcome :=
  let out := Query isPrintTable p h query args reply
  match out.err with
  | some err => ⟨GoMap.nil, some err, out.trace ++ [.report .error]⟩
  | none =>
    match out.data with
    | row :: _ => ⟨GoMap.mk row, none, out.trace⟩
    | [] => ⟨GoMap.make, none, out.trace⟩

/-- What `Exec` and `TruncateTables` return: the error and the calls made
(the `sql.Result` is not looked at by any caller in the repository). -/
structure ExecOutcome where
  err : Option GoError
  trace : List Event

/-- Go `DbHandler.Exec(query, args...)`; `reply` is the error that
`database/sql` answers if the statement is sent. -/
def Exec (p : Pool) (h : DbHandler) (query : List Char) (args : List Value)
    (reply : Option GoError) : ExecOutcome :=
  match checkConn p h with
  | (some err, trace) => ⟨some err, trace ++ [.report .error]⟩
  | (none, trace) =>
    match h.dbh with
    | none => ⟨none, trace⟩
    | some c =>
      match reply with
      | some err => ⟨some err, trace ++ [.sqlExec c query args, .report .error]⟩
      | none => ⟨none, trace ++ [.sqlExec c query args]⟩

/-- Go `DbHandler.TruncateTables(tables)`; `replies` holds what `database/sql`
answers to the statement of each table, in order (nil where the list has
ended). -/
def TruncateTables (p : Pool) (h : DbHandler) :
    List (List Char) → List (Option GoError) → ExecOutcome
  | [], _ => ⟨none, []⟩
  | table :: tables, replies =>
    let query := "TRUNCATE TABLE \"".toList ++ table ++ "\" RESTART IDENTITY CASCADE".toList
    let out := Exec p h query [] (replies.head?.getD none)
    match out.err with
    | some err => ⟨some err, out.trace ++ [.report .error]⟩
    | none =>
      let rest := TruncateTables p h tables replies.tail
      ⟨rest.err, out.trace ++ rest.trace⟩

/-- The reply that `DbObject` sees from `dbHandler.QueryRow`. -/
def rowReplyOf (out : QueryRowOutcome) : DbObject.RowReply :=
  match out.err with
  | some err => .error err
  | none => .ok out.data.entries

/-- What one value of a scanned row contributes to the row mapping: the text
under the column's name, or nothing. -/
def decodeEntry (isPrintTable : Char → Bool) (deleteNullValues : Bool)
    (cv : List Char × Value) : Option (List Char × List Char) :=
  match cv.2 with
  | .bytes b => some (cv.1, b)
  | .null => if deleteNullValues = false then some (cv.1, []) else none
  | v => some (cv.1, sprintfSharpV isPrintTable v)

end DbHandler

namespace DbHandler

/-! ## Proofs about `PreparePlaceholders` -/

theorem digitChar_ne_marker : ∀ m, m < 10 → Nat.digitChar m ≠ '?' := by
  decide

theorem marker_not_mem_toDigitsCore (fuel n : Nat) (acc : List Char)
    (hacc : '?' ∉ acc) : '?' ∉ Nat.toDigitsCore 10 fuel n acc := by
  induction fuel generalizing n acc with
  | zero => simpa [Nat.toDigitsCore] using hacc
  | succ f ih =>
    have hcons : '?' ∉ Nat.digitChar (n % 10) :: acc := by
      simp only [List.mem_cons, not_or]
      exact ⟨fun h => digitChar_ne_marker _ (Nat.mod_lt _ (by decide)) h.symm, hacc⟩
    simp only [Nat.toDigitsCore]
    split
    · exact hcons
    · exact ih _ _ hcons

theorem marker_not_mem_sprintfDollar (i : Nat) : '?' ∉ sprintfDollar i := by
  simp only [sprintfDollar, List.mem_cons, not_or]
  exact ⟨by decide, marker_not_mem_toDigitsCore _ _ _ (by simp)⟩

theorem stringsIndex_marker_cons (c : Char) (cs : List Char) :
    stringsIndex (c :: cs) ['?'] =
      if c = '?' then some 0 else (stringsIndex cs ['?']).map (· + 1) := by
  by_cases h : c = '?'
  · simp [stringsIndex, List.isPrefixOf, h]
  · have h2 : ¬ '?' = c := fun e => h e.symm
    simp [stringsIndex, List.isPrefixOf, h, h2]

theorem stringsReplace1_marker_nil (new : List Char) :
    stringsReplace1 [] ['?'] new = [] := by
  simp [stringsReplace1, stringsIndex]

theorem stringsReplace1_marker_cons (c : Char) (cs new : List Char) :
    stringsReplace1 (c :: cs) ['?'] new =
      if c = '?' then new ++ cs else c :: stringsReplace1 cs ['?'] new := by
  by_cases h : c = '?'
  · simp [stringsReplace1, stringsIndex_marker_cons, h]
  · simp only [stringsReplace1, stringsIndex_marker_cons, h, if_false]
    cases stringsIndex cs ['?'] <;> simp

theorem stringsReplace1_skip (d r new : List Char) (hd : '?' ∉ d) :
    stringsReplace1 (d ++ r) ['?'] new = d ++ stringsReplace1 r ['?'] new := by
  induction d with
  | nil => rfl
  | cons c d ih =>
    simp only [List.mem_cons, not_or] at hd
    have hc : c ≠ '?' := fun h => hd.1 h.symm
    simp [stringsReplace1_marker_cons, hc, ih hd.2]

theorem stringsReplace1_of_not_mem (r new : List Char) (hr : '?' ∉ r) :
    stringsReplace1 r ['?'] new = r := by
  have := stringsReplace1_skip r [] new hr
  simpa [stringsReplace1_marker_nil] using this

theorem stringsContains_marker (q : List Char) :
    stringsContains q ['?'] = true ↔ '?' ∈ q := by
  induction q with
  | nil => simp [stringsContains, stringsIndex]
  | cons c cs ih =>
    by_cases h : c = '?'
    · simp [stringsContains, stringsIndex_marker_cons, h]
    · have h2 : ¬ '?' = c := fun e => h e.symm
      simpa [stringsContains, stringsIndex_marker_cons, h, h2] using ih

theorem numberMarkers_of_not_mem (k : Nat) (r : List Char) (hr : '?' ∉ r) :
    numberMarkers k r = r := by
  induction r with
  | nil => rfl
  | cons c r ih =>
    simp only [List.mem_cons, not_or] at hr
    have hc : c ≠ '?' := fun h => hr.1 h.symm
    simp [numberMarkers, hc, ih hr.2]

theorem numberMarkers_split (k : Nat) (pre rest : List Char) (hpre : '?' ∉ pre) :
    numberMarkers k (pre ++ '?' :: rest) =
      pre ++ sprintfDollar k ++ numberMarkers (k + 1) rest := by
  induction pre with
  | nil => simp [numberMarkers, sprintfDollar]
  | cons c pre ih =>
    simp only [List.mem_cons, not_or] at hpre
    have hc : c ≠ '?' := fun h => hpre.1 h.symm
    simp [numberMarkers, hc, ih hpre.2]

theorem countMarkers_split (pre rest : List Char) (hpre : '?' ∉ pre) :
    countMarkers (pre ++ '?' :: rest) = countMarkers rest + 1 := by
  simp [countMarkers, List.count_append, List.count_eq_zero_of_not_mem hpre]

/-- Loop invariant: the text before the scan position holds no marker; the
loop then finishes the scan, and stops with the counter advanced by the number
of markers that were left. -/
theorem placeholdersLoop_spec (fuel : Nat) :
    ∀ (i : Nat) (done rest : List Char), '?' ∉ done → countMarkers rest < fuel →
      placeholdersLoop fuel i (done ++ rest) =
        some (done ++ numberMarkers i rest, i + countMarkers rest) := by
  induction fuel with
  | zero => intro i done rest _ h; exact absurd h (Nat.not_lt_zero _)
  | succ fuel ih =>
    intro i done rest hdone hfuel
    by_cases hmem : '?' ∈ rest
    · obtain ⟨pre, rest', hsplit, hpre⟩ := List.eq_append_cons_of_mem hmem
      subst hsplit
      have hnew : stringsReplace1 (done ++ (pre ++ '?' :: rest')) ['?'] (sprintfDollar i)
          = (done ++ pre ++ sprintfDollar i) ++ rest' := by
        rw [stringsReplace1_skip _ _ _ hdone, stringsReplace1_skip _ _ _ hpre,
          stringsReplace1_marker_cons]
        simp
      have hne : (done ++ pre ++ sprintfDollar i) ++ rest' ≠ done ++ (pre ++ '?' :: rest') := by
        intro h
        have h2 : sprintfDollar i ++ rest' = '?' :: rest' := by
          simpa [List.append_assoc] using h
        simp [sprintfDollar] at h2
      have hdone' : '?' ∉ done ++ pre ++ sprintfDollar i := by
        simp only [List.mem_append, not_or]
        exact ⟨⟨hdone, hpre⟩, marker_not_mem_sprintfDollar i⟩
      rw [countMarkers_split _ _ hpre] at hfuel
      have hrec := ih (i + 1) _ rest' hdone' (Nat.lt_of_succ_lt_succ hfuel)
      simp only [placeholdersLoop, hnew, hne, if_false]
      rw [hrec, numberMarkers_split _ _ _ hpre, countMarkers_split _ _ hpre]
      simp [List.append_assoc, Nat.add_comm, Nat.add_left_comm]
    · have hall : '?' ∉ done ++ rest := by
        simp only [List.mem_append, not_or]; exact ⟨hdone, hmem⟩
      simp [placeholdersLoop, stringsReplace1_of_not_mem _ _ hall,
        numberMarkers_of_not_mem _ _ hmem, countMarkers,
        List.count_eq_zero_of_not_mem hmem]

/-- C1: for every query text, `PreparePlaceholders` (given fuel for more
iterations than the text has markers) returns the text in which the k-th `?`
from the left is replaced by `$k` in decimal and every other character stays
in place; a text without markers is returned unchanged, whatever the fuel; and
`"? = ? AND ?"` becomes `"$1 = $2 AND $3"`. -/
theorem PreparePlaceholders_numbers_markers :
    (∀ (q : List Char) (fuel : Nat), countMarkers q < fuel →
      PreparePlaceholders fuel q = some (numberMarkers 1 q)) ∧
    (∀ (pre rest : List Char) (k : Nat), '?' ∉ pre →
      numberMarkers k (pre ++ '?' :: rest) =
        pre ++ ('$' :: (Nat.repr k).toList) ++ numberMarkers (k + 1) rest) ∧
    (∀ (q : List Char) (k : Nat), countMarkers q = 0 → numberMarkers k q = q) ∧
    (∀ (q : List Char) (fuel : Nat), countMarkers q = 0 →
      PreparePlaceholders fuel q = some q) ∧
    PreparePlaceholders 4 "? = ? AND ?".toList = some "$1 = $2 AND $3".toList := by
  refine ⟨?_, ?_, ?_, ?_, by decide⟩
  · intro q fuel hfuel
    unfold PreparePlaceholders
    split
    · rename_i hc
      have hq : '?' ∉ q := by
        intro hm
        rw [(stringsContains_marker q).2 hm] at hc
        exact Bool.noConfusion hc
      rw [numberMarkers_of_not_mem _ _ hq]
    · have := placeholdersLoop_spec fuel 1 [] q (by simp) hfuel
      simp only [List.nil_append] at this
      rw [this]; rfl
  · intro pre rest k hpre
    exact numberMarkers_split k pre rest hpre
  · intro q k hq
    exact numberMarkers_of_not_mem k q (List.count_eq_zero.1 hq)
  · intro q fuel hq
    have hq' : '?' ∉ q := List.count_eq_zero.1 hq
    have hc : stringsContains q ['?'] = false := by
      cases h : stringsContains q ['?'] with
      | false => rfl
      | true => exact absurd ((stringsContains_marker q).1 h) hq'
    simp [PreparePlaceholders, hc]

/-- Witness for C1 at the text `"a = ? OR b = ?"` with fuel 3. -/
theorem PreparePlaceholders_numbers_markers_witness :
    countMarkers "a = ? OR b = ?".toList < 3 ∧
    PreparePlaceholders 3 "a = ? OR b = ?".toList
      = some (numberMarkers 1 "a = ? OR b = ?".toList) :=
  ⟨by decide, PreparePlaceholders_numbers_markers.1 _ 3 (by decide)⟩

end DbHandler


namespace DbObject

/-! ## Clause building -/

theorem decimal_eq_repr (j : Nat) : decimal j = (Nat.repr j).toList := rfl

theorem joinOnto_nil (sep text : List Char) : joinOnto sep text [] = text := rfl

theorem joinOnto_cons (sep text x : List Char) (xs : List (List Char)) :
    joinOnto sep text (x :: xs) =
      joinOnto sep ((if text ≠ [] then text ++ sep else text) ++ x) xs := rfl

theorem joinOnto_append (sep text : List Char) (xs ys : List (List Char)) :
    joinOnto sep text (xs ++ ys) = joinOnto sep (joinOnto sep text xs) ys := by
  simp [joinOnto, List.foldl_append]

theorem joinOnto_of_ne_nil (sep : List Char) (xs : List (List Char)) :
    ∀ text : List Char, text ≠ [] →
      joinOnto sep text xs = text ++ (xs.map (fun x => sep ++ x)).flatten := by
  induction xs with
  | nil => intro text _; simp [joinOnto]
  | cons x xs ih =>
    intro text ht
    have hne : text ++ sep ++ x ≠ [] := by simp [ht]
    rw [joinOnto_cons, if_pos ht, ih _ hne]
    simp [List.append_assoc]

theorem intercalate_cons (sep x : List Char) (xs : List (List Char)) :
    sep.intercalate (x :: xs) = x ++ (xs.map (fun y => sep ++ y)).flatten := by
  induction xs generalizing x with
  | nil => simp [List.intercalate, List.intersperse]
  | cons y ys ih =>
    have h := ih y
    simp only [List.intercalate, List.intersperse, List.flatten_cons, List.map_cons] at h ⊢
    rw [h, List.append_assoc]

/-- Items that are not empty are joined by the loops exactly as by
`intercalate`. -/
theorem joinOnto_eq_intercalate (sep : List Char) (xs : List (List Char))
    (hne : ∀ x ∈ xs, x ≠ []) : joinOnto sep [] xs = sep.intercalate xs := by
  cases xs with
  | nil => rfl
  | cons x xs =>
    have hx : x ≠ [] := hne x (List.mem_cons_self _ _)
    rw [joinOnto_cons, intercalate_cons]
    simp only [ne_eq, not_true_eq_false, if_false, List.nil_append]
    exact joinOnto_of_ne_nil sep xs x hx

theorem quoted_ne_nil (name : List Char) : Spec.quoted name ≠ [] := by
  simp [Spec.quoted]

theorem predicate_ne_nil (key : List Char) (j : Nat) : Spec.predicate key j ≠ [] := by
  unfold Spec.predicate
  split <;> simp [Spec.quoted]

theorem predicates_ne_nil (es : List (List Char × Value)) :
    ∀ j, ∀ x ∈ Spec.predicates j es, x ≠ [] := by
  induction es with
  | nil => intro j x hx; simp [Spec.predicates] at hx
  | cons e es ih =>
    intro j x hx
    simp only [Spec.predicates, List.mem_cons] at hx
    rcases hx with rfl | hx
    · exact predicate_ne_nil _ _
    · exact ih _ x hx

theorem predicates_length (es : List (List Char × Value)) :
    ∀ j, (Spec.predicates j es).length = es.length := by
  induction es with
  | nil => intro j; rfl
  | cons e es ih => intro j; simp [Spec.predicates, ih]

/-- The n-th predicate (from 0) is the predicate of the n-th key and carries
the placeholder number `j + n`. -/
theorem predicates_getElem? (es : List (List Char × Value)) :
    ∀ (j n : Nat), (Spec.predicates j es)[n]? =
      (es[n]?).map (fun e => Spec.predicate e.1 (j + n)) := by
  induction es with
  | nil => intro j n; simp [Spec.predicates]
  | cons e es ih =>
    intro j n
    cases n with
    | zero => simp [Spec.predicates]
    | succ n =>
      simp only [Spec.predicates, List.getElem?_cons_succ, ih]
      have : j + 1 + n = j + (n + 1) := by omega
      rw [this]

/-- One pass of the WHERE loop body on a key that is not empty. -/
theorem whereStep_of_ne_nil (acc : Acc) (key : List Char) (value : Value) (hk : key ≠ []) :
    whereStep acc key value =
      .ok ⟨(if acc.text ≠ [] then acc.text ++ " AND ".toList else acc.text) ++
        Spec.predicate key acc.i, acc.i + 1, acc.bind ++ [value]⟩ := by
  cases key with
  | nil => exact absurd rfl hk
  | cons c rest =>
    by_cases hc : c = '!'
    · subst hc
      simp [whereStep, Spec.predicate, Spec.quoted, Spec.placeholder, decimal_eq_repr,
        List.append_assoc]
    · simp [whereStep, Spec.predicate, Spec.quoted, Spec.placeholder, decimal_eq_repr,
        List.append_assoc, hc]

theorem whereStep_nil (acc : Acc) (value : Value) :
    whereStep acc [] value = .error .indexOutOfRange := rfl

/-- The WHERE loop over keys none of which is empty. -/
theorem whereLoop_of_keys_ne_nil (es : List (List Char × Value)) :
    ∀ acc : Acc, (∀ e ∈ es, e.1 ≠ []) →
      whereLoop acc es =
        .ok ⟨joinOnto " AND ".toList acc.text (Spec.predicates acc.i es),
          acc.i + es.length, acc.bind ++ es.map Prod.snd⟩ := by
  induction es with
  | nil => intro acc _; simp [whereLoop, joinOnto, Spec.predicates]
  | cons e es ih =>
    intro acc hk
    obtain ⟨key, value⟩ := e
    have hkey : key ≠ [] := hk (key, value) (List.mem_cons_self _ _)
    have hrest : ∀ e ∈ es, e.1 ≠ [] := fun e he => hk e (List.mem_cons_of_mem _ he)
    simp only [whereLoop, whereStep_of_ne_nil acc key value hkey, ih _ hrest]
    simp [Spec.predicates, joinOnto_cons, Nat.add_assoc, Nat.add_comm 1]

/-- The WHERE loop ends without a panic only when no key is empty. -/
theorem keys_ne_nil_of_whereLoop (es : List (List Char × Value)) :
    ∀ acc acc' : Acc, whereLoop acc es = .ok acc' → ∀ e ∈ es, e.1 ≠ [] := by
  induction es with
  | nil => intro _ _ _ e he; simp at he
  | cons e es ih =>
    intro acc acc' h e' he'
    obtain ⟨key, value⟩ := e
    cases key with
    | nil => simp [whereLoop, whereStep] at h
    | cons c rest =>
      simp only [List.mem_cons] at he'
      rcases he' with rfl | he'
      · simp
      · have hstep := whereStep_of_ne_nil acc (c :: rest) value (by simp)
        simp only [whereLoop, hstep] at h
        exact ih _ _ h e' he'

/-- The WHERE loop started on an empty text builds the clause of the
specification. -/
theorem whereLoop_start (es : List (List Char × Value)) (i : Nat) (bind : List Value)
    (hk : ∀ e ∈ es, e.1 ≠ []) :
    whereLoop ⟨[], i, bind⟩ es =
      .ok ⟨Spec.whereClause i es, i + es.length, bind ++ es.map Prod.snd⟩ := by
  rw [whereLoop_of_keys_ne_nil es _ hk]
  simp only [Spec.whereClause]
  rw [joinOnto_eq_intercalate _ _ (predicates_ne_nil es i)]

end DbObject

namespace DbObject

/-! ## `Load` -/

theorem find?_of_mem_nodupKeys {α : Type} (es : List (List Char × α)) (k : List Char) (v : α)
    (hnd : (es.map Prod.fst).Nodup) (hmem : (k, v) ∈ es) :
    es.find? (fun e => e.1 = k) = some (k, v) := by
  induction es with
  | nil => simp at hmem
  | cons e es ih =>
    simp only [List.map_cons, List.nodup_cons] at hnd
    simp only [List.mem_cons] at hmem
    rcases hmem with rfl | hmem
    · simp
    · have hne : e.1 ≠ k := by
        intro heq
        apply hnd.1
        rw [heq]
        exact List.mem_map_of_mem Prod.fst hmem
      simp [List.find?_cons, hne, ih hnd.2 hmem]

/-- In a well-formed map the value found under the key of an entry is the
value of that entry. -/
theorem lookup_of_mem {α : Type} (m : GoMap α) (e : List Char × α) (hwf : m.WF)
    (hmem : e ∈ m.entries) : m.lookup e.1 = some e.2 := by
  obtain ⟨k, v⟩ := e
  simp [GoMap.lookup, find?_of_mem_nodupKeys m.entries k v hwf hmem]

theorem selectText_eq (tableName clause : List Char) :
    "SELECT * FROM \"".toList ++ tableName ++ "\" WHERE ".toList ++ clause =
      "SELECT * FROM ".toList ++ Spec.quoted tableName ++ " WHERE ".toList ++ clause := by
  simp only [Spec.quoted, List.append_assoc]
  rfl

/-- What `Load` does on a condition that is not empty and has no empty key. -/
theorem Load_of_keys_ne_nil (h : DbObject) (whereParams : GoMap Value)
    (order : List (List Char × Value)) (reply : RowReply)
    (hlen : whereParams.len ≠ 0) (hk : ∀ e ∈ order, e.1 ≠ []) :
    Load h whereParams order reply =
      match reply with
      | .error err =>
        .ok ⟨{ h with fields := GoMap.nil }, (false, some err),
          [.queryRow (Spec.selectStatement h.tableName order) (order.map Prod.snd),
            .report .error]⟩
      | .ok row =>
        .ok ⟨{ h with
                fields := GoMap.mk row
                changed := GoMap.make
                functions := GoMap.make
                loaded := decide (0 < row.length)
                where_ := whereParams },
          (decide (0 < row.length), none),
          [.queryRow (Spec.selectStatement h.tableName order) (order.map Prod.snd)]⟩ := by
  unfold Load
  rw [if_neg hlen, whereLoop_start order 1 [] hk]
  cases reply <;> simp only [selectText_eq, Spec.selectStatement, Nat.lt_eq, List.nil_append]

/-- C2: on a condition map with the empty string as a key `Load` panics at
`key[0]` and issues nothing.  On every other non-empty condition map, for every
order in which its keys are enumerated, `Load` issues exactly one statement,
`SELECT * FROM "<tableName>" WHERE p1 AND ... AND pn`, where the predicate at
position j is `"<key without !>" <> $j` or `"<key>" = $j` by the first character
of the j-th key, with the bind list holding the value found under the j-th key
at position j. -/
theorem Load_statement_and_binds :
    (∀ (h : DbObject) (v : Value) (reply : RowReply),
      Load h (GoMap.mk [([], v)]) [([], v)] reply = .error .indexOutOfRange) ∧
    (∀ (h : DbObject) (whereParams : GoMap Value) (order : List (List Char × Value))
      (reply : RowReply),
      whereParams.WF → GoMap.IsRange order whereParams → whereParams.len ≠ 0 →
      (∀ k ∈ whereParams.keys, k ≠ []) →
      ∃ out, Load h whereParams order reply = .ok out ∧
        out.trace.filter (fun e => e matches .queryRow _ _) =
          [.queryRow
            ("SELECT * FROM ".toList ++ Spec.quoted h.tableName ++ " WHERE ".toList ++
              " AND ".toList.intercalate (Spec.predicates 1 order))
            (order.map Prod.snd)] ∧
        (∀ e ∈ order, whereParams.lookup e.1 = some e.2) ∧
        (∀ (j : Nat) (e : List Char × Value), order[j]? = some e →
          (Spec.predicates 1 order)[j]? = some (Spec.predicate e.1 (j + 1)) ∧
          (order.map Prod.snd)[j]? = some e.2)) ∧
    (∀ (key : List Char) (j : Nat),
      (key.head? = some '!' →
        Spec.predicate key j = "\"".toList ++ key.tail ++ "\" <> $".toList ++ (Nat.repr j).toList) ∧
      (key.head? ≠ some '!' →
        Spec.predicate key j = "\"".toList ++ key ++ "\" = $".toList ++ (Nat.repr j).toList)) ∧
    (∀ (h : DbObject) (row : List (List Char × List Char)),
      ∃ out,
        Load h
          (GoMap.mk [("status".toList, .str "active".toList), ("!region".toList, .str "eu".toList)])
          [("status".toList, .str "active".toList), ("!region".toList, .str "eu".toList)]
          (.ok row) = .ok out ∧
        out.trace =
          [.queryRow
            ("SELECT * FROM \"".toList ++ h.tableName ++ "\" WHERE ".toList ++
              "\"status\" = $1 AND \"region\" <> $2".toList)
            [.str "active".toList, .str "eu".toList]]) := by
  refine ⟨fun _ _ _ => rfl, ?_, ?_, ?_⟩
  · intro h whereParams order reply hwf hrange hlen hkeys
    have hk : ∀ e ∈ order, e.1 ≠ [] := by
      intro e he
      apply hkeys
      exact List.mem_map_of_mem Prod.fst ((List.Perm.mem_iff hrange).1 he)
    have hload := Load_of_keys_ne_nil h whereParams order reply hlen hk
    have hstmt : ∃ out, Load h whereParams order reply = .ok out ∧
        out.trace.filter (fun e => e matches .queryRow _ _) =
          [.queryRow
            ("SELECT * FROM ".toList ++ Spec.quoted h.tableName ++ " WHERE ".toList ++
              " AND ".toList.intercalate (Spec.predicates 1 order))
            (order.map Prod.snd)] := by
      cases reply with
      | error err => exact ⟨_, hload, by simp [Spec.selectStatement, Spec.whereClause]⟩
      | ok row => exact ⟨_, hload, by simp [Spec.selectStatement, Spec.whereClause]⟩
    obtain ⟨out, hout, htrace⟩ := hstmt
    refine ⟨out, hout, htrace, ?_, ?_⟩
    · intro e he
      exact lookup_of_mem whereParams e hwf ((List.Perm.mem_iff hrange).1 he)
    · intro j e hj
      rw [predicates_getElem?, hj]
      simp [hj, Nat.add_comm]
  · intro key j
    constructor
    · intro hh
      simp [Spec.predicate, hh, Spec.quoted, Spec.placeholder, List.append_assoc]
    · intro hh
      simp [Spec.predicate, hh, Spec.quoted, Spec.placeholder, List.append_assoc]
  · intro h row
    exact ⟨_, rfl, rfl⟩

/-- Witness for C2: the condition `{"id": 5, "!state": "gone"}`. -/
theorem Load_statement_and_binds_witness :
    ∃ out,
      Load (New "users".toList)
        (GoMap.mk [("id".toList, .int 5), ("!state".toList, .str "gone".toList)])
        [("!state".toList, .str "gone".toList), ("id".toList, .int 5)] (.ok []) = .ok out ∧
      out.trace.filter (fun e => e matches .queryRow _ _) =
        [.queryRow
          ("SELECT * FROM ".toList ++ Spec.quoted "users".toList ++ " WHERE ".toList ++
            " AND ".toList.intercalate
              (Spec.predicates 1 [("!state".toList, .str "gone".toList), ("id".toList, .int 5)]))
          ([("!state".toList, Value.str "gone".toList), ("id".toList, Value.int 5)].map Prod.snd)] := by
  obtain ⟨out, h1, h2, _⟩ :=
    Load_statement_and_binds.2.1 (New "users".toList)
      (GoMap.mk [("id".toList, .int 5), ("!state".toList, .str "gone".toList)])
      [("!state".toList, .str "gone".toList), ("id".toList, .int 5)] (.ok [])
      (by decide) (by decide) (by decide) (by decide)
  exact ⟨out, h1, h2⟩

end DbObject

namespace DbObject

/-- C3: called with a condition map of length 0 (the nil map or an empty
map), `Load` returns `(false, err)` with an error, makes no call to the database
handler (the only event is the report to the error sink) and leaves the handle
as it was. -/
theorem Load_empty_condition (h : DbObject) (whereParams : GoMap Value)
    (order : List (List Char × Value)) (reply : RowReply) (hlen : whereParams.len = 0) :
    (whereParams = GoMap.nil ∨ whereParams = GoMap.mk []) ∧
    ∃ out, Load h whereParams order reply = .ok out ∧
      out.ret.1 = false ∧ out.ret.2 ≠ none ∧
      out.trace = [.report .error] ∧
      (∀ sql args, Event.queryRow sql args ∉ out.trace ∧ Event.exec sql args ∉ out.trace) ∧
      out.self = h ∧
      out.self.fields = h.fields ∧ out.self.changed = h.changed ∧
      out.self.functions = h.functions ∧ out.self.where_ = h.where_ ∧
      out.self.loaded = h.loaded := by
  constructor
  · cases whereParams with
    | nil => exact Or.inl rfl
    | mk es =>
      cases es with
      | nil => exact Or.inr rfl
      | cons e es => simp [GoMap.len, GoMap.entries] at hlen
  · refine ⟨⟨h, (false, some "No \"WHERE\" parameters passed.".toList), [.report .error]⟩,
      ?_, rfl, ?_, rfl, ?_, rfl, rfl, rfl, rfl, rfl, rfl⟩
    · unfold Load
      rw [if_pos hlen]
    · simp
    · intro sql args
      simp

/-- Witness for C3: a handle with pending changes and the nil condition map. -/
theorem Load_empty_condition_witness :
    ∃ out,
      Load { New "t".toList with changed := GoMap.mk [("a".toList, .int 1)], loaded := true }
        GoMap.nil [] (.ok [("a".toList, "1".toList)]) = .ok out ∧
      out.ret.1 = false ∧ out.ret.2 ≠ none ∧ out.trace = [.report .error] ∧
      out.self =
        { New "t".toList with changed := GoMap.mk [("a".toList, .int 1)], loaded := true } := by
  obtain ⟨_, out, h1, h2, h3, h4, _, h5, _⟩ :=
    Load_empty_condition
      { New "t".toList with changed := GoMap.mk [("a".toList, .int 1)], loaded := true }
      GoMap.nil [] (.ok [("a".toList, "1".toList)]) rfl
  exact ⟨out, h1, h2, h3, h4, h5⟩

/-- C4: when `Load` is called with a condition that is not empty and its
query succeeds with the row mapping `row`, then afterwards `changed` and
`functions` are empty, `fields` is `row`, `where` is the condition map that was
passed, `loaded` holds exactly when `row` is not empty, and the boolean returned
is the new `loaded` (with a nil error).  The query is made, and the call
returns, for every condition without an empty key. -/
theorem Load_success :
    (∀ (h : DbObject) (whereParams : GoMap Value) (order : List (List Char × Value))
      (row : List (List Char × List Char)) (out : Outcome (Bool × Option GoError)),
      whereParams.len ≠ 0 → Load h whereParams order (.ok row) = .ok out →
      out.self.changed = GoMap.make ∧ out.self.functions = GoMap.make ∧
      out.self.changed.len = 0 ∧ out.self.functions.len = 0 ∧
      out.self.fields = GoMap.mk row ∧ out.self.where_ = whereParams ∧
      (out.self.loaded = true ↔ row ≠ []) ∧
      out.ret = (out.self.loaded, none) ∧
      out.self.tableName = h.tableName ∧ out.self.IdField = h.IdField ∧
      out.self.LoadAfterInsert = h.LoadAfterInsert ∧
      ∃ sql args, out.trace = [.queryRow sql args]) ∧
    (∀ (h : DbObject) (whereParams : GoMap Value) (order : List (List Char × Value))
      (row : List (List Char × List Char)),
      whereParams.len ≠ 0 → GoMap.IsRange order whereParams →
      (∀ k ∈ whereParams.keys, k ≠ []) →
      ∃ out, Load h whereParams order (.ok row) = .ok out) := by
  constructor
  · intro h whereParams order row out hlen hload
    unfold Load at hload
    rw [if_neg hlen] at hload
    cases hw : whereLoop ⟨[], 1, []⟩ order with
    | error f => simp [hw] at hload
    | ok acc =>
      simp only [hw, Except.ok.injEq] at hload
      subst hload
      refine ⟨rfl, rfl, rfl, rfl, rfl, rfl, ?_, rfl, rfl, rfl, rfl, _, _, rfl⟩
      cases row <;> simp
  · intro h whereParams order row hlen hrange hkeys
    have hk : ∀ e ∈ order, e.1 ≠ [] := by
      intro e he
      apply hkeys
      exact List.mem_map_of_mem Prod.fst ((List.Perm.mem_iff hrange).1 he)
    exact ⟨_, Load_of_keys_ne_nil h whereParams order (.ok row) hlen hk⟩

/-- Witness for C4: a handle with a pending change, reloaded by `id`. -/
theorem Load_success_witness :
    ∃ out,
      Load { New "t".toList with changed := GoMap.mk [("a".toList, .int 1)] }
        (GoMap.mk [("id".toList, .int 3)]) [("id".toList, .int 3)]
        (.ok [("id".toList, "3".toList)]) = .ok out ∧
      out.self.changed = GoMap.make ∧ out.self.fields = GoMap.mk [("id".toList, "3".toList)] ∧
      out.self.where_ = GoMap.mk [("id".toList, .int 3)] ∧ out.ret = (true, none) := by
  refine ⟨_, rfl, ?_⟩
  obtain ⟨h1, _, _, _, h2, h3, _, h4, _⟩ :=
    Load_success.1 { New "t".toList with changed := GoMap.mk [("a".toList, .int 1)] }
      (GoMap.mk [("id".toList, .int 3)]) [("id".toList, .int 3)]
      [("id".toList, "3".toList)] _ (by decide) rfl
  exact ⟨h1, h2, h3, h4⟩

end DbObject

namespace DbObject

/-! ## Invariants of the reachable states -/

theorem mem_keys_delete {α : Type} (m : GoMap α) (k k' : List Char) :
    k' ∈ (m.delete k).keys ↔ k' ≠ k ∧ k' ∈ m.keys := by
  cases m with
  | nil => simp [GoMap.delete, GoMap.keys, GoMap.entries]
  | mk es =>
    simp only [GoMap.delete, GoMap.keys, GoMap.entries, List.mem_map, List.mem_filter]
    constructor
    · rintro ⟨e, ⟨he, hne⟩, rfl⟩
      exact ⟨by simpa using hne, e, he, rfl⟩
    · rintro ⟨hne, e, he, rfl⟩
      exact ⟨e, ⟨he, by simpa using hne⟩, rfl⟩

theorem mem_keys_store {α : Type} (m m' : GoMap α) (k k' : List Char) (v : α)
    (hs : m.store k v = some m') : k' ∈ m'.keys ↔ k' = k ∨ (k' ≠ k ∧ k' ∈ m.keys) := by
  cases m with
  | nil => simp [GoMap.store] at hs
  | mk es =>
    simp only [GoMap.store, Option.some.injEq] at hs
    subst hs
    have hd := mem_keys_delete (GoMap.mk es) k k'
    simp only [GoMap.delete, GoMap.keys, GoMap.entries] at hd
    simp only [GoMap.keys, GoMap.entries, List.map_cons, List.mem_cons]
    rw [hd]

theorem Inv_New (tableName : List Char) : Inv (New tableName) := by
  constructor <;> intro k hk <;> simp [New, GoMap.make, GoMap.keys, GoMap.entries] at hk

theorem Inv_Set {h h' : DbObject} {fieldName : List Char} {fieldValue : Value}
    (hinv : Inv h) (hset : Set h fieldName fieldValue = .ok h') : Inv h' := by
  unfold Set at hset
  cases hf : h.fields.store fieldName (setText fieldValue) with
  | none => simp [hf] at hset
  | some fields =>
    cases hc : h.changed.store fieldName fieldValue with
    | none => simp [hf, hc] at hset
    | some changed =>
      simp only [hf, hc, Except.ok.injEq] at hset
      subst hset
      refine ⟨?_, hinv.2⟩
      intro k hk hk'
      rw [mem_keys_store _ _ _ _ _ hc] at hk
      rw [mem_keys_delete] at hk'
      rcases hk with rfl | ⟨_, hk⟩
      · exact hk'.1 rfl
      · exact hinv.1 k hk hk'.2

theorem Inv_SetFunction {h h' : DbObject} {fieldName fieldFunction : List Char}
    (hinv : Inv h) (hset : SetFunction h fieldName fieldFunction = .ok h') : Inv h' := by
  unfold SetFunction at hset
  cases hf : h.functions.store fieldName fieldFunction with
  | none => simp [hf] at hset
  | some functions =>
    simp only [hf, Except.ok.injEq] at hset
    subst hset
    refine ⟨?_, hinv.2⟩
    intro k hk hk'
    rw [mem_keys_store _ _ _ _ _ hf] at hk'
    rw [mem_keys_delete] at hk
    rcases hk' with rfl | ⟨_, hk'⟩
    · exact hk.1 rfl
    · exact hinv.1 k hk.2 hk'

/-- A `Load` that returns either leaves the three pending maps as they were,
or empties `changed` and `functions` and stores a condition without an empty
key. -/
theorem Load_maps {h : DbObject} {whereParams : GoMap Value}
    {order : List (List Char × Value)} {reply : RowReply}
    {out : Outcome (Bool × Option GoError)}
    (hrange : GoMap.IsRange order whereParams)
    (hload : Load h whereParams order reply = .ok out) :
    (out.self.changed = h.changed ∧ out.self.functions = h.functions ∧
      out.self.where_ = h.where_ ∧ out.self.loaded = h.loaded) ∨
    (out.self.changed = GoMap.make ∧ out.self.functions = GoMap.make ∧
      out.self.where_ = whereParams ∧ ∀ k ∈ whereParams.keys, k ≠ []) := by
  unfold Load at hload
  by_cases hlen : whereParams.len = 0
  · rw [if_pos hlen] at hload
    simp only [Except.ok.injEq] at hload
    subst hload
    exact Or.inl ⟨rfl, rfl, rfl, rfl⟩
  · rw [if_neg hlen] at hload
    cases hw : whereLoop ⟨[], 1, []⟩ order with
    | error f => simp [hw] at hload
    | ok acc =>
      have hk := keys_ne_nil_of_whereLoop order _ _ hw
      cases reply with
      | error err =>
        simp only [hw, Except.ok.injEq] at hload
        subst hload
        exact Or.inl ⟨rfl, rfl, rfl, rfl⟩
      | ok row =>
        simp only [hw, Except.ok.injEq] at hload
        subst hload
        refine Or.inr ⟨rfl, rfl, rfl, ?_⟩
        intro k hkm
        simp only [GoMap.keys, List.mem_map] at hkm
        obtain ⟨e, he, rfl⟩ := hkm
        exact hk e ((List.Perm.mem_iff hrange).2 he)

theorem Inv_of_maps {h h' : DbObject}
    (hinv : Inv h)
    (hm : (h'.changed = h.changed ∧ h'.functions = h.functions ∧ h'.where_ = h.where_) ∨
      (h'.changed = GoMap.make ∧ h'.functions = GoMap.make ∧ ∀ k ∈ h'.where_.keys, k ≠ [])) :
    Inv h' := by
  rcases hm with ⟨hc, hf, hw⟩ | ⟨hc, hf, hw⟩
  · unfold Inv
    rw [hc, hf, hw]
    exact hinv
  · refine ⟨?_, hw⟩
    intro k hk
    rw [hc] at hk
    simp [GoMap.make, GoMap.keys, GoMap.entries] at hk

theorem Inv_Load {h : DbObject} {whereParams : GoMap Value}
    {order : List (List Char × Value)} {reply : RowReply}
    {out : Outcome (Bool × Option GoError)} (hinv : Inv h)
    (hrange : GoMap.IsRange order whereParams)
    (hload : Load h whereParams order reply = .ok out) : Inv out.self := by
  apply Inv_of_maps hinv
  rcases Load_maps hrange hload with ⟨hc, hf, hw, _⟩ | ⟨hc, hf, hw, hk⟩
  · exact Or.inl ⟨hc, hf, hw⟩
  · exact Or.inr ⟨hc, hf, by rw [hw]; exact hk⟩

/-- An `update` that returns leaves the handle as it was. -/
theorem update_self {h : DbObject} {o : Orders} {e : Option GoError}
    {out : Outcome (Option GoError)} (hu : update h o e = .ok out) : out.self = h := by
  unfold update at hu
  simp only at hu
  split at hu
  · simp at hu
  · cases e <;> simp only [Except.ok.injEq] at hu <;> subst hu <;> rfl

/-- A `Delete` that returns leaves the handle as it was. -/
theorem Delete_self {h : DbObject} {order : List (List Char × Value)} {e : Option GoError}
    {out : Outcome (Option GoError)} (hd : Delete h order e = .ok out) : out.self = h := by
  unfold Delete at hd
  split at hd
  · simp only [Except.ok.injEq] at hd
    subst hd; rfl
  · simp only at hd
    split at hd
    · simp at hd
    · cases e <;> simp only [Except.ok.injEq] at hd <;> subst hd <;> rfl

/-- An `insert` that returns leaves the handle as it was, or as the `Load` of
the returned identity left it. -/
theorem insert_self {h : DbObject} {o : Orders} {r : Replies}
    {out : Outcome (Option GoError)} (hi : insert h o r = .ok out) :
    out.self = h ∨
    ∃ (id : List Char) (lo : Outcome (Bool × Option GoError)),
      Load h (GoMap.mk [(h.IdField, Value.str id)]) [(h.IdField, Value.str id)] r.reload
        = .ok lo ∧ out.self = lo.self := by
  unfold insert at hi
  cases hs : insertStatement h o with
  | error f => simp [hs] at hi
  | ok qb =>
    obtain ⟨query0, bind⟩ := qb
    simp only [hs] at hi
    by_cases hl : h.LoadAfterInsert = true
    · rw [if_pos hl] at hi
      cases hq : r.queryRow with
      | error err =>
        simp only [hq, Except.ok.injEq] at hi
        subst hi
        exact Or.inl rfl
      | ok data =>
        simp only [hq] at hi
        cases hL : Load h (GoMap.mk [(h.IdField,
            Value.str (((GoMap.mk data).lookup h.IdField).getD []))])
            [(h.IdField, Value.str (((GoMap.mk data).lookup h.IdField).getD []))] r.reload with
        | error f => simp [hL] at hi
        | ok lo =>
          simp only [hL] at hi
          refine Or.inr ⟨_, lo, hL, ?_⟩
          cases hret : lo.ret.2 with
          | none =>
            simp only [hret, Except.ok.injEq] at hi
            subst hi; rfl
          | some err =>
            simp only [hret, Except.ok.injEq] at hi
            subst hi; rfl
    · rw [if_neg hl] at hi
      cases he : r.exec with
      | none =>
        simp only [he, Except.ok.injEq] at hi
        subst hi
        exact Or.inl rfl
      | some err =>
        simp only [he, Except.ok.injEq] at hi
        subst hi
        exact Or.inl rfl

theorem Inv_Save {h : DbObject} {o : Orders} {r : Replies}
    {out : Outcome (Option GoError)} (hinv : Inv h) (hs : Save h o r = .ok out) :
    Inv out.self := by
  unfold Save at hs
  by_cases hl : h.loaded = true
  · rw [if_pos hl] at hs
    rw [update_self hs]; exact hinv
  · rw [if_neg hl] at hs
    rcases insert_self hs with he | ⟨id, lo, hL, he⟩
    · rw [he]; exact hinv
    · rw [he]
      exact Inv_Load hinv (List.Perm.refl _) hL

/-- Every reachable handle satisfies the invariant. -/
theorem Reachable.inv {h : DbObject} (hr : Reachable h) : Inv h := by
  induction hr with
  | new tableName => exact Inv_New tableName
  | assignIdField name _ ih => exact ih
  | assignLoadAfterInsert b _ ih => exact ih
  | set fieldName fieldValue _ hset ih => exact Inv_Set ih hset
  | setFunction fieldName fieldFunction _ hset ih => exact Inv_SetFunction ih hset
  | load whereParams order reply _ _ hrange hload ih => exact Inv_Load ih hrange hload
  | save o r _ _ _ _ hs ih => exact Inv_Save ih hs
  | delete order execReply _ _ hd ih => rw [Delete_self hd]; exact ih

end DbObject

namespace DbObject

theorem contains_iff_mem_keys {α : Type} (m : GoMap α) (k : List Char) :
    m.contains k = true ↔ k ∈ m.keys := by
  simp only [GoMap.contains, GoMap.lookup, GoMap.keys, Option.isSome_map', List.find?_isSome,
    List.mem_map, decide_eq_true_eq]

/-- C5: in every state of a handle reachable from `New` by calls of `Set`,
`SetFunction`, `Load`, `Save` and `Delete` (and assignments to the exported
fields), no column name is a key of both `changed` and `functions`.  After
`Set("name", "Ada")` then `SetFunction("name", "UPPER(name)")`, `changed` has no
`"name"` and `functions["name"]` is `"UPPER(name)"`; after the reverse order,
`functions` has no `"name"` and `changed["name"]` is `"Ada"`. -/
theorem changed_functions_exclusive :
    (∀ h : DbObject, Reachable h →
      ∀ k : List Char, ¬ (k ∈ h.changed.keys ∧ k ∈ h.functions.keys)) ∧
    (∀ h : DbObject, Reachable h →
      ∀ k : List Char, ¬ (h.changed.contains k = true ∧ h.functions.contains k = true)) ∧
    (∀ tableName : List Char, ∃ h1 h2,
      Set (New tableName) "name".toList (.str "Ada".toList) = .ok h1 ∧
      SetFunction h1 "name".toList "UPPER(name)".toList = .ok h2 ∧
      h2.changed.contains "name".toList = false ∧
      h2.functions.lookup "name".toList = some "UPPER(name)".toList) ∧
    (∀ tableName : List Char, ∃ h1 h2,
      SetFunction (New tableName) "name".toList "UPPER(name)".toList = .ok h1 ∧
      Set h1 "name".toList (.str "Ada".toList) = .ok h2 ∧
      h2.functions.contains "name".toList = false ∧
      h2.changed.lookup "name".toList = some (.str "Ada".toList)) := by
  refine ⟨?_, ?_, ?_, ?_⟩
  · intro h hr k hk
    exact hr.inv.1 k hk.1 hk.2
  · intro h hr k hk
    exact hr.inv.1 k ((contains_iff_mem_keys _ _).1 hk.1) ((contains_iff_mem_keys _ _).1 hk.2)
  · intro tableName
    exact ⟨_, _, rfl, rfl, rfl, rfl⟩
  · intro tableName
    exact ⟨_, _, rfl, rfl, rfl, rfl⟩

/-- Witness for C5: the handle after `Set("a", 1)`, `SetFunction("b", "now()")`
and `Set("b", 2)`. -/
theorem changed_functions_exclusive_witness :
    ¬ ("b".toList ∈
          (GoMap.mk [("b".toList, Value.int 2), ("a".toList, Value.int 1)]).keys ∧
        "b".toList ∈ (GoMap.mk ([] : List (List Char × List Char))).keys) :=
  changed_functions_exclusive.1
    { New "t".toList with
      fields := GoMap.mk [("b".toList, "2".toList), ("a".toList, "1".toList)]
      changed := GoMap.mk [("b".toList, Value.int 2), ("a".toList, Value.int 1)] }
    (Reachable.set (h := { New "t".toList with
        fields := GoMap.mk [("a".toList, "1".toList)]
        changed := GoMap.mk [("a".toList, Value.int 1)]
        functions := GoMap.mk [("b".toList, "now()".toList)] })
      "b".toList (.int 2)
      (Reachable.setFunction (h := { New "t".toList with
          fields := GoMap.mk [("a".toList, "1".toList)]
          changed := GoMap.mk [("a".toList, Value.int 1)] })
        "b".toList "now()".toList
        (Reachable.set (h := New "t".toList) "a".toList (.int 1)
          (Reachable.new "t".toList) rfl)
        rfl)
      rfl)
    "b".toList

/-! ## `Delete` -/

theorem deleteText_eq (tableName clause : List Char) :
    "DELETE FROM \"".toList ++ tableName ++ "\" WHERE ".toList ++ clause =
      "DELETE FROM ".toList ++ Spec.quoted tableName ++ " WHERE ".toList ++ clause := by
  simp only [Spec.quoted, List.append_assoc]
  rfl

/-- In a reachable state no entry that a `range` over `where` yields has the
empty key. -/
theorem Reachable.order_keys_ne_nil {h : DbObject} (hr : Reachable h)
    {order : List (List Char × Value)} (hrange : GoMap.IsRange order h.where_) :
    ∀ e ∈ order, e.1 ≠ [] := by
  intro e he
  apply hr.inv.2
  exact List.mem_map_of_mem Prod.fst ((List.Perm.mem_iff hrange).1 he)

/-- C8: on a handle whose `loaded` flag is false `Delete` returns nil, makes
no call at all and leaves the handle as it was.  On a loaded handle `Delete`
issues its statement and returns what `Exec` returned; whether that is an error
or not, the handle, and with it the `loaded` flag, stays as it was. -/
theorem Delete_unloaded_noop_and_flag :
    (∀ (h : DbObject) (order : List (List Char × Value)) (execReply : Option GoError),
      h.loaded = false → Delete h order execReply = .ok ⟨h, none, []⟩) ∧
    (∀ (h : DbObject) (order : List (List Char × Value)) (execReply : Option GoError),
      Reachable h → h.loaded = true → GoMap.IsRange order h.where_ →
      ∃ out, Delete h order execReply = .ok out ∧
        out.self = h ∧ out.self.loaded = true ∧ out.ret = execReply ∧
        out.trace.filter (fun e => e matches .exec _ _) =
          [.exec (Spec.deleteStatement h.tableName order) (order.map Prod.snd)]) ∧
    (∀ (h : DbObject) (order : List (List Char × Value)) (execReply : Option GoError)
      (out : Outcome (Option GoError)),
      Delete h order execReply = .ok out → out.self.loaded = h.loaded) := by
  refine ⟨?_, ?_, ?_⟩
  · intro h order execReply hl
    unfold Delete
    rw [if_pos hl]
  · intro h order execReply hr hl hrange
    have hk := hr.order_keys_ne_nil hrange
    have hne : ¬ h.loaded = false := by simp [hl]
    unfold Delete
    rw [if_neg hne, whereLoop_start order 1 [] hk]
    cases execReply with
    | none =>
      refine ⟨_, rfl, rfl, hl, rfl, ?_⟩
      simp [Spec.deleteStatement, Spec.quoted]
    | some err =>
      refine ⟨_, rfl, rfl, hl, rfl, ?_⟩
      simp [Spec.deleteStatement, Spec.quoted]
  · intro h order execReply out hd
    rw [Delete_self hd]

/-- Witness for C8: `Delete` on a new handle, and on a handle loaded by `id`
when `Exec` fails. -/
theorem Delete_unloaded_noop_and_flag_witness :
    Delete (New "t".toList) [] (some "boom".toList) = .ok ⟨New "t".toList, none, []⟩ ∧
    ∃ out,
      Delete
        { New "t".toList with
          fields := GoMap.mk [("id".toList, "3".toList)]
          loaded := true
          where_ := GoMap.mk [("id".toList, .int 3)] }
        [("id".toList, .int 3)] (some "boom".toList) = .ok out ∧
      out.self.loaded = true ∧ out.ret = some "boom".toList := by
  refine ⟨Delete_unloaded_noop_and_flag.1 _ _ _ rfl, ?_⟩
  obtain ⟨out, h1, _, h2, h3, _⟩ :=
    Delete_unloaded_noop_and_flag.2.1
      { New "t".toList with
        fields := GoMap.mk [("id".toList, "3".toList)]
        loaded := true
        where_ := GoMap.mk [("id".toList, .int 3)] }
      [("id".toList, .int 3)] (some "boom".toList)
      (Reachable.load (h := New "t".toList) (GoMap.mk [("id".toList, .int 3)])
        [("id".toList, .int 3)] (.ok [("id".toList, "3".toList)])
        (Reachable.new "t".toList) (by decide) (by decide) rfl)
      rfl (by decide)
  exact ⟨out, h1, h2, h3⟩

end DbObject

namespace DbObject

/-! ## `update` -/

theorem placeholder_ne_nil (j : Nat) : Spec.placeholder j ≠ [] := by
  simp [Spec.placeholder]

theorem setTerms_ne_nil (es : List (List Char × Value)) :
    ∀ j, ∀ x ∈ Spec.setTerms j es, x ≠ [] := by
  induction es with
  | nil => intro j x hx; simp [Spec.setTerms] at hx
  | cons e es ih =>
    intro j x hx
    simp only [Spec.setTerms, List.mem_cons] at hx
    rcases hx with rfl | hx
    · simp [Spec.quoted]
    · exact ih _ x hx

theorem functionTerms_ne_nil (fs : List (List Char × List Char)) :
    ∀ x ∈ Spec.functionTerms fs, x ≠ [] := by
  intro x hx
  simp only [Spec.functionTerms, List.mem_map] at hx
  obtain ⟨e, _, rfl⟩ := hx
  simp [Spec.quoted]

theorem setTerms_length (es : List (List Char × Value)) :
    ∀ j, (Spec.setTerms j es).length = es.length := by
  induction es with
  | nil => intro j; rfl
  | cons e es ih => intro j; simp [Spec.setTerms, ih]

/-- The n-th SET term (from 0) names the n-th changed column and carries the
placeholder number `j + n`. -/
theorem setTerms_getElem? (es : List (List Char × Value)) :
    ∀ (j n : Nat), (Spec.setTerms j es)[n]? =
      (es[n]?).map (fun e => Spec.quoted e.1 ++ " = ".toList ++ Spec.placeholder (j + n)) := by
  induction es with
  | nil => intro j n; simp [Spec.setTerms]
  | cons e es ih =>
    intro j n
    cases n with
    | zero => simp [Spec.setTerms]
    | succ n =>
      simp only [Spec.setTerms, List.getElem?_cons_succ, ih]
      have : j + 1 + n = j + (n + 1) := by omega
      rw [this]

/-- The first loop of `update`. -/
theorem update_changed_loop (es : List (List Char × Value)) :
    ∀ acc : Acc, es.foldl updateChangedStep acc =
      ⟨joinOnto ", ".toList acc.text (Spec.setTerms acc.i es), acc.i + es.length,
        acc.bind ++ es.map Prod.snd⟩ := by
  induction es with
  | nil => intro acc; simp [joinOnto, Spec.setTerms]
  | cons e es ih =>
    intro acc
    rw [List.foldl_cons, ih]
    simp [updateChangedStep, Spec.setTerms, joinOnto_cons, Spec.quoted, Spec.placeholder,
      decimal_eq_repr, List.append_assoc, Nat.add_assoc, Nat.add_comm 1]

/-- The second loop of `update`. -/
theorem update_functions_loop (fs : List (List Char × List Char)) :
    ∀ acc : Acc, fs.foldl updateFunctionsStep acc =
      ⟨joinOnto ", ".toList acc.text (Spec.functionTerms fs), acc.i, acc.bind⟩ := by
  induction fs with
  | nil => intro acc; simp [joinOnto, Spec.functionTerms]
  | cons e fs ih =>
    intro acc
    rw [List.foldl_cons, ih]
    simp [updateFunctionsStep, Spec.functionTerms, joinOnto_cons, Spec.quoted,
      List.append_assoc]

/-- The WHERE loop panics as soon as the entries hold an empty key. -/
theorem whereLoop_of_empty_key (es : List (List Char × Value)) :
    ∀ acc : Acc, (∃ e ∈ es, e.1 = []) → whereLoop acc es = .error .indexOutOfRange := by
  induction es with
  | nil => intro acc h; obtain ⟨e, he, _⟩ := h; simp at he
  | cons x es ih =>
    intro acc h
    obtain ⟨key, value⟩ := x
    cases key with
    | nil => rfl
    | cons c rest =>
      have hrest : ∃ e ∈ es, e.1 = [] := by
        obtain ⟨e, he, hk⟩ := h
        simp only [List.mem_cons] at he
        rcases he with rfl | he
        · simp at hk
        · exact ⟨e, he, hk⟩
      have hstep := whereStep_of_ne_nil acc (c :: rest) value (by simp)
      simp only [whereLoop, hstep]
      exact ih _ hrest

/-- What `update` does when the stored condition holds the empty key: it
panics at `key[0]`, before any statement is sent. -/
theorem update_of_empty_key (h : DbObject) (o : Orders) (execReply : Option GoError)
    (hk : ∃ e ∈ o.where_, e.1 = []) : update h o execReply = .error .indexOutOfRange := by
  unfold update
  simp only [whereLoop_of_empty_key o.where_ _ hk]

/-- What `update` does when the stored condition has no empty key. -/
theorem update_of_keys_ne_nil (h : DbObject) (o : Orders) (execReply : Option GoError)
    (hk : ∀ e ∈ o.where_, e.1 ≠ []) :
    update h o execReply =
      .ok ⟨h, execReply,
        Event.exec (Spec.updateStatement h.tableName o.changed o.functions o.where_)
          (o.changed.map Prod.snd ++ o.where_.map Prod.snd) ::
        (match execReply with
          | some _ => [Event.report Severity.error]
          | none => [])⟩ := by
  unfold update
  simp only [update_changed_loop, update_functions_loop, ← joinOnto_append]
  rw [whereLoop_start o.where_ _ _ hk]
  have hne : ∀ x ∈ Spec.setTerms 1 o.changed ++ Spec.functionTerms o.functions, x ≠ [] := by
    intro x hx
    rcases List.mem_append.1 hx with hx | hx
    · exact setTerms_ne_nil _ _ x hx
    · exact functionTerms_ne_nil _ x hx
  rw [joinOnto_eq_intercalate _ _ hne]
  have htext : ∀ a b : List Char,
      "UPDATE \"".toList ++ h.tableName ++ "\" SET ".toList ++ a ++ " WHERE ".toList ++ b =
        "UPDATE ".toList ++ Spec.quoted h.tableName ++ " SET ".toList ++ a ++
          " WHERE ".toList ++ b := by
    intro a b
    simp only [Spec.quoted, List.append_assoc]
    rfl
  cases execReply <;>
    simp only [htext, Spec.updateStatement, List.nil_append, Nat.add_comm 1]

/-- C6: `Save` on a loaded handle does not issue its UPDATE in every state.
`Load` keeps the condition map of its caller itself, so after `Load(m)` with
`m = {"id": 3}` found a row, the caller's `m[""] = 1` puts the empty key into
`where`: on that loaded handle `Save` panics at `key[0]` and sends no
statement, and so it does on every loaded handle whose condition holds the
empty key.  On every loaded handle whose condition has no empty key, with `m`
entries in `changed`, `p` in `functions` and `q` in `where`, and for every
order in which the three maps are enumerated, `Save` issues through `Exec` the
one statement `UPDATE "<tableName>" SET <set> WHERE <where>`: `<set>` lists the
changed columns as `"<key>" = $i`, i = 1..m, and then the function columns as
`"<key>" = <expression>`; `<where>` holds the predicates of `Load`'s rule with
the placeholders m+1..m+q; the bind list is the changed values followed by the
condition values in the same orders, of length m+q, the j-th value standing
under the placeholder `$j`. -/
theorem Save_update_statement :
    ((∃ h1 trace,
        Load (New "t".toList) (GoMap.mk [("id".toList, .int 3)]) [("id".toList, .int 3)]
          (.ok [("id".toList, "3".toList)]) = .ok ⟨h1, (true, none), trace⟩ ∧
        storeInCondition h1 [] (.int 1) = .ok Example.aliasedHandle) ∧
      Example.aliasedHandle.loaded = true ∧
      ∀ (o : Orders) (r : Replies), GoMap.IsRange o.where_ Example.aliasedHandle.where_ →
        Save Example.aliasedHandle o r = .error .indexOutOfRange) ∧
    (∀ (h : DbObject) (o : Orders) (r : Replies), h.loaded = true →
      GoMap.IsRange o.where_ h.where_ → [] ∈ h.where_.keys →
      Save h o r = .error .indexOutOfRange) ∧
    (∀ (h : DbObject) (o : Orders) (r : Replies), h.loaded = true →
      GoMap.IsRange o.changed h.changed → GoMap.IsRange o.functions h.functions →
      GoMap.IsRange o.where_ h.where_ → [] ∉ h.where_.keys →
      ∃ out binds, Save h o r = .ok out ∧ out.self = h ∧ out.ret = r.exec ∧
        out.trace.filter (fun e => e matches .exec _ _ | .queryRow _ _) =
          [.exec
            ("UPDATE ".toList ++ Spec.quoted h.tableName ++ " SET ".toList ++
              ", ".toList.intercalate
                (Spec.setTerms 1 o.changed ++ Spec.functionTerms o.functions) ++
              " WHERE ".toList ++
              " AND ".toList.intercalate (Spec.predicates (h.changed.len + 1) o.where_))
            binds] ∧
        binds = o.changed.map Prod.snd ++ o.where_.map Prod.snd ∧
        binds.length = h.changed.len + h.where_.len ∧
        (∀ (j : Nat) (e : List Char × Value), o.changed[j]? = some e →
          (Spec.setTerms 1 o.changed)[j]? =
            some (Spec.quoted e.1 ++ " = ".toList ++ Spec.placeholder (j + 1)) ∧
          binds[j]? = some e.2) ∧
        (∀ (j : Nat) (e : List Char × List Char), o.functions[j]? = some e →
          (Spec.functionTerms o.functions)[j]? =
            some (Spec.quoted e.1 ++ " = ".toList ++ e.2)) ∧
        (∀ (j : Nat) (e : List Char × Value), o.where_[j]? = some e →
          (Spec.predicates (h.changed.len + 1) o.where_)[j]? =
            some (Spec.predicate e.1 (h.changed.len + j + 1)) ∧
          binds[h.changed.len + j]? = some e.2)) := by
  have hpanic : ∀ (h : DbObject) (o : Orders) (r : Replies), h.loaded = true →
      GoMap.IsRange o.where_ h.where_ → [] ∈ h.where_.keys →
      Save h o r = .error .indexOutOfRange := by
    intro h o r hl hw hmem
    have hmem2 : [] ∈ o.where_.map Prod.fst :=
      (List.Perm.mem_iff (List.Perm.map Prod.fst hw)).2 hmem
    obtain ⟨e, he, hnil⟩ := List.mem_map.1 hmem2
    unfold Save
    rw [if_pos hl]
    exact update_of_empty_key h o r.exec ⟨e, he, hnil⟩
  refine ⟨⟨⟨_, _, rfl, rfl⟩, rfl, fun o r hw => hpanic _ o r rfl hw (by decide)⟩, hpanic, ?_⟩
  intro h o r hl hc _hf hw hne
  have hk : ∀ e ∈ o.where_, e.1 ≠ [] := by
    intro e he hnil
    apply hne
    rw [← hnil]
    exact List.mem_map_of_mem Prod.fst ((List.Perm.mem_iff hw).1 he)
  have hm : o.changed.length = h.changed.len := List.Perm.length_eq hc
  have hq : o.where_.length = h.where_.len := List.Perm.length_eq hw
  have hsave : Save h o r = update h o r.exec := by
    unfold Save
    rw [if_pos hl]
  refine ⟨_, o.changed.map Prod.snd ++ o.where_.map Prod.snd,
    hsave.trans (update_of_keys_ne_nil h o r.exec hk), rfl, rfl, ?_, rfl, ?_, ?_, ?_, ?_⟩
  · cases r.exec <;> simp [Spec.updateStatement, Spec.whereClause, hm]
  · simp [hm, hq]
  · intro j e hj
    constructor
    · rw [setTerms_getElem?, hj]
      simp [Nat.add_comm]
    · have hlt : j < (o.changed.map Prod.snd).length := by
        rw [List.length_map]
        exact (List.getElem?_eq_some_iff.1 hj).1
      rw [List.getElem?_append_left hlt, List.getElem?_map, hj]
      rfl
  · intro j e hj
    simp [Spec.functionTerms, List.getElem?_map, hj]
  · intro j e hj
    constructor
    · rw [predicates_getElem?, hj]
      simp [Nat.add_comm, Nat.add_left_comm, Nat.add_assoc]
    · have hle : (o.changed.map Prod.snd).length ≤ h.changed.len + j := by
        rw [List.length_map, hm]
        exact Nat.le_add_right _ _
      rw [List.getElem?_append_right hle, List.length_map, hm, Nat.add_sub_cancel_left,
        List.getElem?_map, hj]
      rfl

end DbObject

namespace DbObject

theorem Example.loadedHandle_reachable : Reachable Example.loadedHandle :=
  Reachable.set (h := { New "t".toList with
      fields := GoMap.mk [("id".toList, "3".toList)]
      loaded := true
      where_ := GoMap.mk [("id".toList, .int 3)] })
    "name".toList (.str "Ada".toList)
    (Reachable.load (h := New "t".toList) (GoMap.mk [("id".toList, .int 3)])
      [("id".toList, .int 3)] (.ok [("id".toList, "3".toList)])
      (Reachable.new "t".toList) (by decide) (by decide) rfl)
    rfl

theorem Example.seededHandle_reachable : Reachable Example.seededHandle :=
  Reachable.load (h := New "t".toList) (GoMap.mk [("tenant_id".toList, .int 7)])
    [("tenant_id".toList, .int 7)] (.ok [])
    (Reachable.new "t".toList) (by decide) (by decide) rfl

theorem Example.emptyExpressionHandle_reachable : Reachable Example.emptyExpressionHandle :=
  Reachable.set (h := { New "t".toList with functions := GoMap.mk [("x".toList, [])] })
    "y".toList (.int 1)
    (Reachable.setFunction (h := New "t".toList) "x".toList []
      (Reachable.new "t".toList) rfl)
    rfl

/-- Witness for C6: the loaded handle with one changed column, and the
handle whose condition the caller wrote the empty key to. -/
theorem Save_update_statement_witness :
    (∃ out, Save Example.loadedHandle
        ⟨[("name".toList, .str "Ada".toList)], [], [("id".toList, .int 3)]⟩
        Example.acceptAll = .ok out ∧
      out.self = Example.loadedHandle ∧
      out.trace.filter (fun e => e matches .exec _ _ | .queryRow _ _) =
        [.exec "UPDATE \"t\" SET \"name\" = $1 WHERE \"id\" = $2".toList
          [.str "Ada".toList, .int 3]]) ∧
    Save Example.aliasedHandle
      ⟨[], [], [("id".toList, .int 3), ([], .int 1)]⟩ Example.acceptAll =
        .error .indexOutOfRange := by
  obtain ⟨out, binds, h1, h2, _, h4, h5, _⟩ :=
    Save_update_statement.2.2 Example.loadedHandle
      ⟨[("name".toList, .str "Ada".toList)], [], [("id".toList, .int 3)]⟩
      Example.acceptAll rfl (by decide) (by decide) (by decide) (by decide)
  refine ⟨⟨out, h1, h2, ?_⟩, ?_⟩
  · rw [h4, h5]
    rfl
  · exact Save_update_statement.2.1 Example.aliasedHandle
      ⟨[], [], [("id".toList, .int 3), ([], .int 1)]⟩ Example.acceptAll rfl
      (by decide) (by decide)

end DbObject

namespace DbObject

/-! ## `insert` -/

theorem placeholders_ne_nil (n : Nat) : ∀ j, ∀ x ∈ Spec.placeholders j n, x ≠ [] := by
  induction n with
  | zero => intro j x hx; simp [Spec.placeholders] at hx
  | succ n ih =>
    intro j x hx
    simp only [Spec.placeholders, List.mem_cons] at hx
    rcases hx with rfl | hx
    · exact placeholder_ne_nil _
    · exact ih _ x hx

theorem placeholders_length (n : Nat) : ∀ j, (Spec.placeholders j n).length = n := by
  induction n with
  | zero => intro j; rfl
  | succ n ih => intro j; simp [Spec.placeholders, ih]

/-- A run of columns with bound values, as the first and the third loop of
`insert` add them. -/
theorem insert_bound_loop (es : List (List Char × Value)) :
    ∀ acc : InsertAcc, es.foldl (fun a e => insertBound a e.1 e.2) acc =
      ⟨joinOnto ", ".toList acc.fields (es.map (fun e => Spec.quoted e.1)),
        joinOnto ", ".toList acc.values (Spec.placeholders acc.i es.length),
        acc.i + es.length, acc.bind ++ es.map Prod.snd⟩ := by
  induction es with
  | nil => intro acc; simp [joinOnto, Spec.placeholders]
  | cons e es ih =>
    intro acc
    rw [List.foldl_cons, ih]
    simp [insertBound, insertSeparate, Spec.placeholders, joinOnto_cons, Spec.quoted,
      Spec.placeholder, decimal_eq_repr, List.append_assoc, Nat.add_assoc, Nat.add_comm 1]

/-- The first loop of `insert` keeps the seeding entries of the condition. -/
theorem insert_where_loop (h : DbObject) (es : List (List Char × Value)) :
    ∀ acc : InsertAcc, (∀ e ∈ es, e.1 ≠ []) →
      insertWhereLoop h acc es =
        .ok ((Spec.seeded h es).foldl (fun a e => insertBound a e.1 e.2) acc) := by
  induction es with
  | nil => intro acc _; rfl
  | cons e es ih =>
    intro acc hk
    obtain ⟨key, value⟩ := e
    have hrest : ∀ e ∈ es, e.1 ≠ [] := fun e he => hk e (List.mem_cons_of_mem _ he)
    cases key with
    | nil => exact absurd rfl (hk ([], value) (List.mem_cons_self _ _))
    | cons c rest =>
      by_cases hc : c = '!'
      · subst hc
        simp [insertWhereLoop, insertWhereStep, Spec.seeded, ih _ hrest]
      · cases hfn : h.functions.contains (c :: rest) <;>
          cases hch : h.changed.contains (c :: rest) <;>
          simp [insertWhereLoop, insertWhereStep, Spec.seeded, ih _ hrest, hc, hfn, hch]

/-- The second loop of `insert`. -/
theorem insert_functions_loop (fs : List (List Char × List Char)) :
    ∀ acc : InsertAcc, fs.foldl insertFunctionsStep acc =
      ⟨joinOnto ", ".toList acc.fields (fs.map (fun e => Spec.quoted e.1)),
        joinOnto ", ".toList acc.values (fs.map Prod.snd), acc.i, acc.bind⟩ := by
  induction fs with
  | nil => intro acc; simp [joinOnto]
  | cons e fs ih =>
    intro acc
    rw [List.foldl_cons, ih]
    simp [insertFunctionsStep, insertSeparate, joinOnto_cons, Spec.quoted, List.append_assoc]

/-- The statement and bind list of `insert` when the stored condition has no
empty key and no function expression is the empty text. -/
theorem insertStatement_eq (h : DbObject) (o : Orders)
    (hk : ∀ e ∈ o.where_, e.1 ≠ []) (hf : ∀ e ∈ o.functions, e.2 ≠ []) :
    insertStatement h o =
      .ok (Spec.insertStatement h.tableName (Spec.seeded h o.where_) o.functions o.changed,
        (Spec.seeded h o.where_).map Prod.snd ++ o.changed.map Prod.snd) := by
  unfold insertStatement
  rw [insert_where_loop h o.where_ _ hk]
  have hchanged : ∀ acc : InsertAcc, o.changed.foldl insertChangedStep acc =
      o.changed.foldl (fun a e => insertBound a e.1 e.2) acc := fun _ => rfl
  simp only [hchanged, insert_bound_loop, insert_functions_loop, ← joinOnto_append]
  have hcols : ∀ x ∈ (Spec.seeded h o.where_).map (fun e => Spec.quoted e.1) ++
      (o.functions.map (fun e => Spec.quoted e.1) ++
        o.changed.map (fun e => Spec.quoted e.1)), x ≠ [] := by
    intro x hx
    simp only [List.mem_append, List.mem_map] at hx
    rcases hx with ⟨e, _, rfl⟩ | ⟨e, _, rfl⟩ | ⟨e, _, rfl⟩ <;> exact quoted_ne_nil _
  have hvals : ∀ x ∈ Spec.placeholders 1 (Spec.seeded h o.where_).length ++
      (o.functions.map Prod.snd ++
        Spec.placeholders (1 + (Spec.seeded h o.where_).length) o.changed.length), x ≠ [] := by
    intro x hx
    simp only [List.mem_append, List.mem_map] at hx
    rcases hx with hx | ⟨e, he, rfl⟩ | hx
    · exact placeholders_ne_nil _ _ x hx
    · exact hf e he
    · exact placeholders_ne_nil _ _ x hx
  simp only [List.append_assoc] at hcols hvals ⊢
  rw [joinOnto_eq_intercalate _ _ hcols, joinOnto_eq_intercalate _ _ hvals]
  simp only [Spec.insertStatement, Spec.insertColumns, Spec.insertValues, Spec.quoted,
    List.map_append, List.map_map, List.append_assoc, List.nil_append, Nat.add_comm 1,
    Function.comp_def]
  rfl

end DbObject

namespace DbObject

theorem placeholders_getElem? (n : Nat) :
    ∀ (j k : Nat), k < n → (Spec.placeholders j n)[k]? = some (Spec.placeholder (j + k)) := by
  induction n with
  | zero => intro j k hk; exact absurd hk (Nat.not_lt_zero _)
  | succ n ih =>
    intro j k hk
    cases k with
    | zero => simp [Spec.placeholders]
    | succ k =>
      simp only [Spec.placeholders, List.getElem?_cons_succ]
      rw [ih (j + 1) k (Nat.lt_of_succ_lt_succ hk)]
      have : j + 1 + k = j + (k + 1) := by omega
      rw [this]

theorem placeholders_append (n m : Nat) :
    ∀ j, Spec.placeholders j n ++ Spec.placeholders (j + n) m = Spec.placeholders j (n + m) := by
  induction n with
  | zero => intro j; simp [Spec.placeholders]
  | succ n ih =>
    intro j
    have h1 : j + (n + 1) = j + 1 + n := by omega
    have h2 : n + 1 + m = (n + m) + 1 := by omega
    rw [h1, h2]
    simp only [Spec.placeholders, List.cons_append, ih]

theorem mem_seeded (h : DbObject) (cond : List (List Char × Value)) (e : List Char × Value) :
    e ∈ Spec.seeded h cond ↔
      e ∈ cond ∧ e.1.head? ≠ some '!' ∧ e.1 ∉ h.changed.keys ∧ e.1 ∉ h.functions.keys := by
  simp only [Spec.seeded, List.mem_filter, Bool.and_eq_true, decide_eq_true_eq,
    Bool.not_eq_true', ← contains_iff_mem_keys, Bool.not_eq_true, and_assoc]

/-- A `Save` on an unloaded handle that returns has first sent the statement
that `insert` built: through `QueryRow` with `RETURNING "<IdField>"` appended
when `LoadAfterInsert` is set, and through `Exec` otherwise. -/
theorem Save_insert_first_event (h : DbObject) (o : Orders) (r : Replies)
    (out : Outcome (Option GoError)) (hl : h.loaded = false) (hs : Save h o r = .ok out) :
    ∃ q b, insertStatement h o = .ok (q, b) ∧
      out.trace.head? = some
        (if h.LoadAfterInsert then
          Event.queryRow (q ++ " RETURNING \"".toList ++ h.IdField ++ "\"".toList) b
        else Event.exec q b) := by
  unfold Save at hs
  rw [hl] at hs
  simp only [Bool.false_eq_true, if_false] at hs
  unfold insert at hs
  cases hst : insertStatement h o with
  | error f => simp [hst] at hs
  | ok qb =>
    obtain ⟨q, b⟩ := qb
    refine ⟨q, b, rfl, ?_⟩
    simp only [hst] at hs
    by_cases hf : h.LoadAfterInsert = true
    · rw [if_pos hf] at hs
      rw [if_pos hf]
      cases hq : r.queryRow with
      | error err =>
        simp only [hq, Except.ok.injEq] at hs
        subst hs; rfl
      | ok data =>
        simp only [hq] at hs
        split at hs
        · simp at hs
        · split at hs <;> simp only [Except.ok.injEq] at hs <;> subst hs <;> rfl
    · rw [if_neg hf] at hs
      rw [if_neg hf]
      cases he : r.exec <;> simp only [he, Except.ok.injEq] at hs <;> subst hs <;> rfl

/-- C7: the INSERT that `Save` builds on an unloaded handle.  When a function
expression is the empty text and no value precedes it, the separator after it
is left out: after `SetFunction("x", "")` and `Set("y", 1)` the statement is
`INSERT INTO "t" ("x", "y") VALUES ($1)`, two columns and one value, where the
order of the specification gives `VALUES (, $1)`.  When no function expression
is empty, the statement lists (1) the keys of `where` that do not begin with
`!` and are pending neither in `changed` nor in `functions`, each with a
placeholder and its value bound, (2) the entries of `functions` with the
expression verbatim, (3) the entries of `changed` with a placeholder and the
value bound; columns and values are equally many, the placeholders are numbered
1, 2, ... from the left and the j-th bound value stands under `$j`.  With
`where = {"tenant_id": 7}` and nothing set, the columns are `("tenant_id")`, the
values `($1)` and the bind list `[7]`. -/
theorem Save_insert_statement :
    (insertStatement Example.emptyExpressionHandle
        ⟨[("y".toList, .int 1)], [("x".toList, [])], []⟩ =
      .ok ("INSERT INTO \"t\" (\"x\", \"y\") VALUES ($1)".toList, [.int 1]) ∧
     Spec.insertStatement "t".toList [] [("x".toList, [])] [("y".toList, .int 1)] =
      "INSERT INTO \"t\" (\"x\", \"y\") VALUES (, $1)".toList ∧
     ∃ out, Save Example.emptyExpressionHandle
        ⟨[("y".toList, .int 1)], [("x".toList, [])], []⟩ Example.acceptAll = .ok out ∧
       out.trace.head? = some (.queryRow
        "INSERT INTO \"t\" (\"x\", \"y\") VALUES ($1) RETURNING \"id\"".toList [.int 1])) ∧
    (∀ (h : DbObject) (o : Orders), Reachable h → h.loaded = false →
      GoMap.IsRange o.changed h.changed → GoMap.IsRange o.functions h.functions →
      GoMap.IsRange o.where_ h.where_ → (∀ e ∈ o.functions, e.2 ≠ []) →
      ∃ (seed : List (List Char × Value)) (columns values : List (List Char))
        (binds : List Value),
        insertStatement h o =
          .ok ("INSERT INTO ".toList ++ Spec.quoted h.tableName ++ " (".toList ++
              ", ".toList.intercalate (columns.map Spec.quoted) ++ ") VALUES (".toList ++
              ", ".toList.intercalate values ++ ")".toList, binds) ∧
        (∀ e, e ∈ seed ↔ e ∈ o.where_ ∧ e.1.head? ≠ some '!' ∧
          e.1 ∉ h.changed.keys ∧ e.1 ∉ h.functions.keys) ∧
        seed.Sublist o.where_ ∧
        columns = seed.map Prod.fst ++ o.functions.map Prod.fst ++ o.changed.map Prod.fst ∧
        values = Spec.placeholders 1 seed.length ++ o.functions.map Prod.snd ++
          Spec.placeholders (seed.length + 1) o.changed.length ∧
        binds = seed.map Prod.snd ++ o.changed.map Prod.snd ∧
        columns.length = values.length ∧
        binds.length = seed.length + o.changed.length ∧
        Spec.placeholders 1 seed.length ++ Spec.placeholders (seed.length + 1) o.changed.length
          = Spec.placeholders 1 binds.length ∧
        (∀ (j : Nat) (e : List Char × Value), seed[j]? = some e →
          columns[j]? = some e.1 ∧ values[j]? = some (Spec.placeholder (j + 1)) ∧
          binds[j]? = some e.2) ∧
        (∀ (j : Nat) (e : List Char × List Char), o.functions[j]? = some e →
          columns[seed.length + j]? = some e.1 ∧ values[seed.length + j]? = some e.2) ∧
        (∀ (j : Nat) (e : List Char × Value), o.changed[j]? = some e →
          columns[seed.length + o.functions.length + j]? = some e.1 ∧
          values[seed.length + o.functions.length + j]? =
            some (Spec.placeholder (seed.length + j + 1)) ∧
          binds[seed.length + j]? = some e.2)) ∧
    (∀ (h : DbObject) (o : Orders) (r : Replies) (out : Outcome (Option GoError)),
      h.loaded = false → Save h o r = .ok out →
      ∃ q b, insertStatement h o = .ok (q, b) ∧
        out.trace.head? = some
          (if h.LoadAfterInsert then
            Event.queryRow (q ++ " RETURNING \"".toList ++ h.IdField ++ "\"".toList) b
          else Event.exec q b)) ∧
    insertStatement Example.seededHandle ⟨[], [], [("tenant_id".toList, .int 7)]⟩ =
      .ok ("INSERT INTO \"t\" (\"tenant_id\") VALUES ($1)".toList, [.int 7]) := by
  refine ⟨⟨rfl, rfl, _, rfl, rfl⟩, ?_, Save_insert_first_event, rfl⟩
  intro h o hr _ _ _ hw hf
  have hk := hr.order_keys_ne_nil hw
  have hlen : ∀ j (e : List Char × Value) (l : List (List Char × Value)),
      l[j]? = some e → j < l.length := fun j e l hj => (List.getElem?_eq_some_iff.1 hj).1
  refine ⟨Spec.seeded h o.where_,
    (Spec.seeded h o.where_).map Prod.fst ++ o.functions.map Prod.fst ++ o.changed.map Prod.fst,
    Spec.placeholders 1 (Spec.seeded h o.where_).length ++ o.functions.map Prod.snd ++
      Spec.placeholders ((Spec.seeded h o.where_).length + 1) o.changed.length,
    (Spec.seeded h o.where_).map Prod.snd ++ o.changed.map Prod.snd,
    insertStatement_eq h o hk hf, mem_seeded h o.where_,
    List.filter_sublist _, rfl, rfl, rfl, ?_, ?_, ?_, ?_, ?_, ?_⟩
  · simp [placeholders_length]
  · simp
  · have := placeholders_append (Spec.seeded h o.where_).length o.changed.length 1
    simp only [List.length_append, List.length_map]
    rw [← this, Nat.add_comm 1]
  · intro j e hj
    have hlt := hlen j e _ hj
    refine ⟨?_, ?_, ?_⟩
    · rw [List.append_assoc, List.getElem?_append_left (by simpa using hlt),
        List.getElem?_map, hj]
      rfl
    · rw [List.append_assoc,
        List.getElem?_append_left (by simpa [placeholders_length] using hlt),
        placeholders_getElem? _ _ _ hlt, Nat.add_comm]
    · rw [List.getElem?_append_left (by simpa using hlt), List.getElem?_map, hj]
      rfl
  · intro j e hj
    have hlt : j < o.functions.length := (List.getElem?_eq_some_iff.1 hj).1
    constructor
    · rw [List.append_assoc, List.getElem?_append_right (by simp),
        List.getElem?_append_left (by simpa using hlt)]
      simp [hj]
    · rw [List.append_assoc, List.getElem?_append_right (by simp [placeholders_length]),
        List.getElem?_append_left (by simpa [placeholders_length] using hlt)]
      simp [placeholders_length, hj]
  · intro j e hj
    have hlt := hlen j e _ hj
    refine ⟨?_, ?_, ?_⟩
    · rw [List.getElem?_append_right (by simp)]
      simp [hj]
    · rw [List.getElem?_append_right (by simp [placeholders_length])]
      simp only [List.length_append, List.length_map, placeholders_length,
        Nat.add_sub_cancel_left]
      rw [placeholders_getElem? _ _ _ hlt]
      have : (Spec.seeded h o.where_).length + 1 + j = (Spec.seeded h o.where_).length + j + 1 := by
        omega
      rw [this]
    · rw [List.getElem?_append_right (by simp)]
      simp [hj]

/-- Witness for C7: the unloaded handle left by `Load({"tenant_id": 7})`. -/
theorem Save_insert_statement_witness :
    ∃ (seed : List (List Char × Value)) (columns values : List (List Char))
      (binds : List Value),
      insertStatement Example.seededHandle ⟨[], [], [("tenant_id".toList, .int 7)]⟩ =
        .ok ("INSERT INTO ".toList ++ Spec.quoted Example.seededHandle.tableName ++
            " (".toList ++ ", ".toList.intercalate (columns.map Spec.quoted) ++
            ") VALUES (".toList ++ ", ".toList.intercalate values ++ ")".toList, binds) ∧
      columns = seed.map Prod.fst ++ ([] : List (List Char × List Char)).map Prod.fst ++
        ([] : List (List Char × Value)).map Prod.fst ∧
      columns.length = values.length := by
  obtain ⟨seed, columns, values, binds, h1, _, _, h2, _, _, h3, _⟩ :=
    Save_insert_statement.2.1 Example.seededHandle ⟨[], [], [("tenant_id".toList, .int 7)]⟩
      Example.seededHandle_reachable rfl (by decide) (by decide) (by decide) (by decide)
  exact ⟨seed, columns, values, binds, h1, h2, h3⟩

end DbObject

namespace DbHandler

/-! ## The connection pool -/

theorem lookup_put_same {α : Type} (es : List (List Char × α)) (k : List Char) (v : α) :
    (GoMap.mk (Pool.put es k v)).lookup k = some v := by
  simp [Pool.put, GoMap.lookup, GoMap.entries]

theorem lookup_filter_ne {α : Type} (es : List (List Char × α)) (k k' : List Char)
    (hne : k' ≠ k) :
    (es.filter (fun e => e.1 ≠ k)).find? (fun e => e.1 = k') =
      es.find? (fun e => e.1 = k') := by
  induction es with
  | nil => rfl
  | cons e es ih =>
    by_cases h1 : e.1 = k
    · have h2 : ¬ e.1 = k' := fun h => hne (h.symm.trans h1)
      rw [List.filter_cons_of_neg (by simp [h1]), ih,
        List.find?_cons_of_neg _ (by simp [h2])]
    · rw [List.filter_cons_of_pos (by simp [h1])]
      by_cases h2 : e.1 = k'
      · rw [List.find?_cons_of_pos _ (by simp [h2]), List.find?_cons_of_pos _ (by simp [h2])]
      · rw [List.find?_cons_of_neg _ (by simp [h2]), List.find?_cons_of_neg _ (by simp [h2]),
          ih]

theorem lookup_put_other {α : Type} (es : List (List Char × α)) (k k' : List Char) (v : α)
    (hne : k' ≠ k) : (GoMap.mk (Pool.put es k v)).lookup k' = (GoMap.mk es).lookup k' := by
  have h2 : ¬ k = k' := fun h => hne h.symm
  simp only [Pool.put, GoMap.lookup, GoMap.entries, List.find?_cons, h2, decide_False]
  rw [lookup_filter_ne es k k' hne]

theorem lookup_remove_same {α : Type} (es : List (List Char × α)) (k : List Char) :
    (GoMap.mk (Pool.remove es k)).lookup k = none := by
  simp [Pool.remove, GoMap.delete, GoMap.lookup, GoMap.entries, List.find?_eq_none]

theorem lookup_remove_other {α : Type} (es : List (List Char × α)) (k k' : List Char)
    (hne : k' ≠ k) : (GoMap.mk (Pool.remove es k)).lookup k' = (GoMap.mk es).lookup k' := by
  simp only [Pool.remove, GoMap.delete, GoMap.lookup, GoMap.entries]
  rw [lookup_filter_ne es k k' hne]

theorem not_mem_keys_remove {α : Type} (es : List (List Char × α)) (k : List Char) :
    k ∉ (Pool.remove es k).map Prod.fst := by
  intro hk
  simp only [Pool.remove, GoMap.delete, GoMap.entries, List.mem_map, List.mem_filter] at hk
  obtain ⟨e, ⟨_, hne⟩, heq⟩ := hk
  simp [heq] at hne

theorem lookup_of_not_mem_keys {α : Type} (es : List (List Char × α)) (k : List Char)
    (hk : k ∉ es.map Prod.fst) : (GoMap.mk es).lookup k = none := by
  simp only [GoMap.lookup, GoMap.entries, Option.map_eq_none', List.find?_eq_none,
    decide_eq_true_eq]
  intro e he heq
  apply hk
  rw [← heq]
  exact List.mem_map_of_mem Prod.fst he

/-- The registration check passes exactly when the handle holds a connection
and its identity is registered with one. -/
theorem checkConn_none_iff (p : Pool) (h : DbHandler) :
    (checkConn p h).1 = none ↔ h.dbh ≠ none ∧ p.conn h.dbURLHash ≠ none := by
  unfold checkConn
  by_cases hc : h.dbh = none ∨ p.conn h.dbURLHash = none
  · rw [if_pos hc]
    simp only [reduceCtorEq, false_iff, not_and_or, not_not]
    exact hc
  · rw [if_neg hc]
    simp only [true_iff]
    exact not_or.1 hc

theorem checkConn_pass (p : Pool) (h : DbHandler) (hh : h.dbh ≠ none)
    (hp : p.conn h.dbURLHash ≠ none) : checkConn p h = (none, []) := by
  unfold checkConn
  rw [if_neg (not_or.2 ⟨hh, hp⟩)]

/-- What `Disconnect` does on an identity in use more than once. -/
theorem Disconnect_of_shared (p : Pool) (h : DbHandler) (closeReply : Option GoError)
    (hh : h.dbh ≠ none) (hp : p.conn h.dbURLHash ≠ none) (hcount : 1 < p.count h.dbURLHash) :
    Disconnect p h closeReply =
      ⟨{ p with
          activeConnections :=
            Pool.put p.activeConnections h.dbURLHash (p.count h.dbURLHash - 1) },
        { h with dbh := none }, none, []⟩ := by
  have h0 : 0 < p.count h.dbURLHash := by omega
  have h1 : 0 < p.count h.dbURLHash - 1 := by omega
  unfold Disconnect
  simp only [checkConn_pass p h hh hp, if_pos h0]
  have hc : Pool.count
      { p with
        activeConnections :=
          Pool.put p.activeConnections h.dbURLHash (p.count h.dbURLHash - 1) }
      h.dbURLHash = p.count h.dbURLHash - 1 := by
    simp [Pool.count, lookup_put_same]
  rw [if_pos (by rw [hc]; exact h1)]

/-- C9: when the handle passes the registration check and the use-count of
its identity is greater than 1, `Disconnect` returns nil, makes no call of
`Close`, leaves the registry as it was (so the identity stays registered with
the same connection) and lowers the use-count of the identity by exactly one,
touching no other use-count. -/
theorem Disconnect_shared_keeps_connection (p : Pool) (h : DbHandler)
    (closeReply : Option GoError) (hcheck : (checkConn p h).1 = none)
    (hcount : 1 < p.count h.dbURLHash) :
    (Disconnect p h closeReply).err = none ∧
    (∀ c, Event.close c ∉ (Disconnect p h closeReply).trace) ∧
    (Disconnect p h closeReply).pool.dbh = p.dbh ∧
    (Disconnect p h closeReply).pool.conn h.dbURLHash = p.conn h.dbURLHash ∧
    (Disconnect p h closeReply).pool.conn h.dbURLHash ≠ none ∧
    (Disconnect p h closeReply).pool.count h.dbURLHash + 1 = p.count h.dbURLHash ∧
    (∀ k, k ≠ h.dbURLHash → (Disconnect p h closeReply).pool.count k = p.count k) := by
  obtain ⟨hh, hp⟩ := (checkConn_none_iff p h).1 hcheck
  rw [Disconnect_of_shared p h closeReply hh hp hcount]
  refine ⟨rfl, ?_, rfl, rfl, hp, ?_, ?_⟩
  · intro c hc
    simp at hc
  · simp only [Pool.count, lookup_put_same, Option.getD_some]
    have : 1 < ((GoMap.mk p.activeConnections).lookup h.dbURLHash).getD 0 := hcount
    omega
  · intro k hk
    simp only [Pool.count, lookup_put_other _ _ _ _ hk]

/-- Witness for C9: an identity used by three handles. -/
theorem Disconnect_shared_keeps_connection_witness :
    (Disconnect ⟨[("k".toList, some 4)], [("k".toList, 3)]⟩
        { New with dbh := some 4, dbURLHash := "k".toList } none).err = none ∧
    (Disconnect ⟨[("k".toList, some 4)], [("k".toList, 3)]⟩
        { New with dbh := some 4, dbURLHash := "k".toList } none).pool.count "k".toList + 1 = 3 := by
  obtain ⟨h1, _, _, _, _, h2, _⟩ :=
    Disconnect_shared_keeps_connection ⟨[("k".toList, some 4)], [("k".toList, 3)]⟩
      { New with dbh := some 4, dbURLHash := "k".toList } none (by decide) (by decide)
  exact ⟨h1, h2⟩

end DbHandler

namespace DbHandler

theorem conn_of_not_mem (p : Pool) (k : List Char) (hk : k ∉ p.dbh.map Prod.fst) :
    p.conn k = none := by
  simp [Pool.conn, lookup_of_not_mem_keys _ _ hk]

theorem count_of_not_mem (p : Pool) (k : List Char)
    (hk : k ∉ p.activeConnections.map Prod.fst) : p.count k = 0 := by
  simp [Pool.count, lookup_of_not_mem_keys _ _ hk]

/-- What `Connect` does on a registered identity when the ping succeeds. -/
theorem Connect_registered (md5hex : List Char → List Char) (p : Pool) (h : DbHandler)
    (dbURL : List Char) (openReply : Except GoError Conn) (c : Conn)
    (hc : p.conn (md5hex dbURL) = some c) :
    Connect md5hex p h dbURL openReply none =
      ⟨{ p with
          activeConnections := Pool.put p.activeConnections (md5hex dbURL)
            ((p.count (md5hex dbURL) + 1) % 65536) },
        { h with dbURLHash := md5hex dbURL, dbh := some c }, none, [.ping c]⟩ := by
  simp [Connect, hc, connectPing]

/-- What `Connect` does on an identity that is not registered when `sql.Open` and the
ping succeed. -/
theorem Connect_fresh (md5hex : List Char → List Char) (p : Pool) (h : DbHandler)
    (dbURL : List Char) (c : Conn) (hc : p.conn (md5hex dbURL) = none) :
    Connect md5hex p h dbURL (.ok c) none =
      ⟨{ dbh := Pool.put p.dbh (md5hex dbURL) (some c)
         activeConnections := Pool.put p.activeConnections (md5hex dbURL)
            ((p.count (md5hex dbURL) + 1) % 65536) },
        { h with dbURLHash := md5hex dbURL, dbh := some c }, none,
        [.sqlOpen dbURL, .ping c]⟩ := by
  simp [Connect, hc, connectPing, Pool.count]

/-- A `Connect` that returns nil has pinged with success, and has opened the
connection with success if the identity was not registered. -/
theorem Connect_err_none (md5hex : List Char → List Char) (p : Pool) (h : DbHandler)
    (dbURL : List Char) (openReply : Except GoError Conn) (pingReply : Option GoError)
    (herr : (Connect md5hex p h dbURL openReply pingReply).err = none) :
    pingReply = none ∧ (p.conn (md5hex dbURL) = none → ∃ c, openReply = .ok c) := by
  unfold Connect at herr
  cases hc : p.conn (md5hex dbURL) with
  | some c =>
    cases pingReply with
    | none => exact ⟨rfl, fun h => by simp at h⟩
    | some e => simp [hc, connectPing] at herr
  | none =>
    cases openReply with
    | error e => simp [hc] at herr
    | ok c =>
      cases pingReply with
      | none => exact ⟨rfl, fun _ => ⟨c, rfl⟩⟩
      | some e => simp [hc, connectPing] at herr

/-- A series of `Connect` calls on a registered identity, every ping
succeeding. -/
theorem connectEach_registered (md5hex : List Char → List Char) (dbURL : List Char) (c : Conn)
    (calls : List (DbHandler × Except GoError Conn × Option GoError)) :
    ∀ p : Pool, p.conn (md5hex dbURL) = some c → p.count (md5hex dbURL) < 65536 →
      (∀ x ∈ calls, x.2.2 = none) →
      (connectEach md5hex dbURL p calls).1.conn (md5hex dbURL) = some c ∧
      (connectEach md5hex dbURL p calls).1.count (md5hex dbURL) =
        (p.count (md5hex dbURL) + calls.length) % 65536 ∧
      (connectEach md5hex dbURL p calls).2.length = calls.length ∧
      ∀ o ∈ (connectEach md5hex dbURL p calls).2,
        o.err = none ∧ o.self.dbh = some c ∧ o.self.dbURLHash = md5hex dbURL ∧
        closes o.trace = [] := by
  induction calls with
  | nil =>
    intro p hc hlt _
    refine ⟨hc, ?_, rfl, ?_⟩
    · simp only [connectEach, List.length_nil, Nat.add_zero]
      exact (Nat.mod_eq_of_lt hlt).symm
    · intro o ho
      simp [connectEach] at ho
  | cons x calls ih =>
    intro p hc hlt hping
    obtain ⟨h, openReply, pingReply⟩ := x
    have hp : pingReply = none := hping (h, openReply, pingReply) (List.mem_cons_self _ _)
    subst hp
    have hrest : ∀ x ∈ calls, x.2.2 = none := fun x hx => hping x (List.mem_cons_of_mem _ hx)
    have hstep := Connect_registered md5hex p h dbURL openReply c hc
    have hc' : (Connect md5hex p h dbURL openReply none).pool.conn (md5hex dbURL) = some c := by
      rw [hstep]; exact hc
    have hn' : (Connect md5hex p h dbURL openReply none).pool.count (md5hex dbURL) =
        (p.count (md5hex dbURL) + 1) % 65536 := by
      rw [hstep]; simp [Pool.count, lookup_put_same]
    have hlt' : (Connect md5hex p h dbURL openReply none).pool.count (md5hex dbURL) < 65536 := by
      rw [hn']; exact Nat.mod_lt _ (by decide)
    obtain ⟨i1, i2, i3, i4⟩ := ih _ hc' hlt' hrest
    refine ⟨i1, ?_, ?_, ?_⟩
    · simp only [connectEach, List.length_cons]
      rw [i2, hn']
      omega
    · simp only [connectEach, List.length_cons, i3]
    · intro o ho
      simp only [connectEach, List.mem_cons] at ho
      rcases ho with rfl | ho
      · rw [hstep]
        exact ⟨rfl, rfl, rfl, rfl⟩
      · exact i4 o ho

/-- When every call of a series of `Connect` calls returns nil, every ping has
succeeded. -/
theorem pings_of_connectEach (md5hex : List Char → List Char) (dbURL : List Char)
    (calls : List (DbHandler × Except GoError Conn × Option GoError)) :
    ∀ p : Pool, (∀ o ∈ (connectEach md5hex dbURL p calls).2, o.err = none) →
      ∀ x ∈ calls, x.2.2 = none := by
  induction calls with
  | nil => intro _ _ x hx; simp at hx
  | cons y calls ih =>
    intro p hall x hx
    obtain ⟨h, openReply, pingReply⟩ := y
    simp only [connectEach, List.mem_cons, forall_eq_or_imp] at hall
    simp only [List.mem_cons] at hx
    rcases hx with rfl | hx
    · exact (Connect_err_none md5hex p h dbURL openReply pingReply hall.1).1
    · exact ih _ hall.2 x hx

/-- What `Disconnect` does by a handle that holds `c` on an identity whose use-count is
at most 1: the identity leaves both maps and `Close` is called once, on `c`. -/
theorem Disconnect_last (p : Pool) (h : DbHandler) (closeReply : Option GoError) (c : Conn)
    (hh : h.dbh = some c) (hp : p.conn h.dbURLHash ≠ none) (hcount : p.count h.dbURLHash ≤ 1) :
    (Disconnect p h closeReply).err = closeReply ∧
    closes (Disconnect p h closeReply).trace = [.close c] ∧
    h.dbURLHash ∉ (Disconnect p h closeReply).pool.dbh.map Prod.fst ∧
    h.dbURLHash ∉ (Disconnect p h closeReply).pool.activeConnections.map Prod.fst := by
  have hh' : h.dbh ≠ none := by simp [hh]
  unfold Disconnect
  simp only [checkConn_pass p h hh' hp, hh]
  by_cases h0 : 0 < p.count h.dbURLHash
  · have h1 : p.count h.dbURLHash - 1 = 0 := by omega
    have hc : ¬ 0 < Pool.count
        { p with
          activeConnections :=
            Pool.put p.activeConnections h.dbURLHash (p.count h.dbURLHash - 1) }
        h.dbURLHash := by
      have h1' : ((GoMap.mk p.activeConnections).lookup h.dbURLHash).getD 0 - 1 = 0 := h1
      simp only [Pool.count, lookup_put_same, Option.getD_some]
      omega
    simp only [if_pos h0, if_neg hc]
    cases closeReply <;>
      exact ⟨rfl, rfl, not_mem_keys_remove _ _, not_mem_keys_remove _ _⟩
  · simp only [if_neg h0]
    cases closeReply <;>
      exact ⟨rfl, rfl, not_mem_keys_remove _ _, not_mem_keys_remove _ _⟩

/-- What `Disconnect` does on an identity that is not registered: an error, nothing
closed, the package state untouched. -/
theorem Disconnect_unregistered (p : Pool) (h : DbHandler) (closeReply : Option GoError)
    (hp : p.conn h.dbURLHash = none) :
    Disconnect p h closeReply =
      ⟨p, { h with dbh := none }, some "connection closed".toList,
        [.report .error, .report .error]⟩ := by
  unfold Disconnect checkConn
  rw [if_pos (Or.inr hp)]
  rfl

/-- After the identity has left the registry every further `Disconnect` of a
handle of that identity fails and closes nothing. -/
theorem disconnectEach_unregistered (k : List Char) (ds : List (DbHandler × Option GoError)) :
    ∀ p : Pool, p.conn k = none → (∀ x ∈ ds, x.1.dbURLHash = k) →
      (disconnectEach p ds).1 = p ∧ (disconnectEach p ds).2.length = ds.length ∧
      ∀ o ∈ (disconnectEach p ds).2, closes o.trace = [] ∧ o.err ≠ none := by
  induction ds with
  | nil =>
    intro p _ _
    refine ⟨rfl, rfl, ?_⟩
    intro o ho
    simp [disconnectEach] at ho
  | cons x ds ih =>
    intro p hp hk
    obtain ⟨h, closeReply⟩ := x
    have hkh : h.dbURLHash = k := hk (h, closeReply) (List.mem_cons_self _ _)
    have hstep := Disconnect_unregistered p h closeReply (by rw [hkh]; exact hp)
    have hrest : ∀ x ∈ ds, x.1.dbURLHash = k := fun x hx => hk x (List.mem_cons_of_mem _ hx)
    have hp' : (Disconnect p h closeReply).pool.conn k = none := by rw [hstep]; exact hp
    obtain ⟨i1, i2, i3⟩ := ih _ hp' hrest
    refine ⟨?_, ?_, ?_⟩
    · simp only [disconnectEach]
      rw [i1, hstep]
    · simp only [disconnectEach, List.length_cons, i2]
    · intro o ho
      simp only [disconnectEach, List.mem_cons] at ho
      rcases ho with rfl | ho
      · rw [hstep]
        exact ⟨rfl, by simp⟩
      · exact i3 o ho

/-- As many `Disconnect` calls as the use-count says, by handles that hold the
registered connection: all but the last return nil and close nothing, the last
one closes the connection and removes the identity. -/
theorem disconnectEach_counted (k : List Char) (c : Conn)
    (ds : List (DbHandler × Option GoError)) :
    ∀ p : Pool, ds ≠ [] → p.conn k ≠ none → p.count k = ds.length →
      (∀ x ∈ ds, x.1.dbh = some c ∧ x.1.dbURLHash = k) →
      k ∉ (disconnectEach p ds).1.dbh.map Prod.fst ∧
      k ∉ (disconnectEach p ds).1.activeConnections.map Prod.fst ∧
      ∃ (pre : List Outcome) (last : Outcome),
        (disconnectEach p ds).2 = pre ++ [last] ∧ pre.length + 1 = ds.length ∧
        (∀ o ∈ pre, o.err = none ∧ closes o.trace = []) ∧
        closes last.trace = [.close c] := by
  induction ds with
  | nil => intro p hne; exact absurd rfl hne
  | cons x ds ih =>
    intro p _ hp hcount hall
    obtain ⟨h, closeReply⟩ := x
    obtain ⟨hh, hkh⟩ := hall (h, closeReply) (List.mem_cons_self _ _)
    simp only at hh hkh
    have hrest : ∀ x ∈ ds, x.1.dbh = some c ∧ x.1.dbURLHash = k :=
      fun x hx => hall x (List.mem_cons_of_mem _ hx)
    subst hkh
    cases ds with
    | nil =>
      have hle : p.count h.dbURLHash ≤ 1 := by rw [hcount]; simp
      obtain ⟨_, h2, h3, h4⟩ := Disconnect_last p h closeReply c hh hp hle
      refine ⟨h3, h4, [], Disconnect p h closeReply, rfl, rfl, ?_, h2⟩
      intro o ho
      simp at ho
    | cons y ds =>
      have hgt : 1 < p.count h.dbURLHash := by rw [hcount]; simp
      have hh' : h.dbh ≠ none := by simp [hh]
      have hstep := Disconnect_of_shared p h closeReply hh' hp hgt
      have hp' : (Disconnect p h closeReply).pool.conn h.dbURLHash ≠ none := by
        rw [hstep]; exact hp
      have hc' : (Disconnect p h closeReply).pool.count h.dbURLHash = (y :: ds).length := by
        rw [hstep]
        simp only [Pool.count, lookup_put_same, Option.getD_some]
        have : ((GoMap.mk p.activeConnections).lookup h.dbURLHash).getD 0 =
            (y :: ds).length + 1 := hcount
        omega
      obtain ⟨i1, i2, pre, last, i3, i4, i5, i6⟩ := ih _ (by simp) hp' hc' hrest
      refine ⟨i1, i2, Disconnect p h closeReply :: pre, last, ?_, ?_, ?_, i6⟩
      · simp only [disconnectEach] at i3 ⊢
        rw [i3]
        rfl
      · simp only [List.length_cons] at i4 ⊢
        omega
      · intro o ho
        simp only [List.mem_cons] at ho
        rcases ho with rfl | ho
        · rw [hstep]
          exact ⟨rfl, rfl⟩
        · exact i5 o ho

end DbHandler

namespace DbHandler

/-- N successful `Connect` calls on an identity without an entry, N at most
65535: the identity is registered with the connection that `sql.Open` returned,
its use-count is N, every handle holds that connection and nothing was
closed. -/
theorem connectEach_fresh (md5hex : List Char → List Char) (dbURL : List Char) (p : Pool)
    (calls : List (DbHandler × Except GoError Conn × Option GoError))
    (hd : md5hex dbURL ∉ p.dbh.map Prod.fst)
    (ha : md5hex dbURL ∉ p.activeConnections.map Prod.fst)
    (hne : calls ≠ [])
    (hok : ∀ o ∈ (connectEach md5hex dbURL p calls).2, o.err = none) :
    ∃ c, calls.head?.map (fun x => x.2.1) = some (.ok c) ∧
      (connectEach md5hex dbURL p calls).1.conn (md5hex dbURL) = some c ∧
      (connectEach md5hex dbURL p calls).1.count (md5hex dbURL) = calls.length % 65536 ∧
      (connectEach md5hex dbURL p calls).2.length = calls.length ∧
      ∀ o ∈ (connectEach md5hex dbURL p calls).2,
        o.err = none ∧ o.self.dbh = some c ∧ o.self.dbURLHash = md5hex dbURL ∧
        closes o.trace = [] := by
  cases calls with
  | nil => exact absurd rfl hne
  | cons x rest =>
    obtain ⟨h, openReply, pingReply⟩ := x
    have hpings := pings_of_connectEach md5hex dbURL _ p hok
    have hp : pingReply = none := hpings (h, openReply, pingReply) (List.mem_cons_self _ _)
    subst hp
    have hrest : ∀ x ∈ rest, x.2.2 = none := fun x hx => hpings x (List.mem_cons_of_mem _ hx)
    have hconn := conn_of_not_mem p _ hd
    have hcnt := count_of_not_mem p _ ha
    have hfirst : (Connect md5hex p h dbURL openReply none).err = none :=
      hok _ (by simp [connectEach])
    obtain ⟨c, hc⟩ := (Connect_err_none md5hex p h dbURL openReply none hfirst).2 hconn
    subst hc
    have hstep := Connect_fresh md5hex p h dbURL c hconn
    have hc' : (Connect md5hex p h dbURL (.ok c) none).pool.conn (md5hex dbURL) = some c := by
      rw [hstep]; simp [Pool.conn, lookup_put_same]
    have hn' : (Connect md5hex p h dbURL (.ok c) none).pool.count (md5hex dbURL) = 1 := by
      rw [hstep]; simp [Pool.count, lookup_put_same] at hcnt ⊢; simp [hcnt]
    obtain ⟨i1, i2, i3, i4⟩ :=
      connectEach_registered md5hex dbURL c rest _ hc' (by rw [hn']; decide) hrest
    refine ⟨c, rfl, i1, ?_, ?_, ?_⟩
    · simp only [connectEach, List.length_cons]
      rw [i2, hn', Nat.add_comm]
    · simp only [connectEach, List.length_cons, i3]
    · intro o ho
      simp only [connectEach, List.mem_cons] at ho
      rcases ho with rfl | ho
      · rw [hstep]
        exact ⟨rfl, rfl, rfl, rfl⟩
      · exact i4 o ho

/-- A series of `Connect` calls on an identity without an entry, the first
answered by a successful `sql.Open` and every ping succeeding: every call
returns nil. -/
theorem connectEach_fresh_replies (md5hex : List Char → List Char) (dbURL : List Char)
    (p : Pool) (h : DbHandler) (c : Conn)
    (rest : List (DbHandler × Except GoError Conn × Option GoError))
    (hd : md5hex dbURL ∉ p.dbh.map Prod.fst) (hrest : ∀ x ∈ rest, x.2.2 = none) :
    ∀ o ∈ (connectEach md5hex dbURL p ((h, .ok c, none) :: rest)).2, o.err = none := by
  have hconn := conn_of_not_mem p _ hd
  have hstep := Connect_fresh md5hex p h dbURL c hconn
  have hc' : (Connect md5hex p h dbURL (.ok c) none).pool.conn (md5hex dbURL) = some c := by
    rw [hstep]; simp [Pool.conn, lookup_put_same]
  have hlt : (Connect md5hex p h dbURL (.ok c) none).pool.count (md5hex dbURL) < 65536 := by
    rw [hstep]
    simp only [Pool.count, lookup_put_same, Option.getD_some]
    exact Nat.mod_lt _ (by decide)
  obtain ⟨_, _, _, i4⟩ := connectEach_registered md5hex dbURL c rest _ hc' hlt hrest
  intro o ho
  simp only [connectEach, List.mem_cons] at ho
  rcases ho with rfl | ho
  · rw [hstep]
  · exact (i4 o ho).1

/-- The `Disconnect` calls on a registered identity whose use-count is 0: the
first call closes the connection and removes the identity, every later call
fails and closes nothing. -/
theorem disconnectEach_wrapped (k : List Char) (c : Conn) (p : Pool)
    (d : DbHandler × Option GoError) (rest : List (DbHandler × Option GoError))
    (hp : p.conn k ≠ none) (hcount : p.count k = 0)
    (hd : d.1.dbh = some c ∧ d.1.dbURLHash = k) (hrest : ∀ x ∈ rest, x.1.dbURLHash = k) :
    ∃ (first : Outcome) (outs : List Outcome),
      (disconnectEach p (d :: rest)).2 = first :: outs ∧
      closes first.trace = [.close c] ∧ outs.length = rest.length ∧
      ∀ o ∈ outs, closes o.trace = [] ∧ o.err ≠ none := by
  obtain ⟨h, closeReply⟩ := d
  obtain ⟨hh, hk⟩ := hd
  simp only at hh hk
  subst hk
  obtain ⟨_, h2, h3, _⟩ :=
    Disconnect_last p h closeReply c hh hp (by rw [hcount]; exact Nat.zero_le _)
  have hp' := conn_of_not_mem _ _ h3
  obtain ⟨_, i2, i3⟩ := disconnectEach_unregistered h.dbURLHash rest _ hp' hrest
  exact ⟨_, _, rfl, h2, i2, i3⟩

theorem flatMap_closes_eq_nil (outs : List Outcome)
    (h : ∀ o ∈ outs, closes o.trace = []) :
    outs.flatMap (fun o => closes o.trace) = [] := by
  induction outs with
  | nil => rfl
  | cons o outs ih =>
    rw [List.flatMap_cons, h o (List.mem_cons_self _ _),
      ih (fun o ho => h o (List.mem_cons_of_mem _ ho))]
    rfl

theorem manyCalls_eq :
    Example.manyCalls = (New, .ok 7, none) :: List.replicate 65535 (New, .ok 7, none) :=
  List.replicate_succ _ 65535

theorem manyCalls_length : Example.manyCalls.length = 65536 :=
  List.length_replicate _ _

/-- C10: N `Connect` calls by N handles on one URL, all returning nil, from a
package state without an entry for the URL's identity, followed by one
`Disconnect` on each of the handles, in any order.  With N = 65536 the `uint16` use-count has
wrapped to 0: the first `Disconnect` closes the connection and every later one,
the last included, fails with "connection closed" and closes nothing.  For
1 ≤ N ≤ 65535 the series leaves neither map with an entry for the identity,
and `Close` is called exactly once, on the connection that `sql.Open` returned,
by the last `Disconnect`; the earlier ones return nil. -/
theorem Connect_Disconnect_series :
    ((∀ o ∈ (connectEach id "db".toList Pool.init Example.manyCalls).2, o.err = none) ∧
      (connectEach id "db".toList Pool.init Example.manyCalls).1.count "db".toList = 0 ∧
      ∃ (first : Outcome) (rest : List Outcome),
        (disconnectEach (connectEach id "db".toList Pool.init Example.manyCalls).1
          ((connectEach id "db".toList Pool.init Example.manyCalls).2.map
            (fun o => (o.self, none)))).2 = first :: rest ∧
        closes first.trace = [.close 7] ∧ rest.length = 65535 ∧
        ∀ o ∈ rest, closes o.trace = [] ∧ o.err ≠ none) ∧
    (∀ (md5hex : List Char → List Char) (dbURL : List Char) (p : Pool)
      (calls : List (DbHandler × Except GoError Conn × Option GoError))
      (ds : List (DbHandler × Option GoError)),
      md5hex dbURL ∉ p.dbh.map Prod.fst →
      md5hex dbURL ∉ p.activeConnections.map Prod.fst →
      1 ≤ calls.length → calls.length ≤ 65535 →
      (∀ o ∈ (connectEach md5hex dbURL p calls).2, o.err = none) →
      (ds.map Prod.fst).Perm ((connectEach md5hex dbURL p calls).2.map (fun o => o.self)) →
      (∀ o ∈ (connectEach md5hex dbURL p calls).2, closes o.trace = []) ∧
      md5hex dbURL ∉
        (disconnectEach (connectEach md5hex dbURL p calls).1 ds).1.dbh.map Prod.fst ∧
      md5hex dbURL ∉
        (disconnectEach (connectEach md5hex dbURL p calls).1 ds).1.activeConnections.map
          Prod.fst ∧
      ∃ (c : Conn) (pre : List Outcome) (last : Outcome),
        calls.head?.map (fun x => x.2.1) = some (.ok c) ∧
        (disconnectEach (connectEach md5hex dbURL p calls).1 ds).2 = pre ++ [last] ∧
        pre.length + 1 = calls.length ∧
        (∀ o ∈ pre, o.err = none ∧ closes o.trace = []) ∧
        closes last.trace = [.close c] ∧
        (pre ++ [last]).flatMap (fun o => closes o.trace) = [.close c]) := by
  constructor
  · have hd : id "db".toList ∉ Pool.init.dbh.map Prod.fst := by simp [Pool.init]
    have ha : id "db".toList ∉ Pool.init.activeConnections.map Prod.fst := by
      simp [Pool.init]
    have hrest : ∀ x ∈ List.replicate 65535 ((New, .ok 7, none) :
        DbHandler × Except GoError Conn × Option GoError), x.2.2 = none := by
      intro x hx
      rw [List.eq_of_mem_replicate hx]
    have hok : ∀ o ∈ (connectEach id "db".toList Pool.init Example.manyCalls).2,
        o.err = none := by
      rw [manyCalls_eq]
      exact connectEach_fresh_replies id "db".toList Pool.init New 7 _ hd hrest
    have hne : Example.manyCalls ≠ [] := by
      rw [manyCalls_eq]; exact List.cons_ne_nil _ _
    obtain ⟨c, f1, f2, f3, f4, f5⟩ :=
      connectEach_fresh id "db".toList Pool.init Example.manyCalls hd ha hne hok
    have hc7 : c = 7 := by
      rw [manyCalls_eq] at f1
      simp only [List.head?_cons, Option.map_some', Option.some.injEq,
        Except.ok.injEq] at f1
      exact f1.symm
    subst hc7
    rw [manyCalls_length] at f3 f4
    have hcount0 : (connectEach id "db".toList Pool.init Example.manyCalls).1.count
        "db".toList = 0 := f3
    refine ⟨hok, hcount0, ?_⟩
    generalize (connectEach id "db".toList Pool.init Example.manyCalls).2 = outs at f4 f5
    generalize (connectEach id "db".toList Pool.init Example.manyCalls).1 = p1
      at f2 hcount0
    cases outs with
    | nil => simp at f4
    | cons o0 outs =>
      have h0 := f5 o0 (List.mem_cons_self _ _)
      obtain ⟨first, rest, g1, g2, g3, g4⟩ :=
        disconnectEach_wrapped (id "db".toList) 7 p1 (o0.self, none)
          (outs.map (fun o => (o.self, none)))
          (by rw [f2]; exact Option.some_ne_none _) hcount0
          ⟨h0.2.1, h0.2.2.1⟩
          (by
            intro x hx
            simp only [List.mem_map] at hx
            obtain ⟨o, ho, rfl⟩ := hx
            exact (f5 o (List.mem_cons_of_mem _ ho)).2.2.1)
      refine ⟨first, rest, g1, g2, ?_, g4⟩
      rw [g3, List.length_map]
      simp only [List.length_cons] at f4
      omega
  · intro md5hex dbURL p calls ds hd ha h1 h2 hok hds
    have hne : calls ≠ [] := by
      intro h
      rw [h] at h1
      simp at h1
    obtain ⟨c, f1, f2, f3, f4, f5⟩ := connectEach_fresh md5hex dbURL p calls hd ha hne hok
    have hmod : calls.length % 65536 = calls.length := Nat.mod_eq_of_lt (by omega)
    rw [hmod] at f3
    have hlen : ds.length = calls.length := by
      have := List.Perm.length_eq hds
      simpa [f4] using this
    have hdsne : ds ≠ [] := by
      intro h
      rw [h] at hlen
      simp at hlen
      omega
    have hall : ∀ x ∈ ds, x.1.dbh = some c ∧ x.1.dbURLHash = md5hex dbURL := by
      intro x hx
      have hx' : x.1 ∈ ds.map Prod.fst := List.mem_map_of_mem Prod.fst hx
      rw [List.Perm.mem_iff hds, List.mem_map] at hx'
      obtain ⟨o, ho, hox⟩ := hx'
      rw [← hox]
      exact ⟨(f5 o ho).2.1, (f5 o ho).2.2.1⟩
    obtain ⟨g1, g2, pre, last, g3, g4, g5, g6⟩ :=
      disconnectEach_counted (md5hex dbURL) c ds _ hdsne
        (by rw [f2]; exact Option.some_ne_none _) (by rw [f3, hlen]) hall
    refine ⟨fun o ho => (f5 o ho).2.2.2, g1, g2, c, pre, last, f1, g3, ?_, g5, g6, ?_⟩
    · rw [g4, hlen]
    · rw [List.flatMap_append, flatMap_closes_eq_nil pre (fun o ho => (g5 o ho).2)]
      simp [g6]

/-- Witness for C10: two handles connected to one URL and disconnected, the
second `Close` failing. -/
theorem Connect_Disconnect_series_witness :
    ∃ (pre : List Outcome) (last : Outcome),
      (disconnectEach (connectEach id "db".toList Pool.init Example.twoCalls).1
        [({ New with dbh := some 7, dbURLHash := "db".toList }, none),
         ({ New with dbh := some 7, dbURLHash := "db".toList, Debug := true },
            some "bad".toList)]).2 = pre ++ [last] ∧
      pre.length + 1 = Example.twoCalls.length ∧
      closes last.trace = [.close 7] := by
  obtain ⟨_, _, _, c, pre, last, h1, h2, h3, _, h4, _⟩ :=
    Connect_Disconnect_series.2 id "db".toList Pool.init Example.twoCalls
      [({ New with dbh := some 7, dbURLHash := "db".toList }, none),
       ({ New with dbh := some 7, dbURLHash := "db".toList, Debug := true },
          some "bad".toList)]
      (by decide) (by decide) (by decide) (by decide) (by decide) (by decide)
  have hc : c = 7 := by
    simp only [Example.twoCalls, List.head?_cons, Option.map_some', Option.some.injEq,
      Except.ok.injEq] at h1
    exact h1.symm
  subst hc
  exact ⟨pre, last, h2, h3, h4⟩

end DbHandler

namespace DbHandler

/-! ## The last `Disconnect` -/

/-- The calls made by a `Disconnect` that releases the last reference. -/
theorem Disconnect_last_trace (p : Pool) (h : DbHandler) (closeReply : Option GoError)
    (c : Conn) (hh : h.dbh = some c) (hp : p.conn h.dbURLHash ≠ none)
    (hcount : p.count h.dbURLHash ≤ 1) :
    (Disconnect p h closeReply).trace =
      Event.close c ::
        (match closeReply with
          | some _ => [Event.report Severity.warning]
          | none => []) := by
  have hh' : h.dbh ≠ none := by simp [hh]
  unfold Disconnect
  simp only [checkConn_pass p h hh' hp, hh]
  by_cases h0 : 0 < p.count h.dbURLHash
  · have hc : ¬ 0 < Pool.count
        { p with
          activeConnections :=
            Pool.put p.activeConnections h.dbURLHash (p.count h.dbURLHash - 1) }
        h.dbURLHash := by
      have h1' : ((GoMap.mk p.activeConnections).lookup h.dbURLHash).getD 0 ≤ 1 := hcount
      simp only [Pool.count, lookup_put_same, Option.getD_some]
      omega
    simp only [if_pos h0, if_neg hc]
    cases closeReply <;> rfl
  · simp only [if_neg h0]
    cases closeReply <;> rfl

/-- C11: when the handle passes the registration check and the use-count of
its identity is at most 1, `Disconnect` removes the identity from the registry
and from the use-count map and calls `Close` once, on the handle's connection;
it returns what `Close` returned, so a failing `Close` gives that error as the
result while the two entries are removed all the same. -/
theorem Disconnect_last_removes_entry (p : Pool) (h : DbHandler)
    (closeReply : Option GoError) (hcheck : (checkConn p h).1 = none)
    (hcount : p.count h.dbURLHash ≤ 1) :
    h.dbURLHash ∉ (Disconnect p h closeReply).pool.dbh.map Prod.fst ∧
    h.dbURLHash ∉ (Disconnect p h closeReply).pool.activeConnections.map Prod.fst ∧
    (Disconnect p h closeReply).pool.conn h.dbURLHash = none ∧
    (Disconnect p h closeReply).pool.count h.dbURLHash = 0 ∧
    (Disconnect p h closeReply).err = closeReply ∧
    (∀ e, closeReply = some e →
      (Disconnect p h closeReply).err = some e ∧
      Event.report Severity.warning ∈ (Disconnect p h closeReply).trace) ∧
    ∃ c, h.dbh = some c ∧ closes (Disconnect p h closeReply).trace = [.close c] := by
  obtain ⟨hh, hp⟩ := (checkConn_none_iff p h).1 hcheck
  cases hc : h.dbh with
  | none => exact absurd hc hh
  | some c =>
    obtain ⟨h1, h2, h3, h4⟩ := Disconnect_last p h closeReply c hc hp hcount
    refine ⟨h3, h4, conn_of_not_mem _ _ h3, count_of_not_mem _ _ h4, h1, ?_, c, rfl, h2⟩
    intro e he
    subst he
    refine ⟨h1, ?_⟩
    rw [Disconnect_last_trace p h (some e) c hc hp hcount]
    simp

/-- Witness for C11: the only user of an identity disconnects and `Close`
fails. -/
theorem Disconnect_last_removes_entry_witness :
    "k".toList ∉ (Disconnect ⟨[("k".toList, some 4)], [("k".toList, 1)]⟩
        { New with dbh := some 4, dbURLHash := "k".toList }
        (some "broken pipe".toList)).pool.dbh.map Prod.fst ∧
    (Disconnect ⟨[("k".toList, some 4)], [("k".toList, 1)]⟩
        { New with dbh := some 4, dbURLHash := "k".toList }
        (some "broken pipe".toList)).err = some "broken pipe".toList := by
  obtain ⟨h1, _, _, _, h2, _⟩ :=
    Disconnect_last_removes_entry ⟨[("k".toList, some 4)], [("k".toList, 1)]⟩
      { New with dbh := some 4, dbURLHash := "k".toList } (some "broken pipe".toList)
      (by decide) (by decide)
  exact ⟨h1, h2⟩

/-! ## Termination of `PreparePlaceholders` -/

theorem marker_not_mem_numberMarkers (q : List Char) :
    ∀ k, '?' ∉ numberMarkers k q := by
  induction q with
  | nil => intro k; simp [numberMarkers]
  | cons c q ih =>
    intro k
    by_cases hc : c = '?'
    · simp only [numberMarkers, hc, if_true, List.mem_append, not_or]
      exact ⟨marker_not_mem_sprintfDollar k, ih _⟩
    · simp only [numberMarkers, hc, if_false, List.mem_cons, not_or]
      exact ⟨fun h => hc h.symm, ih _⟩

/-- With no more fuel than markers left the loop does not reach its `break`. -/
theorem placeholdersLoop_out_of_fuel (fuel : Nat) :
    ∀ (i : Nat) (done rest : List Char), '?' ∉ done → fuel ≤ countMarkers rest →
      placeholdersLoop fuel i (done ++ rest) = none := by
  induction fuel with
  | zero => intro i done rest _ _; rfl
  | succ fuel ih =>
    intro i done rest hdone hfuel
    have hmem : '?' ∈ rest := by
      apply List.count_pos_iff.1
      exact Nat.lt_of_lt_of_le (Nat.succ_pos _) hfuel
    obtain ⟨pre, rest', hsplit, hpre⟩ := List.eq_append_cons_of_mem hmem
    subst hsplit
    have hnew : stringsReplace1 (done ++ (pre ++ '?' :: rest')) ['?'] (sprintfDollar i)
        = (done ++ pre ++ sprintfDollar i) ++ rest' := by
      rw [stringsReplace1_skip _ _ _ hdone, stringsReplace1_skip _ _ _ hpre,
        stringsReplace1_marker_cons]
      simp
    have hne : (done ++ pre ++ sprintfDollar i) ++ rest' ≠ done ++ (pre ++ '?' :: rest') := by
      intro h
      have h2 : sprintfDollar i ++ rest' = '?' :: rest' := by
        simpa [List.append_assoc] using h
      simp [sprintfDollar] at h2
    have hdone' : '?' ∉ done ++ pre ++ sprintfDollar i := by
      simp only [List.mem_append, not_or]
      exact ⟨⟨hdone, hpre⟩, marker_not_mem_sprintfDollar i⟩
    rw [countMarkers_split _ _ hpre] at hfuel
    have hrec := ih (i + 1) _ rest' hdone' (Nat.le_of_succ_le_succ hfuel)
    simp only [placeholdersLoop, hnew, hne, if_false]
    exact hrec

/-- C17: `PreparePlaceholders` terminates on every text.  On a text with n
markers the loop, with fuel for more than n iterations, stops in iteration
n + 1 (the counter `i` is n + 1 at the `break`), and with fuel for n iterations
or fewer it has not stopped, so it runs exactly n + 1 iterations; no replacement
text `$i` holds a marker; the result holds no marker; and translating the
result again gives the result. -/
theorem PreparePlaceholders_terminates :
    (∀ q : List Char, ∃ r, PreparePlaceholders (countMarkers q + 1) q = some r) ∧
    (∀ (q : List Char) (fuel : Nat), countMarkers q < fuel →
      placeholdersLoop fuel 1 q = some (numberMarkers 1 q, countMarkers q + 1)) ∧
    (∀ (q : List Char) (fuel : Nat), fuel ≤ countMarkers q →
      placeholdersLoop fuel 1 q = none) ∧
    (∀ (q : List Char) (fuel : Nat), 1 ≤ countMarkers q → fuel ≤ countMarkers q →
      PreparePlaceholders fuel q = none) ∧
    (∀ i : Nat, '?' ∉ sprintfDollar i) ∧
    (∀ (q r : List Char) (fuel : Nat), PreparePlaceholders fuel q = some r → '?' ∉ r) ∧
    (∀ (q r : List Char) (fuel fuel' : Nat), PreparePlaceholders fuel q = some r →
      PreparePlaceholders fuel' r = some r) := by
  have hnone : ∀ (q : List Char) (fuel : Nat), fuel ≤ countMarkers q →
      placeholdersLoop fuel 1 q = none := by
    intro q fuel hf
    have := placeholdersLoop_out_of_fuel fuel 1 [] q (by simp) hf
    simpa using this
  have hsome : ∀ (q : List Char) (fuel : Nat), countMarkers q < fuel →
      placeholdersLoop fuel 1 q = some (numberMarkers 1 q, countMarkers q + 1) := by
    intro q fuel hf
    have := placeholdersLoop_spec fuel 1 [] q (by simp) hf
    simpa [Nat.add_comm] using this
  have hres : ∀ (q r : List Char) (fuel : Nat), PreparePlaceholders fuel q = some r →
      r = numberMarkers 1 q := by
    intro q r fuel h
    by_cases hf : countMarkers q < fuel
    · have h1 : PreparePlaceholders fuel q = some (numberMarkers 1 q) := by
        unfold PreparePlaceholders
        split
        · rename_i hc
          have hq : '?' ∉ q := by
            intro hm
            rw [(stringsContains_marker q).2 hm] at hc
            exact Bool.noConfusion hc
          rw [numberMarkers_of_not_mem _ _ hq]
        · rw [hsome q fuel hf]; rfl
      rw [h1] at h
      exact (Option.some.inj h).symm
    · unfold PreparePlaceholders at h
      split at h
      · rename_i hc
        have hq : '?' ∉ q := by
          intro hm
          rw [(stringsContains_marker q).2 hm] at hc
          exact Bool.noConfusion hc
        rw [numberMarkers_of_not_mem _ _ hq]
        exact (Option.some.inj h).symm
      · rw [hnone q fuel (Nat.le_of_not_lt hf)] at h
        simp at h
  have hidem : ∀ (r : List Char) (fuel : Nat), '?' ∉ r →
      PreparePlaceholders fuel r = some r := by
    intro r fuel hr
    have hc : stringsContains r ['?'] = false := by
      cases h : stringsContains r ['?'] with
      | false => rfl
      | true => exact absurd ((stringsContains_marker r).1 h) hr
    simp [PreparePlaceholders, hc]
  refine ⟨?_, hsome, hnone, ?_, marker_not_mem_sprintfDollar, ?_, ?_⟩
  · intro q
    unfold PreparePlaceholders
    split
    · exact ⟨q, rfl⟩
    · rw [hsome q _ (Nat.lt_succ_self _)]
      exact ⟨_, rfl⟩
  · intro q fuel h1 hf
    have hmem : '?' ∈ q := List.count_pos_iff.1 h1
    have hc := (stringsContains_marker q).2 hmem
    simp [PreparePlaceholders, hc, hnone q fuel hf]
  · intro q r fuel h
    rw [hres q r fuel h]
    exact marker_not_mem_numberMarkers q 1
  · intro q r fuel fuel' h
    apply hidem
    rw [hres q r fuel h]
    exact marker_not_mem_numberMarkers q 1

/-- Witness for C17: the text `"a = ? OR b = ?"` needs three iterations. -/
theorem PreparePlaceholders_terminates_witness :
    placeholdersLoop 3 1 "a = ? OR b = ?".toList =
      some (numberMarkers 1 "a = ? OR b = ?".toList, countMarkers "a = ? OR b = ?".toList + 1) ∧
    placeholdersLoop 2 1 "a = ? OR b = ?".toList = none :=
  ⟨PreparePlaceholders_terminates.2.1 _ 3 (by decide),
    PreparePlaceholders_terminates.2.2.1 _ 2 (by decide)⟩

end DbHandler

namespace DbHandler

/-! ## The use-count -/

/-- A `Connect` that returns nil stores the successor of the use-count in the
width of a `uint16`; it touches no other use-count. -/
theorem Connect_count_of_success (md5hex : List Char → List Char) (p : Pool) (h : DbHandler)
    (dbURL : List Char) (openReply : Except GoError Conn) (pingReply : Option GoError)
    (herr : (Connect md5hex p h dbURL openReply pingReply).err = none) :
    (Connect md5hex p h dbURL openReply pingReply).pool.count (md5hex dbURL) =
      (p.count (md5hex dbURL) + 1) % 65536 ∧
    (Connect md5hex p h dbURL openReply pingReply).pool.conn (md5hex dbURL) ≠ none := by
  obtain ⟨hp, ho⟩ := Connect_err_none md5hex p h dbURL openReply pingReply herr
  subst hp
  cases hc : p.conn (md5hex dbURL) with
  | some c =>
    rw [Connect_registered md5hex p h dbURL openReply c hc]
    refine ⟨by simp [Pool.count, lookup_put_same], ?_⟩
    show p.conn (md5hex dbURL) ≠ none
    rw [hc]; exact Option.some_ne_none _
  | none =>
    obtain ⟨c, rfl⟩ := ho hc
    rw [Connect_fresh md5hex p h dbURL c hc]
    refine ⟨by simp [Pool.count, lookup_put_same], ?_⟩
    simp [Pool.conn, lookup_put_same]

/-- A `Connect` that gets as far as the ping and fails there: the error of the
ping is returned, no use-count changes and the identity is registered. -/
theorem Connect_ping_failure (md5hex : List Char → List Char) (p : Pool) (h : DbHandler)
    (dbURL : List Char) (openReply : Except GoError Conn) (e : GoError)
    (hreach : p.conn (md5hex dbURL) ≠ none ∨ ∃ c, openReply = .ok c) :
    (Connect md5hex p h dbURL openReply (some e)).err = some e ∧
    (Connect md5hex p h dbURL openReply (some e)).pool.activeConnections =
      p.activeConnections ∧
    (Connect md5hex p h dbURL openReply (some e)).pool.conn (md5hex dbURL) ≠ none ∧
    closes (Connect md5hex p h dbURL openReply (some e)).trace = [] := by
  cases hc : p.conn (md5hex dbURL) with
  | some c =>
    have heq : Connect md5hex p h dbURL openReply (some e) =
        ⟨p, { h with dbURLHash := md5hex dbURL, dbh := some c }, some e,
          [.ping c, .report .error]⟩ := by
      simp [Connect, hc, connectPing]
    rw [heq]
    refine ⟨rfl, rfl, ?_, rfl⟩
    show p.conn (md5hex dbURL) ≠ none
    rw [hc]; exact Option.some_ne_none _
  | none =>
    rcases hreach with hne | ⟨c, rfl⟩
    · exact absurd hc hne
    · have heq : Connect md5hex p h dbURL (.ok c) (some e) =
          ⟨{ p with dbh := Pool.put p.dbh (md5hex dbURL) (some c) },
            { h with dbURLHash := md5hex dbURL, dbh := some c }, some e,
            [.sqlOpen dbURL, .ping c, .report .error]⟩ := by
        simp [Connect, hc, connectPing]
      rw [heq]
      refine ⟨rfl, rfl, ?_, rfl⟩
      simp [Pool.conn, lookup_put_same]

/-- The 65536 successful `Connect` calls of the example leave the use-count
at 0. -/
theorem manyCalls_count :
    (∀ o ∈ (connectEach id "db".toList Pool.init Example.manyCalls).2, o.err = none) ∧
    (connectEach id "db".toList Pool.init Example.manyCalls).2.length = 65536 ∧
    (connectEach id "db".toList Pool.init Example.manyCalls).1.count "db".toList = 0 := by
  have hd : id "db".toList ∉ Pool.init.dbh.map Prod.fst := by simp [Pool.init]
  have ha : id "db".toList ∉ Pool.init.activeConnections.map Prod.fst := by
    simp [Pool.init]
  have hrest : ∀ x ∈ List.replicate 65535 ((New, .ok 7, none) :
      DbHandler × Except GoError Conn × Option GoError), x.2.2 = none := by
    intro x hx
    rw [List.eq_of_mem_replicate hx]
  have hok : ∀ o ∈ (connectEach id "db".toList Pool.init Example.manyCalls).2,
      o.err = none := by
    rw [manyCalls_eq]
    exact connectEach_fresh_replies id "db".toList Pool.init New 7 _ hd hrest
  have hne : Example.manyCalls ≠ [] := by
    rw [manyCalls_eq]; exact List.cons_ne_nil _ _
  obtain ⟨c, _, _, f3, f4, _⟩ :=
    connectEach_fresh id "db".toList Pool.init Example.manyCalls hd ha hne hok
  rw [manyCalls_length] at f3 f4
  exact ⟨hok, f4, f3⟩

/-- C15: a `Connect` that returns nil leaves the use-count of the identity at
its previous value plus one as long as that value is below 65535; at 65535 the
`uint16` wraps and the use-count becomes 0.  So k successful `Connect` calls
from a state without an entry leave the use-count at k for 1 ≤ k ≤ 65535, and
at 0 for k = 65536.  A `Connect` that fails at the ping returns the error of
the ping, changes no use-count and leaves the identity registered. -/
theorem Connect_use_count :
    ((Connect id ⟨[("db".toList, some 7)], [("db".toList, 65535)]⟩ New "db".toList
        (.ok 7) none).err = none ∧
      (Connect id ⟨[("db".toList, some 7)], [("db".toList, 65535)]⟩ New "db".toList
        (.ok 7) none).pool.count "db".toList = 0) ∧
    ((∀ o ∈ (connectEach id "db".toList Pool.init Example.manyCalls).2, o.err = none) ∧
      (connectEach id "db".toList Pool.init Example.manyCalls).2.length = 65536 ∧
      (connectEach id "db".toList Pool.init Example.manyCalls).1.count "db".toList = 0) ∧
    (∀ (md5hex : List Char → List Char) (p : Pool) (h : DbHandler) (dbURL : List Char)
      (openReply : Except GoError Conn) (pingReply : Option GoError),
      (Connect md5hex p h dbURL openReply pingReply).err = none →
      (Connect md5hex p h dbURL openReply pingReply).pool.count (md5hex dbURL) =
        (p.count (md5hex dbURL) + 1) % 65536 ∧
      (p.count (md5hex dbURL) < 65535 →
        (Connect md5hex p h dbURL openReply pingReply).pool.count (md5hex dbURL) =
          p.count (md5hex dbURL) + 1)) ∧
    (∀ (md5hex : List Char → List Char) (dbURL : List Char) (p : Pool)
      (calls : List (DbHandler × Except GoError Conn × Option GoError)),
      md5hex dbURL ∉ p.dbh.map Prod.fst →
      md5hex dbURL ∉ p.activeConnections.map Prod.fst →
      1 ≤ calls.length → calls.length ≤ 65535 →
      (∀ o ∈ (connectEach md5hex dbURL p calls).2, o.err = none) →
      (connectEach md5hex dbURL p calls).1.count (md5hex dbURL) = calls.length) ∧
    (∀ (md5hex : List Char → List Char) (p : Pool) (h : DbHandler) (dbURL : List Char)
      (openReply : Except GoError Conn) (e : GoError),
      (p.conn (md5hex dbURL) ≠ none ∨ ∃ c, openReply = .ok c) →
      (Connect md5hex p h dbURL openReply (some e)).err = some e ∧
      (Connect md5hex p h dbURL openReply (some e)).pool.activeConnections =
        p.activeConnections ∧
      (Connect md5hex p h dbURL openReply (some e)).pool.count (md5hex dbURL) =
        p.count (md5hex dbURL) ∧
      (Connect md5hex p h dbURL openReply (some e)).pool.conn (md5hex dbURL) ≠ none) := by
  refine ⟨⟨rfl, rfl⟩, manyCalls_count, ?_, ?_, ?_⟩
  · intro md5hex p h dbURL openReply pingReply herr
    obtain ⟨h1, _⟩ := Connect_count_of_success md5hex p h dbURL openReply pingReply herr
    refine ⟨h1, ?_⟩
    intro hlt
    rw [h1]
    exact Nat.mod_eq_of_lt (by omega)
  · intro md5hex dbURL p calls hd ha h1 h2 hok
    have hne : calls ≠ [] := by
      intro h
      rw [h] at h1
      simp at h1
    obtain ⟨c, _, _, f3, _, _⟩ := connectEach_fresh md5hex dbURL p calls hd ha hne hok
    rw [f3]
    exact Nat.mod_eq_of_lt (by omega)
  · intro md5hex p h dbURL openReply e hreach
    obtain ⟨h1, h2, h3, _⟩ := Connect_ping_failure md5hex p h dbURL openReply e hreach
    refine ⟨h1, h2, ?_, h3⟩
    simp only [Pool.count, h2]

/-- Witness for C15: a third handle connects to a registered identity. -/
theorem Connect_use_count_witness :
    (Connect id ⟨[("db".toList, some 7)], [("db".toList, 2)]⟩ New "db".toList
        (.error "unused".toList) none).pool.count (id "db".toList) =
      Pool.count ⟨[("db".toList, some 7)], [("db".toList, 2)]⟩ (id "db".toList) + 1 :=
  (Connect_use_count.2.2.1 id ⟨[("db".toList, some 7)], [("db".toList, 2)]⟩ New "db".toList
    (.error "unused".toList) none (by decide)).2 (by decide)

/-! ## Handles whose `Connect` failed -/

/-- C18: a handle whose `Connect` failed at the ping has taken the connection
and the identity before the ping, so its `Disconnect` passes the registration
check: after one successful `Connect` by a first handle and a `Connect` by a
second handle that fails at the ping, the `Disconnect` of the second handle
returns nil, takes the use-count from 1 to 0, removes the identity from both
maps and closes the connection the first handle holds; the use-count then is 0
with one successful `Connect` unmatched.  A second `Disconnect` by the same
handle, and a `Disconnect` by an unconnected handle whose `Connect` failed at
`sql.Open`, fail the check, leave the package state as it is and close
nothing. -/
theorem Disconnect_after_failed_Connect :
    ((Connect id Pool.init New "db".toList (.ok 7) none).err = none ∧
      (Connect id (Connect id Pool.init New "db".toList (.ok 7) none).pool New "db".toList
        (.ok 8) (some "timeout".toList)).err = some "timeout".toList ∧
      (Connect id (Connect id Pool.init New "db".toList (.ok 7) none).pool New "db".toList
        (.ok 8) (some "timeout".toList)).pool.count "db".toList = 1 ∧
      (Disconnect
        (Connect id (Connect id Pool.init New "db".toList (.ok 7) none).pool New
          "db".toList (.ok 8) (some "timeout".toList)).pool
        (Connect id (Connect id Pool.init New "db".toList (.ok 7) none).pool New
          "db".toList (.ok 8) (some "timeout".toList)).self none) =
        ⟨Pool.init, { New with dbURLHash := "db".toList }, none, [.close 7]⟩ ∧
      (Connect id Pool.init New "db".toList (.ok 7) none).self.dbh = some 7) ∧
    (∀ (p p' : Pool) (h : DbHandler) (closeReply closeReply' : Option GoError),
      (Disconnect p' (Disconnect p h closeReply).self closeReply').pool = p' ∧
      (Disconnect p' (Disconnect p h closeReply).self closeReply').err ≠ none ∧
      closes (Disconnect p' (Disconnect p h closeReply).self closeReply').trace = []) ∧
    (∀ (md5hex : List Char → List Char) (p p' : Pool) (h : DbHandler) (dbURL : List Char)
      (e : GoError) (pingReply closeReply : Option GoError),
      p.conn (md5hex dbURL) = none → h.dbh = none →
      (Connect md5hex p h dbURL (.error e) pingReply).err = some e ∧
      (Disconnect p' (Connect md5hex p h dbURL (.error e) pingReply).self closeReply).pool
        = p' ∧
      (Disconnect p' (Connect md5hex p h dbURL (.error e) pingReply).self closeReply).err
        ≠ none ∧
      closes
        (Disconnect p' (Connect md5hex p h dbURL (.error e) pingReply).self closeReply).trace
        = []) := by
  have hnil : ∀ (p' : Pool) (h : DbHandler) (closeReply : Option GoError), h.dbh = none →
      (Disconnect p' h closeReply).pool = p' ∧ (Disconnect p' h closeReply).err ≠ none ∧
      closes (Disconnect p' h closeReply).trace = [] := by
    intro p' h closeReply hh
    unfold Disconnect checkConn
    rw [if_pos (Or.inl hh)]
    exact ⟨rfl, by simp, rfl⟩
  have hself : ∀ (p : Pool) (h : DbHandler) (closeReply : Option GoError),
      (Disconnect p h closeReply).self.dbh = none := by
    intro p h closeReply
    unfold Disconnect
    simp only []
    repeat' split
    all_goals rfl
  refine ⟨⟨rfl, rfl, rfl, rfl, rfl⟩, ?_, ?_⟩
  · intro p p' h closeReply closeReply'
    exact hnil p' _ closeReply' (hself p h closeReply)
  · intro md5hex p p' h dbURL e pingReply closeReply hc hh
    have hconn : Connect md5hex p h dbURL (.error e) pingReply =
        ⟨{ p with dbh := Pool.put p.dbh (md5hex dbURL) none }, h, some e,
          [.sqlOpen dbURL]⟩ := by
      simp only [Connect, hc]
    rw [hconn]
    exact ⟨rfl, hnil p' h closeReply hh⟩

/-- Witness for C18: a new handle whose `Connect` fails at `sql.Open`. -/
theorem Disconnect_after_failed_Connect_witness :
    (Disconnect ⟨[("db".toList, some 7)], [("db".toList, 1)]⟩
      (Connect id Pool.init New "db".toList (.error "no driver".toList) none).self none).pool
      = ⟨[("db".toList, some 7)], [("db".toList, 1)]⟩ :=
  (Disconnect_after_failed_Connect.2.2 id Pool.init
    ⟨[("db".toList, some 7)], [("db".toList, 1)]⟩ New "db".toList "no driver".toList
    none none rfl rfl).2.1

end DbHandler

namespace DbObject

/-! ## The empty key -/

/-- The first loop of `insert` panics as soon as the entries hold an empty
key. -/
theorem insertWhereLoop_of_empty_key (h : DbObject) (es : List (List Char × Value)) :
    ∀ acc : InsertAcc, (∃ e ∈ es, e.1 = []) →
      insertWhereLoop h acc es = .error .indexOutOfRange := by
  induction es with
  | nil => intro acc hx; obtain ⟨e, he, _⟩ := hx; simp at he
  | cons x es ih =>
    intro acc hx
    obtain ⟨key, value⟩ := x
    cases key with
    | nil => rfl
    | cons c rest =>
      have hrest : ∃ e ∈ es, e.1 = [] := by
        obtain ⟨e, he, hk⟩ := hx
        simp only [List.mem_cons] at he
        rcases he with rfl | he
        · simp at hk
        · exact ⟨e, he, hk⟩
      cases hs : insertWhereStep h acc (c :: rest) value with
      | error f =>
        simp only [insertWhereStep] at hs
        split at hs
        · simp at hs
        · split at hs <;> simp at hs
      | ok acc' =>
        simp only [insertWhereLoop, hs]
        exact ih _ hrest

/-- C16: the WHERE-clause construction is not total.  `Load` on the condition
`{"": v}` panics with an index out of range at `key[0]`, and so do `Load`,
`update`, `Delete` and `insert` whenever the entries they range over hold the
empty key; the construction ends by returning exactly when no key is empty. -/
theorem where_construction_panics_on_empty_key :
    (∀ (h : DbObject) (v : Value) (reply : RowReply),
      Load h (GoMap.mk [([], v)]) [([], v)] reply = .error .indexOutOfRange) ∧
    (∀ (acc : Acc) (es : List (List Char × Value)),
      (whereLoop acc es = .error .indexOutOfRange ↔ ∃ e ∈ es, e.1 = []) ∧
      ((∃ acc', whereLoop acc es = .ok acc') ↔ ∀ e ∈ es, e.1 ≠ [])) ∧
    (∀ (h : DbObject) (whereParams : GoMap Value) (order : List (List Char × Value))
      (reply : RowReply), whereParams.len ≠ 0 → (∃ e ∈ order, e.1 = []) →
      Load h whereParams order reply = .error .indexOutOfRange) ∧
    (∀ (h : DbObject) (o : Orders) (execReply : Option GoError), (∃ e ∈ o.where_, e.1 = []) →
      update h o execReply = .error .indexOutOfRange) ∧
    (∀ (h : DbObject) (order : List (List Char × Value)) (execReply : Option GoError),
      h.loaded = true → (∃ e ∈ order, e.1 = []) →
      Delete h order execReply = .error .indexOutOfRange) ∧
    (∀ (h : DbObject) (o : Orders) (r : Replies), (∃ e ∈ o.where_, e.1 = []) →
      insert h o r = .error .indexOutOfRange) := by
  refine ⟨fun _ _ _ => rfl, ?_, ?_, ?_, ?_, ?_⟩
  · intro acc es
    constructor
    · constructor
      · intro herr
        by_contra hno
        have hall : ∀ e ∈ es, e.1 ≠ [] := by
          intro e he hk
          exact hno ⟨e, he, hk⟩
        rw [whereLoop_of_keys_ne_nil es acc hall] at herr
        simp at herr
      · exact whereLoop_of_empty_key es acc
    · constructor
      · rintro ⟨acc', hok⟩
        exact keys_ne_nil_of_whereLoop es acc acc' hok
      · intro hall
        exact ⟨_, whereLoop_of_keys_ne_nil es acc hall⟩
  · intro h whereParams order reply hlen hk
    unfold Load
    rw [if_neg hlen, whereLoop_of_empty_key order _ hk]
  · intro h o execReply hk
    unfold update
    simp only [whereLoop_of_empty_key o.where_ _ hk]
  · intro h order execReply hl hk
    unfold Delete
    rw [if_neg (by simp [hl]), whereLoop_of_empty_key order _ hk]
  · intro h o r hk
    unfold insert insertStatement
    simp only [insertWhereLoop_of_empty_key h o.where_ _ hk]

/-- Witness for C16: a condition whose second key is the empty string. -/
theorem where_construction_panics_on_empty_key_witness :
    Load (New "t".toList)
      (GoMap.mk [("id".toList, .int 3), ([], .str "x".toList)])
      [("id".toList, .int 3), ([], .str "x".toList)] (.ok []) = .error .indexOutOfRange :=
  where_construction_panics_on_empty_key.2.2.1 (New "t".toList)
    (GoMap.mk [("id".toList, .int 3), ([], .str "x".toList)])
    [("id".toList, .int 3), ([], .str "x".toList)] (.ok []) (by decide)
    ⟨([], .str "x".toList), by simp, rfl⟩

end DbObject

namespace DbObject

/-! ## The columns of an INSERT -/

theorem WF_make {α : Type} : (GoMap.make : GoMap α).WF := by
  simp [GoMap.WF, GoMap.make, GoMap.keys, GoMap.entries]

theorem WF_delete {α : Type} (m : GoMap α) (k : List Char) (hwf : m.WF) :
    (m.delete k).WF := by
  cases m with
  | nil => exact hwf
  | mk es =>
    simp only [GoMap.WF, GoMap.delete, GoMap.keys, GoMap.entries] at hwf ⊢
    exact List.Nodup.sublist (List.Sublist.map _ (List.filter_sublist _)) hwf

theorem WF_store {α : Type} (m m' : GoMap α) (k : List Char) (v : α) (hwf : m.WF)
    (hs : m.store k v = some m') : m'.WF := by
  cases m with
  | nil => simp [GoMap.store] at hs
  | mk es =>
    have hd := WF_delete (GoMap.mk es) k hwf
    have hk := (mem_keys_delete (GoMap.mk es) k k).not.2 (fun h => h.1 rfl)
    simp only [GoMap.store, Option.some.injEq] at hs
    subst hs
    simp only [GoMap.WF, GoMap.delete, GoMap.keys, GoMap.entries, List.map_cons,
      List.nodup_cons] at hd hk ⊢
    exact ⟨hk, hd⟩

theorem WFInv_of_maps {h h' : DbObject} (hinv : WFInv h)
    (hm : (h'.changed = h.changed ∧ h'.functions = h.functions ∧ h'.where_ = h.where_) ∨
      (h'.changed = GoMap.make ∧ h'.functions = GoMap.make ∧ h'.where_.WF)) :
    WFInv h' := by
  rcases hm with ⟨hc, hf, hw⟩ | ⟨hc, hf, hw⟩
  · unfold WFInv
    rw [hc, hf, hw]
    exact hinv
  · unfold WFInv
    rw [hc, hf]
    exact ⟨WF_make, WF_make, hw⟩

theorem WFInv_Load {h : DbObject} {whereParams : GoMap Value}
    {order : List (List Char × Value)} {reply : RowReply}
    {out : Outcome (Bool × Option GoError)} (hinv : WFInv h) (hwf : whereParams.WF)
    (hrange : GoMap.IsRange order whereParams)
    (hload : Load h whereParams order reply = .ok out) : WFInv out.self := by
  apply WFInv_of_maps hinv
  rcases Load_maps hrange hload with ⟨hc, hf, hw, _⟩ | ⟨hc, hf, hw, _⟩
  · exact Or.inl ⟨hc, hf, hw⟩
  · exact Or.inr ⟨hc, hf, by rw [hw]; exact hwf⟩

/-- Every reachable handle has well-formed maps. -/
theorem Reachable.wf {h : DbObject} (hr : Reachable h) : WFInv h := by
  induction hr with
  | new tableName => exact ⟨WF_make, WF_make, WF_make⟩
  | assignIdField name _ ih => exact ih
  | assignLoadAfterInsert b _ ih => exact ih
  | @set h h' fieldName fieldValue _ hset ih =>
    unfold Set at hset
    cases hf : h.fields.store fieldName (setText fieldValue) with
    | none => simp [hf] at hset
    | some fields =>
      cases hc : h.changed.store fieldName fieldValue with
      | none => simp [hf, hc] at hset
      | some changed =>
        simp only [hf, hc, Except.ok.injEq] at hset
        subst hset
        exact ⟨WF_store _ _ _ _ ih.1 hc, WF_delete _ _ ih.2.1, ih.2.2⟩
  | @setFunction h h' fieldName fieldFunction _ hset ih =>
    unfold SetFunction at hset
    cases hf : h.functions.store fieldName fieldFunction with
    | none => simp [hf] at hset
    | some functions =>
      simp only [hf, Except.ok.injEq] at hset
      subst hset
      exact ⟨WF_delete _ _ ih.1, WF_store _ _ _ _ ih.2.1 hf, ih.2.2⟩
  | load whereParams order reply _ hwf hrange hload ih => exact WFInv_Load ih hwf hrange hload
  | @save h out o r _ _ _ _ hs ih =>
    unfold Save at hs
    by_cases hl : h.loaded = true
    · rw [if_pos hl] at hs
      rw [update_self hs]; exact ih
    · rw [if_neg hl] at hs
      rcases insert_self hs with he | ⟨id, lo, hL, he⟩
      · rw [he]; exact ih
      · rw [he]
        refine WFInv_Load ih ?_ (List.Perm.refl _) hL
        simp [GoMap.WF, GoMap.keys, GoMap.entries]
  | delete order execReply _ _ hd ih => rw [Delete_self hd]; exact ih

/-- The column part of the statement of `insert`, whatever the function
expressions are: the quoted column names joined by `, `. -/
theorem insertStatement_columns (h : DbObject) (o : Orders)
    (hk : ∀ e ∈ o.where_, e.1 ≠ []) :
    ∃ (valuesText : List Char) (binds : List Value),
      insertStatement h o =
        .ok ("INSERT INTO \"".toList ++ h.tableName ++ "\"".toList ++
            (" (".toList ++
              ", ".toList.intercalate
                ((Spec.insertColumns (Spec.seeded h o.where_) o.functions o.changed).map
                  Spec.quoted) ++ ")".toList) ++
            (" VALUES (".toList ++ valuesText ++ ")".toList), binds) := by
  unfold insertStatement
  rw [insert_where_loop h o.where_ _ hk]
  have hchanged : ∀ acc : InsertAcc, o.changed.foldl insertChangedStep acc =
      o.changed.foldl (fun a e => insertBound a e.1 e.2) acc := fun _ => rfl
  simp only [hchanged, insert_bound_loop, insert_functions_loop, ← joinOnto_append]
  have hcols : ∀ x ∈ (Spec.seeded h o.where_).map (fun e => Spec.quoted e.1) ++
      (o.functions.map (fun e => Spec.quoted e.1) ++
        o.changed.map (fun e => Spec.quoted e.1)), x ≠ [] := by
    intro x hx
    simp only [List.mem_append, List.mem_map] at hx
    rcases hx with ⟨e, _, rfl⟩ | ⟨e, _, rfl⟩ | ⟨e, _, rfl⟩ <;> exact quoted_ne_nil _
  simp only [List.append_assoc] at hcols ⊢
  rw [joinOnto_eq_intercalate _ _ hcols]
  refine ⟨joinOnto ", ".toList []
      (Spec.placeholders 1 (Spec.seeded h o.where_).length ++
        (o.functions.map Prod.snd ++
          Spec.placeholders (1 + (Spec.seeded h o.where_).length) o.changed.length)),
    (Spec.seeded h o.where_).map Prod.snd ++ o.changed.map Prod.snd, ?_⟩
  simp only [Spec.insertColumns, List.map_append, List.map_map, List.append_assoc,
    List.nil_append, Function.comp_def]

/-- C19: for every reachable handle and every order in which its three maps
are enumerated, the column list of the statement that `insert` builds names no
column twice: the keys taken from `where` are distinct, do not begin with `!`
and are pending neither in `changed` nor in `functions`; the keys of
`functions` and the keys of `changed` are distinct among themselves and from
each other. -/
theorem insert_columns_distinct (h : DbObject) (o : Orders) (hr : Reachable h)
    (hc : GoMap.IsRange o.changed h.changed) (hf : GoMap.IsRange o.functions h.functions)
    (hw : GoMap.IsRange o.where_ h.where_) :
    ∃ (columns : List (List Char)) (valuesText : List Char) (binds : List Value),
      insertStatement h o =
        .ok ("INSERT INTO \"".toList ++ h.tableName ++ "\"".toList ++
            (" (".toList ++ ", ".toList.intercalate (columns.map Spec.quoted) ++ ")".toList) ++
            (" VALUES (".toList ++ valuesText ++ ")".toList), binds) ∧
      columns =
        (Spec.seeded h o.where_).map Prod.fst ++ o.functions.map Prod.fst ++
          o.changed.map Prod.fst ∧
      columns.Nodup ∧
      (columns.map Spec.quoted).Nodup ∧
      (∀ e ∈ Spec.seeded h o.where_, h.changed.contains e.1 = false ∧
        h.functions.contains e.1 = false) ∧
      (∀ k, ¬ (k ∈ h.changed.keys ∧ k ∈ h.functions.keys)) := by
  have hk := hr.order_keys_ne_nil hw
  obtain ⟨hwc, hwf, hww⟩ := hr.wf
  obtain ⟨valuesText, binds, hst⟩ := insertStatement_columns h o hk
  have hkc : (o.changed.map Prod.fst).Nodup :=
    (List.Perm.nodup_iff (List.Perm.map Prod.fst hc)).2 hwc
  have hkf : (o.functions.map Prod.fst).Nodup :=
    (List.Perm.nodup_iff (List.Perm.map Prod.fst hf)).2 hwf
  have hkw : (o.where_.map Prod.fst).Nodup :=
    (List.Perm.nodup_iff (List.Perm.map Prod.fst hw)).2 hww
  have hks : ((Spec.seeded h o.where_).map Prod.fst).Nodup :=
    List.Nodup.sublist (List.Sublist.map _ (List.filter_sublist _)) hkw
  have hmc : ∀ k, k ∈ o.changed.map Prod.fst ↔ k ∈ h.changed.keys :=
    fun k => List.Perm.mem_iff (List.Perm.map Prod.fst hc)
  have hmf : ∀ k, k ∈ o.functions.map Prod.fst ↔ k ∈ h.functions.keys :=
    fun k => List.Perm.mem_iff (List.Perm.map Prod.fst hf)
  have hseed : ∀ k, k ∈ (Spec.seeded h o.where_).map Prod.fst →
      k ∉ h.changed.keys ∧ k ∉ h.functions.keys := by
    intro k hkm
    simp only [List.mem_map] at hkm
    obtain ⟨e, he, rfl⟩ := hkm
    have := (mem_seeded h o.where_ e).1 he
    exact ⟨this.2.2.1, this.2.2.2⟩
  have hnodup : ((Spec.seeded h o.where_).map Prod.fst ++ o.functions.map Prod.fst ++
      o.changed.map Prod.fst).Nodup := by
    rw [List.append_assoc, List.nodup_append]
    refine ⟨hks, ?_, ?_⟩
    · rw [List.nodup_append]
      refine ⟨hkf, hkc, ?_⟩
      intro k hk1 hk2
      exact hr.inv.1 k ((hmc k).1 hk2) ((hmf k).1 hk1)
    · intro k hk1 hk2
      rcases List.mem_append.1 hk2 with hk2 | hk2
      · exact (hseed k hk1).2 ((hmf k).1 hk2)
      · exact (hseed k hk1).1 ((hmc k).1 hk2)
  have hinj : Function.Injective Spec.quoted := by
    intro a b hab
    simp only [Spec.quoted, List.append_assoc] at hab
    have h1 := List.append_cancel_left hab
    exact List.append_cancel_right h1
  refine ⟨_, valuesText, binds, hst, rfl, hnodup, List.Nodup.map hinj hnodup, ?_, ?_⟩
  · intro e he
    have := hseed e.1 (List.mem_map_of_mem Prod.fst he)
    constructor
    · cases hcn : h.changed.contains e.1 with
      | false => rfl
      | true => exact absurd ((contains_iff_mem_keys _ _).1 hcn) this.1
    · cases hcn : h.functions.contains e.1 with
      | false => rfl
      | true => exact absurd ((contains_iff_mem_keys _ _).1 hcn) this.2
  · intro k hk2
    exact hr.inv.1 k hk2.1 hk2.2

theorem Example.pendingHandle_reachable : Reachable Example.pendingHandle :=
  Reachable.setFunction
    (h := { New "t".toList with
      fields := GoMap.mk [("name".toList, "Bob".toList)]
      changed := GoMap.mk [("name".toList, .str "Bob".toList)]
      functions := GoMap.mk []
      where_ := Example.pendingCondition })
    "id".toList "DEFAULT".toList
    (Reachable.set
      (h := { New "t".toList with
        fields := GoMap.mk []
        where_ := Example.pendingCondition })
      "name".toList (.str "Bob".toList)
      (Reachable.load (h := New "t".toList) Example.pendingCondition
        Example.pendingCondition.entries (.ok [])
        (Reachable.new "t".toList) (by decide) (by decide) rfl)
      rfl)
    rfl

/-- Witness for C19: the handle left by a `Load` that found no row for a
condition with five keys, followed by `Set("name", "Bob")` and
`SetFunction("id", "DEFAULT")`.  The keys `id` and `name` of the condition are
pending and the key `!state` is negated, so the condition seeds the two columns
`region` and `tenant`; with the function column `id` and the changed column
`name` the list has four columns, each once.  The keys of the three maps taken
together hold `id` and `name` twice. -/
theorem insert_columns_distinct_witness :
    (∃ (columns : List (List Char)) (valuesText : List Char) (binds : List Value),
      insertStatement Example.pendingHandle Example.pendingOrders =
        .ok ("INSERT INTO \"".toList ++ Example.pendingHandle.tableName ++ "\"".toList ++
            (" (".toList ++ ", ".toList.intercalate (columns.map Spec.quoted) ++ ")".toList) ++
            (" VALUES (".toList ++ valuesText ++ ")".toList), binds) ∧
      columns = ["region".toList, "tenant".toList, "id".toList, "name".toList] ∧
      columns.Nodup) ∧
    insertStatement Example.pendingHandle Example.pendingOrders =
      .ok ("INSERT INTO \"t\" (\"region\", \"tenant\", \"id\", \"name\") VALUES ($1, $2, DEFAULT, $3)".toList,
        [.str "eu".toList, .int 7, .str "Bob".toList]) ∧
    ¬ (Example.pendingHandle.where_.keys ++ Example.pendingHandle.functions.keys ++
        Example.pendingHandle.changed.keys).Nodup := by
  obtain ⟨columns, valuesText, binds, h1, h2, h3, _⟩ :=
    insert_columns_distinct Example.pendingHandle Example.pendingOrders
      Example.pendingHandle_reachable (by decide) (by decide) (by decide)
  exact ⟨⟨columns, valuesText, binds, h1, h2.trans rfl, h3⟩, rfl, by decide⟩

end DbObject


namespace DbHandler

/-! ## Row decoding in `Query` -/

theorem put_of_not_mem {α : Type} (row : List (List Char × α)) (c : List Char) (t : α)
    (hc : c ∉ row.map Prod.fst) : Pool.put row c t = (c, t) :: row := by
  have hf : row.filter (fun e => decide (e.1 ≠ c)) = row := by
    rw [List.filter_eq_self]
    intro e he
    have : e.1 ≠ c := fun h => hc (h ▸ List.mem_map_of_mem Prod.fst he)
    simpa using this
  simp only [Pool.put, GoMap.entries, hf]

theorem decodeStep_eq (isPrintTable : Char → Bool) (flag : Bool)
    (row : List (List Char × List Char)) (c : List Char) (v : Value) :
    decodeStep isPrintTable flag row c v =
      match decodeEntry isPrintTable flag (c, v) with
      | some kv => Pool.put row c kv.2
      | none => row := by
  cases v <;> simp only [decodeStep, decodeEntry]
  cases flag <;> rfl

theorem decodeEntry_key (isPrintTable : Char → Bool) (flag : Bool) (cv : List Char × Value)
    (kv : List Char × List Char) (h : decodeEntry isPrintTable flag cv = some kv) :
    kv.1 = cv.1 := by
  obtain ⟨c, v⟩ := cv
  cases v <;> simp only [decodeEntry] at h
  case null =>
    cases flag
    · simp only [if_true, Option.some.injEq] at h
      rw [← h]
    · simp at h
  all_goals
    rw [Option.some.injEq] at h
    rw [← h]

/-- The loop over the columns of a row whose names are distinct and not yet
in the mapping adds the decoded entries, the last one in front. -/
theorem decodeFold (isPrintTable : Char → Bool) (flag : Bool)
    (ps : List (List Char × Value)) :
    ∀ row : List (List Char × List Char), (ps.map Prod.fst).Nodup →
      (∀ q ∈ ps, q.1 ∉ row.map Prod.fst) →
      ps.foldl (fun row cv => decodeStep isPrintTable flag row cv.1 cv.2) row =
        (ps.filterMap (decodeEntry isPrintTable flag)).reverse ++ row := by
  induction ps with
  | nil => intro row _ _; rfl
  | cons q ps ih =>
    intro row hnd hrow
    obtain ⟨c, v⟩ := q
    simp only [List.map_cons, List.nodup_cons] at hnd
    have hc : c ∉ row.map Prod.fst := hrow (c, v) (List.mem_cons_self _ _)
    rw [List.foldl_cons, decodeStep_eq]
    cases hd : decodeEntry isPrintTable flag (c, v) with
    | none =>
      simp only [List.filterMap_cons, hd]
      exact ih row hnd.2 (fun q hq => hrow q (List.mem_cons_of_mem _ hq))
    | some kv =>
      have hkey : kv.1 = c := decodeEntry_key isPrintTable flag (c, v) kv hd
      have hkv : (c, kv.2) = kv := by rw [← hkey]
      simp only [List.filterMap_cons, hd, List.reverse_cons, List.append_assoc,
        List.singleton_append]
      rw [put_of_not_mem row c kv.2 hc, hkv]
      apply ih (kv :: row) hnd.2
      intro q hq
      simp only [List.map_cons, List.mem_cons, not_or, hkey]
      refine ⟨?_, hrow q (List.mem_cons_of_mem _ hq)⟩
      intro heq
      exact hnd.1 (heq ▸ List.mem_map_of_mem Prod.fst hq)

theorem zip_fst_sublist {α β : Type} (l : List α) :
    ∀ l' : List β, ((l.zip l').map Prod.fst).Sublist l := by
  induction l with
  | nil => intro l'; simp
  | cons a l ih =>
    intro l'
    cases l' with
    | nil => simp
    | cons b l' =>
      simp only [List.zip_cons_cons, List.map_cons]
      exact List.Sublist.cons₂ a (ih l')

/-- The row mapping of a row whose column names are distinct. -/
theorem decodeRow_of_nodup (isPrintTable : Char → Bool) (flag : Bool)
    (columnsNames : List (List Char)) (values : List Value) (hnd : columnsNames.Nodup) :
    decodeRow isPrintTable flag columnsNames values =
      ((columnsNames.zip values).filterMap (decodeEntry isPrintTable flag)).reverse := by
  have h := decodeFold isPrintTable flag (columnsNames.zip values) []
    (List.Nodup.sublist (zip_fst_sublist columnsNames values) hnd) (by simp)
  simpa [decodeRow] using h

theorem eq_of_mem_nodupKeys {α : Type} (es : List (List Char × α)) (x y : List Char × α)
    (hnd : (es.map Prod.fst).Nodup) (hx : x ∈ es) (hy : y ∈ es) (hk : x.1 = y.1) : x = y := by
  obtain ⟨kx, vx⟩ := x
  obtain ⟨ky, vy⟩ := y
  simp only at hk
  subst hk
  have h1 := DbObject.find?_of_mem_nodupKeys es kx vx hnd hx
  have h2 := DbObject.find?_of_mem_nodupKeys es kx vy hnd hy
  rw [h1] at h2
  exact Option.some.inj h2

theorem filterMap_decodeEntry_keys_false (isPrintTable : Char → Bool)
    (ps : List (List Char × Value)) :
    (ps.filterMap (decodeEntry isPrintTable false)).map Prod.fst = ps.map Prod.fst := by
  induction ps with
  | nil => rfl
  | cons q ps ih =>
    obtain ⟨c, v⟩ := q
    cases v <;> simp [List.filterMap_cons, decodeEntry, ih]

theorem filterMap_decodeEntry_keys_true (isPrintTable : Char → Bool)
    (ps : List (List Char × Value)) :
    (ps.filterMap (decodeEntry isPrintTable true)).map Prod.fst =
      (ps.filter (fun q => decide (q.2 ≠ Value.null))).map Prod.fst := by
  induction ps with
  | nil => rfl
  | cons q ps ih =>
    obtain ⟨c, v⟩ := q
    cases v <;> simp [List.filterMap_cons, List.filter_cons, decodeEntry, ih]

theorem scanLoop_ok (isPrintTable : Char → Bool) (flag : Bool)
    (columnsNames : List (List Char)) (scans : List (Except GoError (List Value))) :
    ∀ data data', scanLoop isPrintTable flag columnsNames data scans = .ok data' →
      ∃ rows : List (List Value), scans = rows.map Except.ok ∧
        data' = data ++ rows.map (decodeRow isPrintTable flag columnsNames) := by
  induction scans with
  | nil =>
    intro data data' h
    simp only [scanLoop, Except.ok.injEq] at h
    exact ⟨[], rfl, by simp [h]⟩
  | cons x scans ih =>
    intro data data' h
    cases x with
    | error e => simp [scanLoop] at h
    | ok values =>
      simp only [scanLoop] at h
      obtain ⟨rows, h1, h2⟩ := ih _ _ h
      exact ⟨values :: rows, by simp [h1], by simp [h2]⟩

end DbHandler

namespace DbHandler

/-- What `Query` does by a handle that fails the registration check. -/
theorem Query_unregistered (isPrintTable : Char → Bool) (p : Pool) (h : DbHandler)
    (query : List Char) (args : List Value) (reply : QueryReply)
    (hc : h.dbh = none ∨ p.conn h.dbURLHash = none) :
    Query isPrintTable p h query args reply =
      ⟨[], some "connection closed".toList, [.report .error, .report .error]⟩ := by
  unfold Query checkConn
  rw [if_pos hc]
  rfl

/-- What `Query` does by a handle that passes the registration check. -/
theorem Query_registered (isPrintTable : Char → Bool) (p : Pool) (h : DbHandler)
    (query : List Char) (args : List Value) (reply : QueryReply) (c : Conn)
    (hh : h.dbh = some c) (hp : p.conn h.dbURLHash ≠ none) :
    Query isPrintTable p h query args reply =
      match reply with
      | .error err =>
        ⟨[], some err,
          (if h.Debug = true then [Event.report .debug] else []) ++
            [.sqlQuery c query args] ++ [.report .error]⟩
      | .ok rows =>
        match rows.columns with
        | .error err =>
          ⟨[], some err,
            (if h.Debug = true then [Event.report .debug] else []) ++
              [.sqlQuery c query args] ++ [.report .error]⟩
        | .ok columns =>
          match scanLoop isPrintTable h.DeleteNullValues columns [] rows.scans with
          | .error err =>
            ⟨[], some err,
              (if h.Debug = true then [Event.report .debug] else []) ++
                [.sqlQuery c query args] ++ [.report .error]⟩
          | .ok data =>
            match rows.err with
            | some err =>
              ⟨[], some err,
                (if h.Debug = true then [Event.report .debug] else []) ++
                  [.sqlQuery c query args] ++ [.report .error]⟩
            | none =>
              ⟨data, none,
                (if h.Debug = true then [Event.report .debug] else []) ++
                  [.sqlQuery c query args]⟩ := by
  have hh' : h.dbh ≠ none := by simp [hh]
  unfold Query
  simp only [checkConn_pass p h hh' hp, hh, List.nil_append]

/-- A `Query` that returns nil was sent and answered without an error, and
its result holds the row mapping of every scanned row. -/
theorem Query_ok (isPrintTable : Char → Bool) (p : Pool) (h : DbHandler)
    (query : List Char) (args : List Value) (reply : QueryReply)
    (herr : (Query isPrintTable p h query args reply).err = none) :
    ∃ (rows : RowsReply) (columns : List (List Char)) (scanned : List (List Value)),
      reply = .ok rows ∧ rows.columns = .ok columns ∧
      rows.scans = scanned.map Except.ok ∧ rows.err = none ∧
      (Query isPrintTable p h query args reply).data =
        scanned.map (decodeRow isPrintTable h.DeleteNullValues columns) := by
  by_cases hc : h.dbh = none ∨ p.conn h.dbURLHash = none
  · rw [Query_unregistered isPrintTable p h query args reply hc] at herr
    simp at herr
  · obtain ⟨hh, hp⟩ := not_or.1 hc
    cases hd : h.dbh with
    | none => exact absurd hd hh
    | some c =>
      rw [Query_registered isPrintTable p h query args reply c hd hp] at herr ⊢
      cases reply with
      | error e => simp at herr
      | ok rows =>
        obtain ⟨rcolumns, rscans, rerr⟩ := rows
        cases rcolumns with
        | error e => simp at herr
        | ok columns =>
          cases hs : scanLoop isPrintTable h.DeleteNullValues columns [] rscans with
          | error e => simp [hs] at herr
          | ok data =>
            cases rerr with
            | some e => simp [hs] at herr
            | none =>
              obtain ⟨scanned, h1, h2⟩ := scanLoop_ok _ _ _ _ _ _ hs
              refine ⟨⟨.ok columns, rscans, none⟩, columns, scanned, rfl, rfl, h1, rfl, ?_⟩
              simp only [hs, h2, List.nil_append]

/-- C12 does not hold when two columns of a result share a name: with the
columns `x`, `x`, the values NULL, 5 and `DeleteNullValues` set, the key `x` is
in the row mapping although the first column is null; with the values 1, 2 and
the flag not set, the mapping of the two columns has one key, and it holds the
text of the second value. -/
theorem Query_decoding_duplicate_names :
    (Query (fun _ => true) ⟨[("k".toList, some 4)], [("k".toList, 1)]⟩
        { New with dbh := some 4, dbURLHash := "k".toList, DeleteNullValues := true }
        "SELECT a.x, b.x FROM a, b".toList []
        (.ok ⟨.ok ["x".toList, "x".toList], [.ok [.null, .int 5]], none⟩)).data =
      [[("x".toList, "5".toList)]] ∧
    ¬ ((GoMap.mk (decodeRow (fun _ => true) true ["x".toList, "x".toList]
        [.null, .int 5])).lookup "x".toList = none) ∧
    (decodeRow (fun _ => true) false ["x".toList, "x".toList] [.int 1, .int 2]).length ≠ 2 ∧
    (GoMap.mk (decodeRow (fun _ => true) false ["x".toList, "x".toList]
        [.bytes "a".toList, .int 2])).lookup "x".toList ≠ some "a".toList := by
  refine ⟨rfl, ?_, ?_, ?_⟩ <;> decide

/-- C12, for results whose column names are distinct: in the row mapping that
`Query` builds from a scanned row, a byte-sequence value stands as the text of
its bytes under its column's name; a null value stands as the empty string
when `DeleteNullValues` is false, and its column's name is no key of the
mapping when the flag is true; any other value stands as its `%#v` text.  The
keys of the mapping are the column names when the flag is false and the names
of the columns that are not null when it is true, each once.  The result of a
`Query` that returns nil holds one such mapping per scanned row. -/
theorem Query_decoding (isPrintTable : Char → Bool) (flag : Bool)
    (columnsNames : List (List Char)) (values : List Value)
    (hnd : columnsNames.Nodup) (hlen : values.length = columnsNames.length) :
    (∀ (i : Nat) (c : List Char) (v : Value),
      columnsNames[i]? = some c → values[i]? = some v →
      (∀ b, v = .bytes b →
        (GoMap.mk (decodeRow isPrintTable flag columnsNames values)).lookup c = some b) ∧
      (v = .null → flag = false →
        (GoMap.mk (decodeRow isPrintTable flag columnsNames values)).lookup c = some []) ∧
      (v = .null → flag = true →
        (GoMap.mk (decodeRow isPrintTable flag columnsNames values)).lookup c = none ∧
        c ∉ (decodeRow isPrintTable flag columnsNames values).map Prod.fst) ∧
      (v ≠ .null → (∀ b, v ≠ .bytes b) →
        (GoMap.mk (decodeRow isPrintTable flag columnsNames values)).lookup c =
          some (sprintfSharpV isPrintTable v))) ∧
    ((decodeRow isPrintTable flag columnsNames values).map Prod.fst).Nodup ∧
    (flag = false →
      ((decodeRow isPrintTable flag columnsNames values).map Prod.fst).Perm columnsNames ∧
      (decodeRow isPrintTable flag columnsNames values).length = columnsNames.length) ∧
    (flag = true →
      ((decodeRow isPrintTable flag columnsNames values).map Prod.fst).Perm
        (((columnsNames.zip values).filter (fun q => decide (q.2 ≠ Value.null))).map
          Prod.fst) ∧
      (decodeRow isPrintTable flag columnsNames values).length =
        (values.filter (fun v => decide (v ≠ Value.null))).length) ∧
    (∀ (p : Pool) (h : DbHandler) (query : List Char) (args : List Value)
      (reply : QueryReply),
      (Query isPrintTable p h query args reply).err = none →
      ∃ (rows : RowsReply) (columns : List (List Char)) (scanned : List (List Value)),
        reply = .ok rows ∧ rows.columns = .ok columns ∧ rows.scans = scanned.map Except.ok ∧
        (Query isPrintTable p h query args reply).data =
          scanned.map (decodeRow isPrintTable h.DeleteNullValues columns)) := by
  have hrow := decodeRow_of_nodup isPrintTable flag columnsNames values hnd
  have hzipfst : (columnsNames.zip values).map Prod.fst = columnsNames := by
    rw [List.map_fst_zip]
    omega
  have hzipsnd : (columnsNames.zip values).map Prod.snd = values := by
    rw [List.map_snd_zip]
    omega
  have hzipnd : ((columnsNames.zip values).map Prod.fst).Nodup := by rw [hzipfst]; exact hnd
  have hsub : (((columnsNames.zip values).filterMap
      (decodeEntry isPrintTable flag)).map Prod.fst).Sublist
      ((columnsNames.zip values).map Prod.fst) := by
    cases flag
    · rw [filterMap_decodeEntry_keys_false]
    · rw [filterMap_decodeEntry_keys_true]
      exact List.Sublist.map _ (List.filter_sublist _)
  have hkeys : ((decodeRow isPrintTable flag columnsNames values).map Prod.fst).Nodup := by
    rw [hrow, List.map_reverse, List.nodup_reverse]
    exact List.Nodup.sublist hsub hzipnd
  have hlook : ∀ (i : Nat) (c : List Char) (v : Value),
      columnsNames[i]? = some c → values[i]? = some v →
      (GoMap.mk (decodeRow isPrintTable flag columnsNames values)).lookup c =
        (decodeEntry isPrintTable flag (c, v)).map Prod.snd ∧
      (decodeEntry isPrintTable flag (c, v) = none →
        c ∉ (decodeRow isPrintTable flag columnsNames values).map Prod.fst) := by
    intro i c v hc hv
    have hmem : (c, v) ∈ columnsNames.zip values := by
      apply List.mem_iff_getElem?.2
      exact ⟨i, by rw [List.getElem?_zip_eq_some]; exact ⟨hc, hv⟩⟩
    have hnot : decodeEntry isPrintTable flag (c, v) = none →
        c ∉ (decodeRow isPrintTable flag columnsNames values).map Prod.fst := by
      intro hd hcm
      rw [hrow, List.map_reverse, List.mem_reverse, List.mem_map] at hcm
      obtain ⟨kv, hkv, hk⟩ := hcm
      rw [List.mem_filterMap] at hkv
      obtain ⟨q, hq, hqd⟩ := hkv
      have hkey := decodeEntry_key isPrintTable flag q kv hqd
      have hqc : q = (c, v) :=
        eq_of_mem_nodupKeys _ q (c, v) hzipnd hq hmem (by rw [← hkey, hk])
      rw [hqc, hd] at hqd
      simp at hqd
    refine ⟨?_, hnot⟩
    cases hd : decodeEntry isPrintTable flag (c, v) with
    | none =>
      rw [Option.map_none']
      exact lookup_of_not_mem_keys _ _ (hnot hd)
    | some kv =>
      have hkey : kv.1 = c := decodeEntry_key isPrintTable flag (c, v) kv hd
      have hin : kv ∈ decodeRow isPrintTable flag columnsNames values := by
        rw [hrow, List.mem_reverse, List.mem_filterMap]
        exact ⟨(c, v), hmem, hd⟩
      have := DbObject.lookup_of_mem (GoMap.mk (decodeRow isPrintTable flag columnsNames values))
        kv hkeys hin
      rw [hkey] at this
      rw [this, Option.map_some']
  refine ⟨?_, hkeys, ?_, ?_, ?_⟩
  · intro i c v hc hv
    obtain ⟨h1, h2⟩ := hlook i c v hc hv
    refine ⟨?_, ?_, ?_, ?_⟩
    · intro b hb
      subst hb
      rw [h1]; rfl
    · intro hn hf
      subst hn; subst hf
      rw [h1]; rfl
    · intro hn hf
      subst hn; subst hf
      exact ⟨by rw [h1]; rfl, h2 rfl⟩
    · intro hn hb
      rw [h1]
      cases v with
      | null => exact absurd rfl hn
      | bytes b => exact absurd rfl (hb b)
      | str s => rfl
      | int n => rfl
      | uint n => rfl
      | bool b => rfl
      | other a b => rfl
  · intro hf
    subst hf
    have hk : (decodeRow isPrintTable false columnsNames values).map Prod.fst =
        columnsNames.reverse := by
      rw [hrow, List.map_reverse, filterMap_decodeEntry_keys_false, hzipfst]
    refine ⟨by rw [hk]; exact List.reverse_perm _, ?_⟩
    have := congrArg List.length hk
    simpa using this
  · intro hf
    subst hf
    have hk : (decodeRow isPrintTable true columnsNames values).map Prod.fst =
        (((columnsNames.zip values).filter (fun q => decide (q.2 ≠ Value.null))).map
          Prod.fst).reverse := by
      rw [hrow, List.map_reverse, filterMap_decodeEntry_keys_true]
    refine ⟨by rw [hk]; exact List.reverse_perm _, ?_⟩
    have h1 := congrArg List.length hk
    simp only [List.length_map, List.length_reverse] at h1
    rw [h1]
    have h2 : (values.filter (fun v => decide (v ≠ Value.null))).length =
        ((columnsNames.zip values).filter (fun q => decide (q.2 ≠ Value.null))).length := by
      conv_lhs => rw [← hzipsnd]
      rw [List.filter_map, List.length_map]
      rfl
    exact h2.symm
  · intro p h query args reply herr
    obtain ⟨rows, columns, scanned, h1, h2, h3, _, h5⟩ :=
      Query_ok isPrintTable p h query args reply herr
    exact ⟨rows, columns, scanned, h1, h2, h3, h5⟩

/-- Witness for the amended C12: a row with a text column, a null column and
an integer column, decoded with `DeleteNullValues` set. -/
theorem Query_decoding_witness :
    ((decodeRow (fun _ => true) true ["name".toList, "note".toList, "n".toList]
        [.bytes "Ada".toList, .null, .int 3]).map Prod.fst).Nodup ∧
    (decodeRow (fun _ => true) true ["name".toList, "note".toList, "n".toList]
        [.bytes "Ada".toList, .null, .int 3]).length =
      ([Value.bytes "Ada".toList, .null, .int 3].filter
        (fun v => decide (v ≠ Value.null))).length := by
  obtain ⟨_, h1, _, h2, _⟩ :=
    Query_decoding (fun _ => true) true ["name".toList, "note".toList, "n".toList]
      [.bytes "Ada".toList, .null, .int 3] (by decide) (by decide)
  exact ⟨h1, (h2 rfl).2⟩

end DbHandler

namespace DbHandler

/-! ## The display text of `Set` and of `Query` -/

theorem digitChar_ne_letter_x : ∀ m, m < 10 → Nat.digitChar m ≠ 'x' := by decide

theorem letter_x_not_mem_toDigitsCore (fuel n : Nat) (acc : List Char)
    (hacc : 'x' ∉ acc) : 'x' ∉ Nat.toDigitsCore 10 fuel n acc := by
  induction fuel generalizing n acc with
  | zero => simpa [Nat.toDigitsCore] using hacc
  | succ f ih =>
    have hcons : 'x' ∉ Nat.digitChar (n % 10) :: acc := by
      simp only [List.mem_cons, not_or]
      exact ⟨fun h => digitChar_ne_letter_x _ (Nat.mod_lt _ (by decide)) h.symm, hacc⟩
    simp only [Nat.toDigitsCore]
    split
    · exact hcons
    · exact ih _ _ hcons

/-- The hexadecimal text after `0x` is never the decimal text. -/
theorem hex_ne_decimal (n : Nat) : "0x".toList ++ Nat.toDigits 16 n ≠ decimal n := by
  intro h
  have hx : 'x' ∈ Nat.toDigits 10 n := by
    have h2 : "0x".toList ++ Nat.toDigits 16 n = Nat.toDigits 10 n := h
    rw [← h2]
    simp
  exact letter_x_not_mem_toDigitsCore _ _ _ (by simp) hx

theorem length_ite_pos (c : Prop) [Decidable c] (a b : List Char)
    (ha : 1 ≤ a.length) (hb : 1 ≤ b.length) : 1 ≤ (if c then a else b).length := by
  split
  · exact ha
  · exact hb

theorem quoteRune_length (isPrintTable : Char → Bool) (r : Char) :
    1 ≤ (quoteRune isPrintTable r).length := by
  unfold quoteRune
  repeat' apply length_ite_pos
  all_goals exact Nat.le_add_left 1 _

theorem flatMap_quoteRune_length (isPrintTable : Char → Bool) (s : List Char) :
    s.length ≤ (s.flatMap (quoteRune isPrintTable)).length := by
  induction s with
  | nil => simp
  | cons c s ih =>
    simp only [List.flatMap_cons, List.length_append, List.length_cons]
    have := quoteRune_length isPrintTable c
    omega

/-- The quoted form of a text is never the text itself: it is longer by two
characters at least. -/
theorem strconvQuote_ne (isPrintTable : Char → Bool) (s : List Char) :
    strconvQuote isPrintTable s ≠ s := by
  intro h
  have hl := congrArg List.length h
  have := flatMap_quoteRune_length isPrintTable s
  simp only [strconvQuote, List.length_cons, List.length_append, List.length_nil] at hl
  omega

/-- C13: the text that `Set` stores and the text that the row decoding of
`Query` produces differ.  For the string `Ada`, `Set` stores `Ada` (the verb
`%v`) and the decoding gives the quoted `"Ada"` (the verb `%#v`); for the nil
value `Set` stores `<nil>`, where the decoding gives the empty string or leaves
the key out; for the unsigned integer 65535 `Set` stores `65535` and the
decoding gives `0xffff`.  The two texts differ for every string and for every
integer of an unsigned type; they are the same for byte sequences, integers of
a signed type and booleans. -/
theorem Set_text_differs_from_Query_text :
    (DbObject.setText (.str "Ada".toList) = "Ada".toList ∧
      (∀ isPrintTable flag,
        decodeEntry isPrintTable flag ("name".toList, .str "Ada".toList) =
          some ("name".toList, "\"Ada\"".toList)) ∧
      (∃ h, DbObject.Set (DbObject.New "t".toList) "name".toList (.str "Ada".toList) = .ok h ∧
        DbObject.Get h "name".toList = "Ada".toList) ∧
      (∀ isPrintTable flag,
        (GoMap.mk (decodeRow isPrintTable flag ["name".toList]
          [.str "Ada".toList])).lookup "name".toList = some "\"Ada\"".toList)) ∧
    (DbObject.setText .null = "<nil>".toList ∧
      (∀ isPrintTable,
        decodeEntry isPrintTable false ("name".toList, .null) = some ("name".toList, [])) ∧
      (∀ isPrintTable, decodeEntry isPrintTable true ("name".toList, .null) = none)) ∧
    (DbObject.setText (.uint 65535) = "65535".toList ∧
      (∀ isPrintTable flag,
        decodeEntry isPrintTable flag ("n".toList, .uint 65535) =
          some ("n".toList, "0xffff".toList)) ∧
      (∃ h, DbObject.Set (DbObject.New "t".toList) "n".toList (.uint 65535) = .ok h ∧
        DbObject.Get h "n".toList = "65535".toList)) ∧
    (∀ isPrintTable flag c s,
      decodeEntry isPrintTable flag (c, .str s) ≠ some (c, DbObject.setText (.str s))) ∧
    (∀ isPrintTable flag c n,
      decodeEntry isPrintTable flag (c, .uint n) ≠ some (c, DbObject.setText (.uint n))) ∧
    (∀ isPrintTable flag c b,
      decodeEntry isPrintTable flag (c, .bytes b) = some (c, DbObject.setText (.bytes b))) ∧
    (∀ isPrintTable flag c (n : Int),
      decodeEntry isPrintTable flag (c, .int n) = some (c, DbObject.setText (.int n))) ∧
    (∀ isPrintTable flag c b,
      decodeEntry isPrintTable flag (c, .bool b) = some (c, DbObject.setText (.bool b))) := by
  refine ⟨⟨rfl, ?_, ⟨_, rfl, rfl⟩, ?_⟩, ⟨rfl, fun _ => rfl, fun _ => rfl⟩,
    ⟨rfl, ?_, ⟨_, rfl, rfl⟩⟩, ?_, ?_, ?_, ?_, ?_⟩
  · intro isPrintTable flag
    cases flag <;> rfl
  · intro isPrintTable flag
    cases flag <;> rfl
  · intro isPrintTable flag
    cases flag <;> rfl
  · intro isPrintTable flag c s hd
    have h2 : some (c, sprintfSharpV isPrintTable (.str s)) = some (c, s) := hd
    simp only [Option.some.injEq, Prod.mk.injEq, true_and] at h2
    exact strconvQuote_ne isPrintTable s h2
  · intro isPrintTable flag c n hd
    have h2 : some (c, sprintfSharpV isPrintTable (.uint n)) = some (c, decimal n) := hd
    simp only [Option.some.injEq, Prod.mk.injEq, true_and] at h2
    exact hex_ne_decimal n h2
  · intro isPrintTable flag c b
    rfl
  · intro isPrintTable flag c n
    rfl
  · intro isPrintTable flag c b
    cases b <;> rfl

end DbHandler

namespace DbHandler

/-! ## Reports to the error sink -/

theorem report_mem_append_right (trace : List Event) (sev : Severity) :
    ∃ s, Event.report s ∈ trace ++ [Event.report sev] :=
  ⟨sev, by simp⟩

/-- A `Connect` that returns an error has reported it, unless the error is
that of `sql.Open`. -/
theorem Connect_reports (md5hex : List Char → List Char) (p : Pool) (h : DbHandler)
    (dbURL : List Char) (openReply : Except GoError Conn) (pingReply : Option GoError)
    (herr : (Connect md5hex p h dbURL openReply pingReply).err ≠ none) :
    (∃ s, Event.report s ∈ (Connect md5hex p h dbURL openReply pingReply).trace) ∨
    (p.conn (md5hex dbURL) = none ∧ ∃ e, openReply = .error e) := by
  cases hc : p.conn (md5hex dbURL) with
  | some c =>
    cases pingReply with
    | none => simp [Connect, hc, connectPing] at herr
    | some e =>
      left
      exact ⟨.error, by simp [Connect, hc, connectPing]⟩
  | none =>
    cases openReply with
    | error e => exact Or.inr ⟨rfl, e, rfl⟩
    | ok c =>
      cases pingReply with
      | none => simp [Connect, hc, connectPing] at herr
      | some e =>
        left
        exact ⟨.error, by simp [Connect, hc, connectPing]⟩

theorem Disconnect_reports (p : Pool) (h : DbHandler) (closeReply : Option GoError)
    (herr : (Disconnect p h closeReply).err ≠ none) :
    ∃ s, Event.report s ∈ (Disconnect p h closeReply).trace := by
  by_cases hc : h.dbh = none ∨ p.conn h.dbURLHash = none
  · refine ⟨.error, ?_⟩
    unfold Disconnect checkConn
    rw [if_pos hc]
    simp
  · obtain ⟨hh, hp⟩ := not_or.1 hc
    cases hd : h.dbh with
    | none => exact absurd hd hh
    | some c =>
      by_cases hcount : 1 < p.count h.dbURLHash
      · rw [Disconnect_of_shared p h closeReply hh hp hcount] at herr
        exact absurd rfl herr
      · have hle : p.count h.dbURLHash ≤ 1 := Nat.le_of_not_lt hcount
        have herr' := (Disconnect_last p h closeReply c hd hp hle).1
        rw [Disconnect_last_trace p h closeReply c hd hp hle]
        cases closeReply with
        | none => rw [herr'] at herr; exact absurd rfl herr
        | some e => exact ⟨.warning, by simp⟩

theorem Query_reports (isPrintTable : Char → Bool) (p : Pool) (h : DbHandler)
    (query : List Char) (args : List Value) (reply : QueryReply)
    (herr : (Query isPrintTable p h query args reply).err ≠ none) :
    ∃ s, Event.report s ∈ (Query isPrintTable p h query args reply).trace := by
  by_cases hc : h.dbh = none ∨ p.conn h.dbURLHash = none
  · rw [Query_unregistered isPrintTable p h query args reply hc]
    exact ⟨.error, by simp⟩
  · obtain ⟨hh, hp⟩ := not_or.1 hc
    cases hd : h.dbh with
    | none => exact absurd hd hh
    | some c =>
      rw [Query_registered isPrintTable p h query args reply c hd hp] at herr ⊢
      cases reply with
      | error e => exact report_mem_append_right _ _
      | ok rows =>
        obtain ⟨rcolumns, rscans, rerr⟩ := rows
        cases rcolumns with
        | error e => exact report_mem_append_right _ _
        | ok columns =>
          cases hs : scanLoop isPrintTable h.DeleteNullValues columns [] rscans with
          | error e =>
            simp only [hs]
            exact report_mem_append_right _ _
          | ok data =>
            cases rerr with
            | some e =>
              simp only [hs]
              exact report_mem_append_right _ _
            | none => simp [hs] at herr

theorem QueryRow_reports (isPrintTable : Char → Bool) (p : Pool) (h : DbHandler)
    (query : List Char) (args : List Value) (reply : QueryReply)
    (herr : (QueryRow isPrintTable p h query args reply).err ≠ none) :
    ∃ s, Event.report s ∈ (QueryRow isPrintTable p h query args reply).trace := by
  unfold QueryRow at herr ⊢
  cases he : (Query isPrintTable p h query args reply).err with
  | some e =>
    simp only [he]
    exact report_mem_append_right _ _
  | none =>
    simp only [he] at herr
    split at herr <;> exact absurd rfl herr

/-- A `QueryRow` that returns an error returns the nil map with it; one that
returns nil returns a map that is not nil. -/
theorem QueryRow_data (isPrintTable : Char → Bool) (p : Pool) (h : DbHandler)
    (query : List Char) (args : List Value) (reply : QueryReply) :
    ((QueryRow isPrintTable p h query args reply).err ≠ none →
      (QueryRow isPrintTable p h query args reply).data = GoMap.nil ∧
      ∃ e, rowReplyOf (QueryRow isPrintTable p h query args reply) = .error e) ∧
    ((QueryRow isPrintTable p h query args reply).err = none →
      (QueryRow isPrintTable p h query args reply).data ≠ GoMap.nil ∧
      ∃ row, rowReplyOf (QueryRow isPrintTable p h query args reply) = .ok row) := by
  cases he : (Query isPrintTable p h query args reply).err with
  | some e =>
    have hq : QueryRow isPrintTable p h query args reply =
        ⟨GoMap.nil, some e,
          (Query isPrintTable p h query args reply).trace ++ [.report .error]⟩ := by
      unfold QueryRow
      simp only [he]
    rw [hq]
    exact ⟨fun _ => ⟨rfl, e, rfl⟩, fun h => by simp at h⟩
  | none =>
    cases hdata : (Query isPrintTable p h query args reply).data with
    | nil =>
      have hq : QueryRow isPrintTable p h query args reply =
          ⟨GoMap.make, none, (Query isPrintTable p h query args reply).trace⟩ := by
        unfold QueryRow
        simp only [he, hdata]
      rw [hq]
      exact ⟨fun h => absurd rfl h, fun _ => ⟨by simp [GoMap.make], _, rfl⟩⟩
    | cons row rest =>
      have hq : QueryRow isPrintTable p h query args reply =
          ⟨GoMap.mk row, none, (Query isPrintTable p h query args reply).trace⟩ := by
        unfold QueryRow
        simp only [he, hdata]
      rw [hq]
      exact ⟨fun h => absurd rfl h, fun _ => ⟨by simp, _, rfl⟩⟩

theorem Exec_reports (p : Pool) (h : DbHandler) (query : List Char) (args : List Value)
    (reply : Option GoError) (herr : (Exec p h query args reply).err ≠ none) :
    ∃ s, Event.report s ∈ (Exec p h query args reply).trace := by
  by_cases hc : h.dbh = none ∨ p.conn h.dbURLHash = none
  · refine ⟨.error, ?_⟩
    unfold Exec checkConn
    rw [if_pos hc]
    simp
  · obtain ⟨hh, hp⟩ := not_or.1 hc
    cases hd : h.dbh with
    | none => exact absurd hd hh
    | some c =>
      unfold Exec at herr ⊢
      simp only [checkConn_pass p h hh hp, hd] at herr ⊢
      cases reply with
      | none => exact absurd rfl herr
      | some e => exact ⟨.error, by simp⟩

theorem TruncateTables_reports (p : Pool) (h : DbHandler) (tables : List (List Char)) :
    ∀ replies : List (Option GoError), (TruncateTables p h tables replies).err ≠ none →
      ∃ s, Event.report s ∈ (TruncateTables p h tables replies).trace := by
  induction tables with
  | nil => intro replies herr; exact absurd rfl herr
  | cons table tables ih =>
    intro replies herr
    unfold TruncateTables at herr ⊢
    simp only at herr ⊢
    split
    · exact report_mem_append_right _ _
    · rename_i hnone
      simp only [hnone] at herr
      obtain ⟨s, hs⟩ := ih _ herr
      exact ⟨s, List.mem_append_right _ hs⟩

end DbHandler

namespace DbObject

theorem Load_reports {h : DbObject} {whereParams : GoMap Value}
    {order : List (List Char × Value)} {reply : RowReply}
    {out : Outcome (Bool × Option GoError)}
    (hload : Load h whereParams order reply = .ok out) (herr : out.ret.2 ≠ none) :
    ∃ s, Event.report s ∈ out.trace := by
  unfold Load at hload
  by_cases hlen : whereParams.len = 0
  · rw [if_pos hlen] at hload
    simp only [Except.ok.injEq] at hload
    subst hload
    exact ⟨.error, by simp⟩
  · rw [if_neg hlen] at hload
    cases hw : whereLoop ⟨[], 1, []⟩ order with
    | error f => simp [hw] at hload
    | ok acc =>
      cases reply with
      | error err =>
        simp only [hw, Except.ok.injEq] at hload
        subst hload
        exact ⟨.error, by simp⟩
      | ok row =>
        simp only [hw, Except.ok.injEq] at hload
        subst hload
        exact absurd rfl herr

theorem update_reports {h : DbObject} {o : Orders} {e : Option GoError}
    {out : Outcome (Option GoError)} (hu : update h o e = .ok out) (herr : out.ret ≠ none) :
    ∃ s, Event.report s ∈ out.trace := by
  unfold update at hu
  simp only at hu
  split at hu
  · simp at hu
  · cases e with
    | none =>
      simp only [Except.ok.injEq] at hu
      subst hu
      exact absurd rfl herr
    | some err =>
      simp only [Except.ok.injEq] at hu
      subst hu
      exact ⟨.error, by simp⟩

theorem Delete_reports {h : DbObject} {order : List (List Char × Value)}
    {e : Option GoError} {out : Outcome (Option GoError)}
    (hd : Delete h order e = .ok out) (herr : out.ret ≠ none) :
    ∃ s, Event.report s ∈ out.trace := by
  unfold Delete at hd
  split at hd
  · simp only [Except.ok.injEq] at hd
    subst hd
    exact absurd rfl herr
  · simp only at hd
    split at hd
    · simp at hd
    · cases e with
      | none =>
        simp only [Except.ok.injEq] at hd
        subst hd
        exact absurd rfl herr
      | some err =>
        simp only [Except.ok.injEq] at hd
        subst hd
        exact ⟨.error, by simp⟩

theorem insert_reports {h : DbObject} {o : Orders} {r : Replies}
    {out : Outcome (Option GoError)} (hi : insert h o r = .ok out) (herr : out.ret ≠ none) :
    ∃ s, Event.report s ∈ out.trace := by
  unfold insert at hi
  cases hs : insertStatement h o with
  | error f => simp [hs] at hi
  | ok qb =>
    obtain ⟨query0, bind⟩ := qb
    simp only [hs] at hi
    by_cases hl : h.LoadAfterInsert = true
    · rw [if_pos hl] at hi
      cases hq : r.queryRow with
      | error err =>
        simp only [hq, Except.ok.injEq] at hi
        subst hi
        exact ⟨.error, by simp⟩
      | ok data =>
        simp only [hq] at hi
        split at hi
        · simp at hi
        · split at hi
          · simp only [Except.ok.injEq] at hi
            subst hi
            exact ⟨.error, by simp⟩
          · simp only [Except.ok.injEq] at hi
            subst hi
            exact absurd rfl herr
    · rw [if_neg hl] at hi
      cases he : r.exec with
      | none =>
        simp only [he, Except.ok.injEq] at hi
        subst hi
        exact absurd rfl herr
      | some err =>
        simp only [he, Except.ok.injEq] at hi
        subst hi
        exact ⟨.error, by simp⟩

theorem Save_reports {h : DbObject} {o : Orders} {r : Replies}
    {out : Outcome (Option GoError)} (hs : Save h o r = .ok out) (herr : out.ret ≠ none) :
    ∃ s, Event.report s ∈ out.trace := by
  unfold Save at hs
  by_cases hl : h.loaded = true
  · rw [if_pos hl] at hs
    exact update_reports hs herr
  · rw [if_neg hl] at hs
    exact insert_reports hs herr

end DbObject

namespace DbHandler

/-- C14: a `Connect` whose `sql.Open` fails returns that error without any
notification to the error sink (the only event is the call of `sql.Open`).
Every other error return is preceded by a notification: of `Connect` when the
ping fails, of `Disconnect`, `Query`, `QueryRow`, `Exec` and `TruncateTables`,
and of `Load`, `Save` and `Delete`. -/
theorem errors_reported_except_sqlOpen :
    (∀ (md5hex : List Char → List Char) (p : Pool) (h : DbHandler) (dbURL : List Char)
      (e : GoError) (pingReply : Option GoError), p.conn (md5hex dbURL) = none →
      (Connect md5hex p h dbURL (.error e) pingReply).err = some e ∧
      (Connect md5hex p h dbURL (.error e) pingReply).trace = [.sqlOpen dbURL] ∧
      ∀ s, Event.report s ∉ (Connect md5hex p h dbURL (.error e) pingReply).trace) ∧
    (∀ (md5hex : List Char → List Char) (p : Pool) (h : DbHandler) (dbURL : List Char)
      (openReply : Except GoError Conn) (pingReply : Option GoError),
      (Connect md5hex p h dbURL openReply pingReply).err ≠ none →
      (∃ s, Event.report s ∈ (Connect md5hex p h dbURL openReply pingReply).trace) ∨
      (p.conn (md5hex dbURL) = none ∧ ∃ e, openReply = .error e)) ∧
    (∀ (p : Pool) (h : DbHandler) (closeReply : Option GoError),
      (Disconnect p h closeReply).err ≠ none →
      ∃ s, Event.report s ∈ (Disconnect p h closeReply).trace) ∧
    (∀ (isPrintTable : Char → Bool) (p : Pool) (h : DbHandler) (query : List Char)
      (args : List Value) (reply : QueryReply),
      ((Query isPrintTable p h query args reply).err ≠ none →
        ∃ s, Event.report s ∈ (Query isPrintTable p h query args reply).trace) ∧
      ((QueryRow isPrintTable p h query args reply).err ≠ none →
        ∃ s, Event.report s ∈ (QueryRow isPrintTable p h query args reply).trace)) ∧
    (∀ (p : Pool) (h : DbHandler) (query : List Char) (args : List Value)
      (reply : Option GoError), (Exec p h query args reply).err ≠ none →
      ∃ s, Event.report s ∈ (Exec p h query args reply).trace) ∧
    (∀ (p : Pool) (h : DbHandler) (tables : List (List Char))
      (replies : List (Option GoError)), (TruncateTables p h tables replies).err ≠ none →
      ∃ s, Event.report s ∈ (TruncateTables p h tables replies).trace) ∧
    (∀ (h : DbObject) (whereParams : GoMap Value) (order : List (List Char × Value))
      (reply : DbObject.RowReply) (out : DbObject.Outcome (Bool × Option GoError)),
      DbObject.Load h whereParams order reply = .ok out → out.ret.2 ≠ none →
      ∃ s, Event.report s ∈ out.trace) ∧
    (∀ (h : DbObject) (o : DbObject.Orders) (r : DbObject.Replies)
      (out : DbObject.Outcome (Option GoError)),
      DbObject.Save h o r = .ok out → out.ret ≠ none → ∃ s, Event.report s ∈ out.trace) ∧
    (∀ (h : DbObject) (order : List (List Char × Value)) (execReply : Option GoError)
      (out : DbObject.Outcome (Option GoError)),
      DbObject.Delete h order execReply = .ok out → out.ret ≠ none →
      ∃ s, Event.report s ∈ out.trace) := by
  refine ⟨?_, Connect_reports, Disconnect_reports, ?_, Exec_reports, TruncateTables_reports,
    ?_, ?_, ?_⟩
  · intro md5hex p h dbURL e pingReply hc
    have heq : Connect md5hex p h dbURL (.error e) pingReply =
        ⟨{ p with dbh := Pool.put p.dbh (md5hex dbURL) none }, h, some e,
          [.sqlOpen dbURL]⟩ := by
      simp only [Connect, hc]
    rw [heq]
    refine ⟨rfl, rfl, ?_⟩
    intro s hs
    simp at hs
  · intro isPrintTable p h query args reply
    exact ⟨Query_reports isPrintTable p h query args reply,
      QueryRow_reports isPrintTable p h query args reply⟩
  · intro h whereParams order reply out hload herr
    exact DbObject.Load_reports hload herr
  · intro h o r out hs herr
    exact DbObject.Save_reports hs herr
  · intro h order execReply out hd herr
    exact DbObject.Delete_reports hd herr

/-- Witness for C14: the first `Connect` of a process, `sql.Open` failing. -/
theorem errors_reported_except_sqlOpen_witness :
    (Connect id Pool.init New "db".toList (.error "unknown driver".toList) none).err =
      some "unknown driver".toList ∧
    (Connect id Pool.init New "db".toList (.error "unknown driver".toList) none).trace =
      [.sqlOpen "db".toList] := by
  obtain ⟨h1, h2, _⟩ :=
    errors_reported_except_sqlOpen.1 id Pool.init New "db".toList "unknown driver".toList
      none rfl
  exact ⟨h1, h2⟩

end DbHandler

namespace DbObject

/-! ## A `Load` that fails -/

/-- C20: a `Load` that fails on an empty condition leaves the handle as it
was.  A `Load` whose query fails leaves `changed`, `functions`, `where` and
`loaded` as they were but has put the nil map that `QueryRow` returned with the
error into `fields`: the snapshot is lost, every `Get` returns the empty text,
and every later `Set` panics with an assignment to an entry of a nil map. -/
theorem Load_failure_clears_fields :
    (∀ (h : DbObject) (whereParams : GoMap Value) (order : List (List Char × Value))
      (e : GoError), whereParams.len ≠ 0 → (∀ x ∈ order, x.1 ≠ []) →
      ∃ out, Load h whereParams order (.error e) = .ok out ∧
        out.ret = (false, some e) ∧
        out.self.fields = GoMap.nil ∧
        out.self.changed = h.changed ∧ out.self.functions = h.functions ∧
        out.self.where_ = h.where_ ∧ out.self.loaded = h.loaded ∧
        (∀ fieldName, Get out.self fieldName = []) ∧
        (∀ fieldName fieldValue, Set out.self fieldName fieldValue = .error .nilMapWrite)) ∧
    (∀ (h : DbObject) (whereParams : GoMap Value) (order : List (List Char × Value))
      (reply : RowReply), whereParams.len = 0 →
      ∃ out, Load h whereParams order reply = .ok out ∧ out.ret.2 ≠ none ∧ out.self = h) ∧
    (∀ (isPrintTable : Char → Bool) (p : Pool) (hd : DbHandler) (query : List Char)
      (args : List Value) (reply : QueryReply),
      (DbHandler.QueryRow isPrintTable p hd query args reply).err ≠ none →
      (DbHandler.QueryRow isPrintTable p hd query args reply).data = GoMap.nil) ∧
    (∃ out h',
      Load Example.loadedHandle (GoMap.mk [("id".toList, .int 3)]) [("id".toList, .int 3)]
        (.error "connection closed".toList) = .ok out ∧
      out.ret = (false, some "connection closed".toList) ∧
      out.self.fields ≠ Example.loadedHandle.fields ∧
      Get Example.loadedHandle "name".toList = "Ada".toList ∧
      Get out.self "name".toList = [] ∧
      Set Example.loadedHandle "name".toList (.str "Bob".toList) = .ok h' ∧
      Set out.self "name".toList (.str "Bob".toList) = .error .nilMapWrite) := by
  refine ⟨?_, ?_, ?_, ?_⟩
  · intro h whereParams order e hlen hk
    refine ⟨_, Load_of_keys_ne_nil h whereParams order (.error e) hlen hk, rfl, rfl, rfl, rfl,
      rfl, rfl, ?_, ?_⟩
    · intro fieldName
      rfl
    · intro fieldName fieldValue
      rfl
  · intro h whereParams order reply hlen
    refine ⟨⟨h, (false, some "No \"WHERE\" parameters passed.".toList), [.report .error]⟩,
      ?_, by simp, rfl⟩
    unfold Load
    rw [if_pos hlen]
  · intro isPrintTable p hd query args reply herr
    exact ((DbHandler.QueryRow_data isPrintTable p hd query args reply).1 herr).1
  · exact ⟨_, _, rfl, rfl, by decide, rfl, rfl, rfl, rfl⟩

/-- Witness for C20: a new handle, a `Load` by `id` whose query fails. -/
theorem Load_failure_clears_fields_witness :
    ∃ out, Load (New "t".toList) (GoMap.mk [("id".toList, .int 3)]) [("id".toList, .int 3)]
        (.error "timeout".toList) = .ok out ∧
      out.self.fields = GoMap.nil ∧
      Set out.self "name".toList (.str "Ada".toList) = .error .nilMapWrite := by
  obtain ⟨out, h1, _, h2, _, _, _, _, _, h3⟩ :=
    Load_failure_clears_fields.1 (New "t".toList) (GoMap.mk [("id".toList, .int 3)])
      [("id".toList, .int 3)] "timeout".toList (by decide) (by decide)
  exact ⟨out, h1, h2, h3 _ _⟩

end DbObject
